import Mathlib

/-!
# Clixon backend: startup reconciler and backend main

A shallow embedding of `apps/backend/backend_main.c`.  The C functions are
written as state-passing functions over a `World`; the datastore library
(`xmldb_*`), the transaction manager (`candidate_commit`) and the plugin
registry are not part of the embedded file and are modelled from the
specification, with an oracle (`Env.fault`) that decides which calls fail.
-/

namespace Clixon

/-! ## Data model -/

/-- Value of errno for a missing file. -/
def ENOENT : Nat := 2

/-- Value of errno for a refused access. -/
def EACCES : Nat := 13

/-- Value of errno for a file that is already there. -/
def EEXIST : Nat := 17

/-- Edit operation of `xmldb_put` (NETCONF edit-config). -/
inductive operation_type where
  | OP_MERGE
  | OP_REPLACE
  deriving DecidableEq, Repr

/-- Startup modes, as in `enum startup_mode_t`. -/
inductive startup_mode_t where
  | SM_NONE
  | SM_STARTUP
  | SM_RUNNING
  | SM_INIT
  deriving DecidableEq, Repr

/-- Calls that leave the embedded file: every one of them is counted and recorded in
the trace, and those that return a status may be made to fail by the oracle.
`reconcile` and `reconcile_return` are the two ghost entries: they mark the call
of a `startup_mode_*` function in `main` and its return (a success for a return
value that is not negative). -/
inductive Op where
  | xmldb_copy (src dst : String)
  | xmldb_create (db : String)
  | xmldb_delete (db : String)
  | xmldb_get (db : String)
  | xmldb_put (db : String)
  | candidate_commit (src : String)
  | backend_plugin_initiate
  | clixon_plugin_reset (db : String)
  | clixon_plugin_start (argv : List String)
  | open_file (path : String)
  | xml_parse_file (path : String)
  | xml_rootchild
  | reconcile (mode : startup_mode_t)
  | reconcile_return (mode : startup_mode_t)
  | backend_handle_init
  | clicon_log_file (path : String)
  | clicon_options_main
  | nacm_load_external
  | pidfile_get (path : String)
  | pidfile_zapold (pid : Nat)
  | unlink (path : String)
  | group_name2gid (group : String)
  | stream_register (name : String)
  | xmldb_plugin_load (name : String)
  | xmldb_connect
  | yang_spec_main
  | yang_spec_append (name : String)
  | xmldb_setopt (name : String)
  | daemon
  | pidfile_write (path : String)
  | clicon_log_register_callback
  | set_signal (signo : Nat)
  | backend_socket_init
  | event_reg_fd
  | close_fd
  | event_loop
  | clixon_plugin_exit
  | usage
  | exit (status : Int)
  deriving DecidableEq, Repr

/-- The named databases: `none` is a database that is not materialized. -/
abbrev Dbs (Tree : Type) := String → Option Tree

/-- Replace the content of one database. -/
def Dbs.set {Tree : Type} (d : Dbs Tree) (name : String) (v : Option Tree) : Dbs Tree :=
  fun n => if n = name then v else d n

/-- One entry of the trace: the call, whether it succeeded, and the databases
as they were when the call was made. -/
structure Event (Tree : Type) where
  op : Op
  ok : Bool
  dbs : Dbs Tree

/-- What the backend runs against: the behaviour of the tree type, of the
plugins, of the files it reads, and the oracle of failures. -/
structure Env (Tree : Type) where
  /-- The empty configuration tree. -/
  empty : Tree
  /-- Result of `merge x base`: `base` with `x` merged into it. -/
  merge : Tree → Tree → Tree
  /-- Combined effect of the plugins reset hooks on the content of the database they are given. -/
  reset : Tree → Tree
  /-- XML files on disk: the tree under the top element, `none` when the file is not there. -/
  xmlfile : String → Option Tree
  /-- The oracle: `fault op n = some e` makes the call number `n` of `op` fail with errno `e`. -/
  fault : Op → Nat → Option Nat
  /-- Options set by the configuration file named by `CLICON_CONFIGFILE`. -/
  configfile : String → Option (List (String × String))
  /-- Process id found by `pidfile_get` (0: no live daemon). -/
  oldpid : Nat

/-- State of the process and of what it acts on. -/
structure World (Tree : Type) where
  /-- The datastore. -/
  dbs : Dbs Tree
  /-- How many times each call has been made. -/
  calls : Op → Nat
  /-- Last error number. -/
  errno : Nat
  /-- Trace of the calls made, the latest first. -/
  log : List (Event Tree)
  /-- Options held by the clicon handle. -/
  options : String → Option String
  /-- Paths that exist in the file system (pid file, socket). -/
  fs : String → Bool
  /-- The argument vector of the process. -/
  argv : List String

/-- Count one more call of `op`. -/
def bump (calls : Op → Nat) (op : Op) : Op → Nat :=
  fun o => if o = op then calls o + 1 else calls o

/-- Make one outside call: ask the oracle, count the call, record it; when the
oracle lets it through, `eff` gives the new datastore or `none` when the call
fails on the datastore as it is (then errno is `e0`). A failed call changes no
database. Returns 0 or -1. -/
def perform {Tree : Type} (env : Env Tree) (op : Op) (e0 : Nat)
    (eff : Dbs Tree → Option (Dbs Tree)) (w : World Tree) : Int × World Tree :=
  match env.fault op (w.calls op) with
  | some e =>
    (-1, { w with calls := bump w.calls op, errno := e, log := ⟨op, false, w.dbs⟩ :: w.log })
  | none =>
    match eff w.dbs with
    | none =>
      (-1, { w with calls := bump w.calls op, errno := e0, log := ⟨op, false, w.dbs⟩ :: w.log })
    | some d =>
      (0, { w with dbs := d, calls := bump w.calls op, log := ⟨op, true, w.dbs⟩ :: w.log })

/-! ## Datastore, transaction manager and plugin registry -/

/-- Modelled from the spec: `xmldb_exists` of the datastore library, `exists(db) → bool`;
1 when the database is materialized, 0 otherwise. -/
def xmldb_exists {Tree : Type} (db : String) (w : World Tree) : Int :=
  if (w.dbs db).isSome then 1 else 0

/-- Modelled from the spec: `xmldb_copy` of the datastore library, atomic replace of `dst`
by a copy of `src`; fails when `src` is not materialized. -/
def xmldb_copy {Tree : Type} (env : Env Tree) (src dst : String) (w : World Tree) :
    Int × World Tree :=
  perform env (.xmldb_copy src dst) ENOENT
    (fun d => (d src).map (fun t => d.set dst (some t))) w

/-- Modelled from the spec: `xmldb_create` of the datastore library, materialize the empty
tree; fails if the database already exists. -/
def xmldb_create {Tree : Type} (env : Env Tree) (db : String) (w : World Tree) :
    Int × World Tree :=
  perform env (.xmldb_create db) EEXIST
    (fun d => match d db with
      | none => some (d.set db (some env.empty))
      | some _ => none) w

/-- Modelled from the spec: `xmldb_delete` of the datastore library, remove the database;
idempotent. -/
def xmldb_delete {Tree : Type} (env : Env Tree) (db : String) (w : World Tree) :
    Int × World Tree :=
  perform env (.xmldb_delete db) EACCES (fun d => some (d.set db none)) w

/-- Modelled from the spec: `xmldb_get` of the datastore library, the tree of a
materialized database. -/
def xmldb_get {Tree : Type} (env : Env Tree) (db : String) (w : World Tree) :
    Int × Option Tree × World Tree :=
  let p := perform env (.xmldb_get db) ENOENT (fun d => (d db).map (fun _ => d)) w
  (p.1, (if p.1 < 0 then none else w.dbs db), p.2)

/-- Modelled from the spec: `xmldb_put` of the datastore library: `merge` overlays the tree
on the content of the database, `replace` substitutes it; the database must be
materialized. Nothing is committed. -/
def xmldb_put {Tree : Type} (env : Env Tree) (db : String) (op : operation_type) (xt : Tree)
    (w : World Tree) : Int × World Tree :=
  perform env (.xmldb_put db) ENOENT
    (fun d => (d db).map (fun t =>
      match op with
      | .OP_MERGE => d.set db (some (env.merge xt t))
      | .OP_REPLACE => d.set db (some xt))) w

/-- Modelled from the spec: `candidate_commit` of the transaction manager. On success
`running` is replaced by the content of the source; a failure (validation or a plugin
hook) leaves `running` as it was. The source and `running` must be materialized. -/
def candidate_commit {Tree : Type} (env : Env Tree) (source : String) (w : World Tree) :
    Int × World Tree :=
  perform env (.candidate_commit source) EACCES
    (fun d => match d source, d "running" with
      | some t, some _ => some (d.set "running" (some t))
      | _, _ => none) w

/-- Modelled from the spec: `backend_plugin_initiate`, load the plugins and call their init
hooks; it changes no database. Returns 0 or -1. -/
def backend_plugin_initiate {Tree : Type} (env : Env Tree) (w : World Tree) :
    Int × World Tree :=
  perform env .backend_plugin_initiate EACCES (fun d => some d) w

/-- Modelled from the spec: `clixon_plugin_reset`, the plugins write their initial content
into the named database. -/
def clixon_plugin_reset {Tree : Type} (env : Env Tree) (db : String) (w : World Tree) :
    Int × World Tree :=
  perform env (.clixon_plugin_reset db) ENOENT
    (fun d => (d db).map (fun t => d.set db (some (env.reset t)))) w

/-- Modelled from the spec: `clixon_plugin_start`, the start hooks called with an argument
vector; it changes no database. -/
def clixon_plugin_start {Tree : Type} (env : Env Tree) (argv : List String) (w : World Tree) :
    Int × World Tree :=
  perform env (.clixon_plugin_start argv) EACCES (fun d => some d) w

/-- An outside call that acts on no database: 0, or -1 when the oracle fails it. -/
def extcall {Tree : Type} (env : Env Tree) (op : Op) (w : World Tree) : Int × World Tree :=
  perform env op EACCES (fun d => some d) w

/-! ## backend_main.c: database helpers -/

/-- Embedding of `db_reset`: delete the database if it is there, then create it empty. -/
def db_reset {Tree : Type} (env : Env Tree) (db : String) (w : World Tree) :
    Int × World Tree :=
  if xmldb_exists db w = 1 then
    let p := xmldb_delete env db w
    if p.1 ≠ 0 ∧ p.2.errno ≠ ENOENT then (-1, p.2)
    else
      let q := xmldb_create env db p.2
      if q.1 < 0 then (-1, q.2) else (0, q.2)
  else
    let q := xmldb_create env db w
    if q.1 < 0 then (-1, q.2) else (0, q.2)

/-- The statement `if (xmldb_exists(h, db) != 1) if (xmldb_create(h, db) < 0) return -1;`
of `main` and of `startup_mode_startup`, up to the test of the result: the result of the
create when the database is not there, 0 otherwise. -/
def xmldb_create_if_absent {Tree : Type} (env : Env Tree) (db : String) (w : World Tree) :
    Int × World Tree :=
  if xmldb_exists db w ≠ 1 then xmldb_create env db w else (0, w)

/-- Embedding of `db_merge`: merge `db1` into `db2` without commit. -/
def db_merge {Tree : Type} (env : Env Tree) (db1 db2 : String) (w : World Tree) :
    Int × World Tree :=
  let g := xmldb_get env db1 w
  if g.1 < 0 then (-1, g.2.2)
  else
    match g.2.1 with
    | none => (-1, g.2.2)
    | some xt =>
      let p := xmldb_put env db2 .OP_MERGE xt g.2.2
      if p.1 < 0 then (-1, p.2) else (0, p.2)

/-- Embedding of `load_extraxml`: merge the xml of a file into a database; no file name,
nothing to do. -/
def load_extraxml {Tree : Type} (env : Env Tree) (filename : Option String) (db : String)
    (w : World Tree) : Int × World Tree :=
  match filename with
  | none => (0, w)
  | some f =>
    let o := perform env (.open_file f) ENOENT
      (fun d => (env.xmlfile f).map (fun _ => d)) w
    if o.1 < 0 then (-1, o.2)
    else
      let p := extcall env (.xml_parse_file f) o.2
      if p.1 < 0 then (-1, p.2)
      else
        let r := extcall env .xml_rootchild p.2
        if r.1 < 0 then (-1, r.2)
        else
          match env.xmlfile f with
          | none => (-1, r.2)
          | some xt =>
            let m := xmldb_put env db .OP_MERGE xt r.2
            if m.1 < 0 then (-1, m.2) else (0, m.2)

/-! ## backend_main.c: the startup modes -/

/-- Embedding of `startup_mode_none`: do not touch the running state. -/
def startup_mode_none {Tree : Type} (env : Env Tree) (w : World Tree) : Int × World Tree :=
  if xmldb_exists "candidate" w ≠ 1 then
    let c := xmldb_copy env "running" "candidate" w
    if c.1 < 0 then (-1, c.2)
    else
      let p := backend_plugin_initiate env c.2
      if p.1 ≠ 0 then (-1, p.2) else (0, p.2)
  else
    let p := backend_plugin_initiate env w
    if p.1 ≠ 0 then (-1, p.2) else (0, p.2)

/-- Embedding of `startup_mode_init`: start with a completely clean running state. -/
def startup_mode_init {Tree : Type} (env : Env Tree) (w : World Tree) : Int × World Tree :=
  let r := db_reset env "running" w
  if r.1 < 0 then (-1, r.2)
  else if xmldb_exists "candidate" r.2 ≠ 1 then
    let c := xmldb_copy env "running" "candidate" r.2
    if c.1 < 0 then (-1, c.2)
    else
      let p := backend_plugin_initiate env c.2
      if p.1 ≠ 0 then (-1, p.2) else (0, p.2)
  else
    let p := backend_plugin_initiate env r.2
    if p.1 ≠ 0 then (-1, p.2) else (0, p.2)

/-- The `done` label of `startup_mode_running`: delete `tmp`, and go back to `done` for as
long as the delete fails. One unit of fuel per pass. -/
def startup_mode_running_done {Tree : Type} (env : Env Tree) :
    Nat → Int → World Tree → Option (Int × World Tree)
  | 0, _, _ => none
  | fuel + 1, retval, w =>
    let d := xmldb_delete env "tmp" w
    if d.1 < 0 then startup_mode_running_done env fuel retval d.2
    else some (retval, d.2)

/-- Embedding of `startup_mode_running`: commit the running configuration into running.
`fuel` bounds the passes through the `done` label. -/
def startup_mode_running {Tree : Type} (env : Env Tree) (extraxml_file : Option String)
    (fuel : Nat) (w : World Tree) : Option (Int × World Tree) :=
  let c := xmldb_copy env "running" "candidate" w
  if c.1 < 0 then startup_mode_running_done env fuel (-1) c.2 else
  let p := backend_plugin_initiate env c.2
  if p.1 ≠ 0 then startup_mode_running_done env fuel (-1) p.2 else
  let t := db_reset env "tmp" p.2
  if t.1 < 0 then startup_mode_running_done env fuel (-1) t.2 else
  let a := clixon_plugin_reset env "tmp" t.2
  if a.1 < 0 then startup_mode_running_done env fuel (-1) a.2 else
  let x := load_extraxml env extraxml_file "tmp" a.2
  if x.1 < 0 then startup_mode_running_done env fuel (-1) x.2 else
  let r := db_reset env "running" x.2
  if r.1 < 0 then startup_mode_running_done env fuel (-1) r.2 else
  let k := candidate_commit env "candidate" r.2
  if k.1 < 0 then
    let b := xmldb_copy env "candidate" "running" k.2
    startup_mode_running_done env fuel (-1) b.2
  else
  let m := db_merge env "tmp" "running" k.2
  if m.1 < 0 then startup_mode_running_done env fuel (-1) m.2 else
  startup_mode_running_done env fuel 0 m.2

/-- The `done` label of `startup_mode_startup`: delete `backup`, then `tmp`, and go back to
`done` when either delete fails. One unit of fuel per pass. -/
def startup_mode_startup_done {Tree : Type} (env : Env Tree) :
    Nat → Int → World Tree → Option (Int × World Tree)
  | 0, _, _ => none
  | fuel + 1, retval, w =>
    let b := xmldb_delete env "backup" w
    if b.1 < 0 then startup_mode_startup_done env fuel retval b.2
    else
      let d := xmldb_delete env "tmp" b.2
      if d.1 < 0 then startup_mode_startup_done env fuel retval d.2
      else some (retval, d.2)

/-- Embedding of `startup_mode_startup`: commit the startup configuration into running.
`fuel` bounds the passes through the `done` label. -/
def startup_mode_startup {Tree : Type} (env : Env Tree) (extraxml_file : Option String)
    (fuel : Nat) (w : World Tree) : Option (Int × World Tree) :=
  let c := xmldb_copy env "running" "backup" w
  if c.1 < 0 then startup_mode_startup_done env fuel (-1) c.2 else
  let s := xmldb_create_if_absent env "startup" c.2
  if s.1 < 0 then some (-1, s.2) else
  let p := backend_plugin_initiate env s.2
  if p.1 ≠ 0 then startup_mode_startup_done env fuel (-1) p.2 else
  let t := db_reset env "tmp" p.2
  if t.1 < 0 then startup_mode_startup_done env fuel (-1) t.2 else
  let a := clixon_plugin_reset env "tmp" t.2
  if a.1 < 0 then startup_mode_startup_done env fuel (-1) a.2 else
  let x := load_extraxml env extraxml_file "tmp" a.2
  if x.1 < 0 then startup_mode_startup_done env fuel (-1) x.2 else
  let r := db_reset env "running" x.2
  if r.1 < 0 then startup_mode_startup_done env fuel (-1) r.2 else
  let k := candidate_commit env "startup" r.2
  if k.1 < 0 then
    let b := xmldb_copy env "backup" "running" k.2
    startup_mode_startup_done env fuel (-1) b.2
  else
  let m := db_merge env "tmp" "running" k.2
  if m.1 < 0 then startup_mode_startup_done env fuel (-1) m.2 else
  startup_mode_startup_done env fuel 0 m.2

/-! ## Options of the handle and of the command line -/

/-- Record a call that cannot fail. -/
def record {Tree : Type} (op : Op) (w : World Tree) : World Tree :=
  { w with calls := bump w.calls op, log := ⟨op, true, w.dbs⟩ :: w.log }

/-- Record a ghost entry with the outcome it reports. -/
def mark {Tree : Type} (op : Op) (ok : Bool) (w : World Tree) : World Tree :=
  { w with calls := bump w.calls op, log := ⟨op, ok, w.dbs⟩ :: w.log }

/-- Modelled from the spec: `clicon_option_str` of the options library, the value of an
option of the handle. -/
def clicon_option_str {Tree : Type} (w : World Tree) (name : String) : Option String :=
  w.options name

/-- Modelled from the spec: `clicon_option_str_set` of the options library. -/
def clicon_option_str_set {Tree : Type} (name val : String) (w : World Tree) : World Tree :=
  { w with options := fun n => if n = name then some val else w.options n }

/-- Modelled from the spec: `clicon_option_bool` of the options library, 1 for an option
set to `true`, 0 otherwise. -/
def clicon_option_bool {Tree : Type} (w : World Tree) (name : String) : Int :=
  match w.options name with
  | some "true" => 1
  | _ => 0

/-- Modelled from the spec: `clicon_startup_mode`, the mode named by `CLICON_STARTUP_MODE`
(`-s none|startup|running|init`); `none` stands for -1. -/
def clicon_startup_mode {Tree : Type} (w : World Tree) : Option startup_mode_t :=
  match w.options "CLICON_STARTUP_MODE" with
  | some "none" => some .SM_NONE
  | some "startup" => some .SM_STARTUP
  | some "running" => some .SM_RUNNING
  | some "init" => some .SM_INIT
  | _ => none

/-- Socket families of `clicon_sock_family`. -/
inductive sock_family where
  | AF_UNIX
  | AF_INET
  | AF_INET6
  deriving DecidableEq, Repr

/-- Modelled from the spec: `clicon_sock_family` (`-a UNIX|IPv4|IPv6`), UNIX by default. -/
def clicon_sock_family {Tree : Type} (w : World Tree) : sock_family :=
  match w.options "CLICON_SOCK_FAMILY" with
  | some "IPv4" => .AF_INET
  | some "IPv6" => .AF_INET6
  | _ => .AF_UNIX

/-- Log destinations. -/
def CLICON_LOG_SYSLOG : Int := 1

/-- Log on stderr. -/
def CLICON_LOG_STDERR : Int := 2

/-- Log on stdout. -/
def CLICON_LOG_STDOUT : Int := 4

/-- Log on a file. -/
def CLICON_LOG_FILE : Int := 8

/-- Modelled from the spec: `clicon_log_opt` (`-l s|e|o|f<file>`); -1 for another letter. -/
def clicon_log_opt (c : Char) : Int :=
  if c = 's' then CLICON_LOG_SYSLOG
  else if c = 'e' then CLICON_LOG_STDERR
  else if c = 'o' then CLICON_LOG_STDOUT
  else if c = 'f' then CLICON_LOG_FILE
  else -1

/-- Command line options to be passed to getopt(3). -/
def BACKEND_OPTS : String := "hD:f:l:d:b:Fza:u:P:1s:c:g:y:x:"

/-- Look an option letter up in an option string: `none` when it is not there, else
whether it takes an argument. -/
def optlookup : List Char → Char → Option Bool
  | [], _ => none
  | o :: rest, c =>
    if o = c ∧ c ≠ ':' then some (rest.head? = some ':') else optlookup rest c

/-- What getopt(3) finds in one argument `-abc`: the letters left in the argument and the
arguments that follow give the options (letter and optarg, `?` for an unknown letter or a
missing argument), whether the next argument was taken as optarg, and the rest. -/
def getopt_cluster (optstring : List Char) :
    List Char → List String → List (Char × String) × Bool × List String
  | [], rest => ([], false, rest)
  | c :: cs, rest =>
    match optlookup optstring c with
    | none =>
      let r := getopt_cluster optstring cs rest
      (('?', "") :: r.1, r.2)
    | some false =>
      let r := getopt_cluster optstring cs rest
      ((c, "") :: r.1, r.2)
    | some true =>
      match cs, rest with
      | _ :: _, _ => ([(c, String.mk cs)], false, rest)
      | [], [] => ([('?', "")], false, [])
      | [], a :: rest1 => ([(c, a)], true, rest1)

/-- Result of running getopt(3) to the end over the arguments after `argv[0]`. -/
structure getopt_result where
  /-- Values returned by the successive calls, with optarg. -/
  opts : List (Char × String)
  /-- Arguments consumed as options, in order. -/
  consumed : List String
  /-- Arguments that are not options, in order (argv is permuted so that they come last). -/
  residual : List String

/-- Modelled from getopt(3) of the C library (GNU): options are scanned in every
argument, `--` ends the scan, and the other arguments are moved to the end. -/
def getopt_scan (optstring : List Char) : Nat → List String → getopt_result
  | 0, args => ⟨[], [], args⟩
  | _ + 1, [] => ⟨[], [], []⟩
  | fuel + 1, a :: rest =>
    if a = "--" then ⟨[], [a], rest⟩
    else
      match a.toList with
      | '-' :: c :: cs =>
        let r := getopt_cluster optstring (c :: cs) rest
        let q := getopt_scan optstring fuel r.2.2
        ⟨r.1 ++ q.opts, (a :: (if r.2.1 then rest.take 1 else [])) ++ q.consumed, q.residual⟩
      | _ =>
        let q := getopt_scan optstring fuel rest
        ⟨q.opts, q.consumed, a :: q.residual⟩

/-- The loop `while ((c = getopt(argc, argv, optstring)) != -1)` run over `argv`. -/
def getopt_all (optstring : String) (argv : List String) : getopt_result :=
  getopt_scan optstring.toList argv.length argv.tail

/-- Modelled from sscanf(3) with the format of a decimal integer. -/
def sscanf_d (s : String) : Option Int :=
  s.toInt?

/-! ## backend_main.c: terminate, usage, server socket, plugin start -/

/-- Modelled from unlink(2): remove a path; fails when the path is not there. -/
def unlink {Tree : Type} (env : Env Tree) (path : String) (w : World Tree) : Int × World Tree :=
  match env.fault (.unlink path) (w.calls (.unlink path)) with
  | some e =>
    (-1, { w with calls := bump w.calls (.unlink path), errno := e,
                  log := ⟨.unlink path, false, w.dbs⟩ :: w.log })
  | none =>
    if w.fs path then
      (0, { w with fs := fun p => if p = path then false else w.fs p,
                   calls := bump w.calls (.unlink path),
                   log := ⟨.unlink path, true, w.dbs⟩ :: w.log })
    else
      (-1, { w with calls := bump w.calls (.unlink path), errno := ENOENT,
                    log := ⟨.unlink path, false, w.dbs⟩ :: w.log })

/-- Embedding of `backend_terminate`: plugin exit, then unlink the pid file and the socket
path when they are set. Returns 0; only the world is kept. -/
def backend_terminate {Tree : Type} (env : Env Tree) (w : World Tree) : World Tree :=
  let w1 := record .clixon_plugin_exit w
  let w2 := match clicon_option_str w1 "CLICON_BACKEND_PIDFILE" with
    | some pidfile => (unlink env pidfile w1).2
    | none => w1
  match clicon_option_str w2 "CLICON_SOCK" with
  | some sockpath => (unlink env sockpath w2).2
  | none => w2

/-- Embedding of `usage`: print the usage text and `exit(-1)`. -/
def usage {Tree : Type} (w : World Tree) : Int × World Tree :=
  (-1, record (.exit (-1)) (record .usage w))

/-- Embedding of `server_socket`: open the control socket and register the accept
callback on it. -/
def server_socket {Tree : Type} (env : Env Tree) (w : World Tree) : Int × World Tree :=
  let s := extcall env .backend_socket_init w
  if s.1 < 0 then (-1, s.2)
  else
    let sock := (clicon_option_str s.2 "CLICON_SOCK").getD ""
    let s1 : World Tree := { s.2 with fs := fun p => if p = sock then true else s.2.fs p }
    let e := extcall env .event_reg_fd s1
    if e.1 < 0 then (-1, record .close_fd e.2) else (0, e.2)

/-- Embedding of `plugin_start_useroptions`: call the plugin start hooks with the program
name put in front of the arguments left at `argv + optind`. -/
def plugin_start_useroptions {Tree : Type} (env : Env Tree) (argv0 : String) (optind : Nat)
    (w : World Tree) : Int × World Tree :=
  let tmp := w.argv.getD (optind - 1) ""
  let w1 : World Tree := { w with argv := w.argv.set (optind - 1) argv0 }
  let p := clixon_plugin_start env (w1.argv.drop (optind - 1)) w1
  if p.1 < 0 then (-1, p.2)
  else (0, { p.2 with argv := p.2.argv.set (optind - 1) tmp })

/-! ## backend_main.c: main -/

/-- Local variables of `main` set by the command line. -/
structure main_locals where
  help : Bool
  debug : Int
  logdst : Int
  foreground : Bool
  once : Bool
  zap : Nat
  extraxml_file : Option String

/-- The `done` label of `main`: terminate and return `retval`. -/
def main_done {Tree : Type} (env : Env Tree) (retval : Int) (w : World Tree) :
    Int × World Tree :=
  (retval, backend_terminate env w)

/-- First loop over the options of `main`: help, debug, config file and log destination.
`error` is the end of the process (its status and world), `ok` goes on. -/
def main_args1 {Tree : Type} (env : Env Tree) :
    List (Char × String) → main_locals → World Tree →
      Except (Int × World Tree) (main_locals × World Tree)
  | [], l, w => .ok (l, w)
  | (c, optarg) :: rest, l, w =>
    if c = 'h' then main_args1 env rest { l with help := true } w
    else if c = 'D' then
      match sscanf_d optarg with
      | none => .error (usage w)
      | some d => main_args1 env rest { l with debug := d } w
    else if c = 'f' then
      if optarg.length = 0 then .error (usage w)
      else main_args1 env rest l (clicon_option_str_set "CLICON_CONFIGFILE" optarg w)
    else if c = 'l' then
      let logdst := clicon_log_opt (optarg.get 0)
      if logdst < 0 then .error (usage w)
      else if logdst = CLICON_LOG_FILE ∧ optarg.length > 1 then
        let f := extcall env (.clicon_log_file (optarg.drop 1)) w
        if f.1 < 0 then .error (main_done env (-1) f.2)
        else main_args1 env rest { l with logdst := logdst } f.2
      else main_args1 env rest { l with logdst := logdst } w
    else main_args1 env rest l w

/-- Second loop over the options of `main`: the operational arguments. -/
def main_args2 {Tree : Type} :
    List (Char × String) → main_locals → World Tree →
      Except (Int × World Tree) (main_locals × World Tree)
  | [], l, w => .ok (l, w)
  | (c, optarg) :: rest, l, w =>
    if c = 'h' ∨ c = 'D' ∨ c = 'f' ∨ c = 'l' then main_args2 rest l w
    else if c = 'd' then
      if optarg.length = 0 then .error (usage w)
      else main_args2 rest l (clicon_option_str_set "CLICON_BACKEND_DIR" optarg w)
    else if c = 'b' then
      if optarg.length = 0 then .error (usage w)
      else main_args2 rest l (clicon_option_str_set "CLICON_XMLDB_DIR" optarg w)
    else if c = 'F' then main_args2 rest { l with foreground := true } w
    else if c = 'z' then main_args2 rest { l with zap := l.zap + 1 } w
    else if c = 'a' then
      main_args2 rest l (clicon_option_str_set "CLICON_SOCK_FAMILY" optarg w)
    else if c = 'u' then
      if optarg.length = 0 then .error (usage w)
      else main_args2 rest l (clicon_option_str_set "CLICON_SOCK" optarg w)
    else if c = 'P' then
      main_args2 rest l (clicon_option_str_set "CLICON_BACKEND_PIDFILE" optarg w)
    else if c = '1' then main_args2 rest { l with once := true } w
    else if c = 's' then
      let w1 := clicon_option_str_set "CLICON_STARTUP_MODE" optarg w
      if (clicon_startup_mode w1).isNone then .error (usage w1)
      else main_args2 rest l w1
    else if c = 'c' then main_args2 rest { l with extraxml_file := some optarg } w
    else if c = 'g' then
      main_args2 rest l (clicon_option_str_set "CLICON_SOCK_GROUP" optarg w)
    else if c = 'y' then
      main_args2 rest l (clicon_option_str_set "CLICON_YANG_MODULE_MAIN" optarg w)
    else if c = 'x' then
      main_args2 rest l (clicon_option_str_set "CLICON_XMLDB_PLUGIN" optarg w)
    else .error (usage w)

/-- Default configuration file, used when `-f` does not name one. -/
def CLIXON_DEFAULT_CONFIG : String := "/usr/local/etc/clixon.xml"

/-- Number of the termination signal. -/
def SIGTERM : Nat := 15

/-- Number of the interrupt signal. -/
def SIGINT : Nat := 2

/-- Modelled from the spec: `clicon_options_main` of the options library, find and read
the configuration file and load its options into the handle. -/
def clicon_options_main {Tree : Type} (env : Env Tree) (w : World Tree) : Int × World Tree :=
  match env.fault .clicon_options_main (w.calls .clicon_options_main) with
  | some e =>
    (-1, { w with calls := bump w.calls .clicon_options_main, errno := e,
                  log := ⟨.clicon_options_main, false, w.dbs⟩ :: w.log })
  | none =>
    match env.configfile ((w.options "CLICON_CONFIGFILE").getD CLIXON_DEFAULT_CONFIG) with
    | none =>
      (-1, { w with calls := bump w.calls .clicon_options_main, errno := ENOENT,
                    log := ⟨.clicon_options_main, false, w.dbs⟩ :: w.log })
    | some kvs =>
      (0, { w with
              options := kvs.foldl (fun o kv => fun n => if n = kv.1 then some kv.2 else o n)
                w.options,
              calls := bump w.calls .clicon_options_main,
              log := ⟨.clicon_options_main, true, w.dbs⟩ :: w.log })

/-- Modelled from the spec: `pidfile_write`, write the process id into the pid file. -/
def pidfile_write {Tree : Type} (env : Env Tree) (pidfile : String) (w : World Tree) :
    Int × World Tree :=
  let p := extcall env (.pidfile_write pidfile) w
  if p.1 < 0 then (-1, p.2)
  else (0, { p.2 with fs := fun q => if q = pidfile then true else p.2.fs q })

/-- Modelled from the spec: `pidfile_get`, the process id of a live daemon recorded in the
pid file, 0 when there is none. -/
def pidfile_get {Tree : Type} (env : Env Tree) (pidfile : String) (w : World Tree) :
    Int × Nat × World Tree :=
  let p := extcall env (.pidfile_get pidfile) w
  (p.1, (if w.fs pidfile then env.oldpid else 0), p.2)

/-- Embedding of `main`, from the daemonize step to the event loop (end of the function). -/
def main_serve {Tree : Type} (env : Env Tree) (l : main_locals) (pidfile : String)
    (w : World Tree) : Int × World Tree :=
  let d := if l.foreground = false then extcall env .daemon w else (0, w)
  if d.1 < 0 then (-1, record (.exit (-1)) d.2) else
  let pw := pidfile_write env pidfile d.2
  if pw.1 < 0 then main_done env (-1) pw.2 else
  let cb := extcall env .clicon_log_register_callback pw.2
  if cb.1 < 0 then main_done env (-1) cb.2 else
  let s1 := extcall env (.set_signal SIGTERM) cb.2
  if s1.1 < 0 then main_done env (-1) s1.2 else
  let s2 := extcall env (.set_signal SIGINT) s1.2
  if s2.1 < 0 then main_done env (-1) s2.2 else
  let ss := server_socket env s2.2
  if ss.1 < 0 then main_done env (-1) ss.2 else
  let el := extcall env .event_loop ss.2
  if el.1 < 0 then main_done env (-1) el.2 else
  main_done env 0 el.2

/-- Embedding of `main`, from the creation of `running` to the run-once test: the startup
mode is run, the shared candidate is initiated and the plugins are started. -/
def main_startup {Tree : Type} (env : Env Tree) (l : main_locals) (argv0 : String)
    (optind : Nat) (pidfile : String) (startup_mode : startup_mode_t) (fuel : Nat)
    (w : World Tree) : Option (Int × World Tree) :=
  let r := xmldb_create_if_absent env "running" w
  if r.1 < 0 then some (-1, r.2) else
  let m : Option (Int × World Tree) :=
    match startup_mode with
    | .SM_NONE => some (startup_mode_none env (record (.reconcile startup_mode) r.2))
    | .SM_INIT => some (startup_mode_init env (record (.reconcile startup_mode) r.2))
    | .SM_RUNNING =>
      startup_mode_running env l.extraxml_file fuel (record (.reconcile startup_mode) r.2)
    | .SM_STARTUP =>
      startup_mode_startup env l.extraxml_file fuel (record (.reconcile startup_mode) r.2)
  match m with
  | none => none
  | some m =>
    let w1 := mark (.reconcile_return startup_mode) (decide (0 ≤ m.1)) m.2
    if m.1 < 0 then some (main_done env (-1) w1) else
    let c := xmldb_copy env "running" "candidate" w1
    if c.1 < 0 then some (main_done env (-1) c.2) else
    let ps := plugin_start_useroptions env argv0 optind c.2
    if ps.1 < 0 then some (main_done env (-1) ps.2) else
    if l.once then some (main_done env (-1) ps.2) else
    some (main_serve env l pidfile ps.2)

/-- Embedding of `main`, from the check of the configuration group to the startup mode.
The test `clicon_option_str(h, "CLICON_XMLDB_FORMAT") >= 0` compares a pointer with 0 and
always holds, so the format is always set. -/
def main_setup {Tree : Type} (env : Env Tree) (l : main_locals) (argv0 : String)
    (optind : Nat) (pidfile : String) (fuel : Nat) (w : World Tree) :
    Option (Int × World Tree) :=
  match clicon_option_str w "CLICON_SOCK_GROUP" with
  | none => some (-1, w)
  | some config_group =>
    let g := extcall env (.group_name2gid config_group) w
    if g.1 < 0 then some (-1, g.2) else
    let n := extcall env (.stream_register "NETCONF") g.2
    if n.1 < 0 then some (main_done env (-1) n.2) else
    let c := extcall env (.stream_register "CLICON") n.2
    if c.1 < 0 then some (main_done env (-1) c.2) else
    match clicon_option_str c.2 "CLICON_XMLDB_PLUGIN" with
    | none => some (main_done env (-1) c.2)
    | some xmldb_plugin =>
      let pl := extcall env (.xmldb_plugin_load xmldb_plugin) c.2
      if pl.1 < 0 then some (main_done env (-1) pl.2) else
      let cn := extcall env .xmldb_connect pl.2
      if cn.1 < 0 then some (main_done env (-1) cn.2) else
      let ys := extcall env .yang_spec_main cn.2
      if ys.1 < 0 then some (main_done env (-1) ys.2) else
      let ya := extcall env (.yang_spec_append "ietf-restconf-monitoring") ys.2
      if ya.1 < 0 then some (main_done env (-1) ya.2) else
      let o1 := extcall env (.xmldb_setopt "dbdir") ya.2
      if o1.1 < 0 then some (main_done env (-1) o1.2) else
      let o2 := extcall env (.xmldb_setopt "yangspec") o1.2
      if o2.1 < 0 then some (main_done env (-1) o2.2) else
      let o3 :=
        if clicon_option_bool o2.2 "CLICON_XMLDB_CACHE" ≥ 0
        then extcall env (.xmldb_setopt "xml_cache") o2.2 else (0, o2.2)
      if o3.1 < 0 then some (main_done env (-1) o3.2) else
      let o4 := extcall env (.xmldb_setopt "format") o3.2
      if o4.1 < 0 then some (main_done env (-1) o4.2) else
      let o5 :=
        if clicon_option_bool o4.2 "CLICON_XMLDB_PRETTY" ≥ 0
        then extcall env (.xmldb_setopt "pretty") o4.2 else (0, o4.2)
      if o5.1 < 0 then some (main_done env (-1) o5.2) else
      match clicon_startup_mode o5.2 with
      | none => some (main_done env (-1) o5.2)
      | some startup_mode => main_startup env l argv0 optind pidfile startup_mode fuel o5.2

/-- Embedding of `main`, the pid file: zap the old daemon and exit, or refuse to start
beside a live one, and unlink what a dead one left. -/
def main_pidfile {Tree : Type} (env : Env Tree) (l : main_locals) (argv0 : String)
    (optind : Nat) (fuel : Nat) (w : World Tree) : Option (Int × World Tree) :=
  match clicon_option_str w "CLICON_BACKEND_PIDFILE" with
  | none => some (main_done env (-1) w)
  | some pidfile =>
    let sockfamily := clicon_sock_family w
    match clicon_option_str w "CLICON_SOCK" with
    | none => some (main_done env (-1) w)
    | some sock =>
      let pg := pidfile_get env pidfile w
      if pg.1 < 0 then some (-1, pg.2.2) else
      let pid := pg.2.1
      if l.zap ≠ 0 then
        let z := if pid ≠ 0 then extcall env (.pidfile_zapold pid) pg.2.2 else (0, pg.2.2)
        if z.1 < 0 then some (-1, z.2) else
        let u1 := if z.2.fs pidfile then (unlink env pidfile z.2).2 else z.2
        let u2 := if sockfamily = .AF_UNIX ∧ u1.fs sock then (unlink env sock u1).2 else u1
        some (0, record (.exit 0) (backend_terminate env u2))
      else if pid ≠ 0 then some (-1, pg.2.2)
      else
        let u1 := if pg.2.2.fs pidfile then (unlink env pidfile pg.2.2).2 else pg.2.2
        let u2 := if sockfamily = .AF_UNIX ∧ u1.fs sock then (unlink env sock u1).2 else u1
        main_setup env l argv0 optind pidfile fuel u2

/-- Embedding of `main`: the value it returns (or gives to `exit`) and the final world;
`none` when `fuel` passes through a `done` label of a startup mode were not enough. -/
def main {Tree : Type} (env : Env Tree) (argv : List String) (fuel : Nat) (w : World Tree) :
    Option (Int × World Tree) :=
  let argv0 := argv.headD ""
  let h := extcall env .backend_handle_init { w with argv := argv }
  if h.1 < 0 then some (-1, h.2) else
  let g := getopt_all BACKEND_OPTS argv
  let w0 : World Tree := { h.2 with argv := argv0 :: (g.consumed ++ g.residual) }
  let l0 : main_locals :=
    { help := false, debug := 0, logdst := CLICON_LOG_SYSLOG + CLICON_LOG_STDERR,
      foreground := false, once := false, zap := 0, extraxml_file := none }
  match main_args1 env g.opts l0 w0 with
  | .error e => some e
  | .ok (l1, w1) =>
    let cf := clicon_options_main env w1
    if cf.1 < 0 then (if l1.help then some (usage cf.2) else some (-1, cf.2)) else
    let nm :=
      if clicon_option_str cf.2 "CLICON_NACM_MODE" = some "external"
      then extcall env .nacm_load_external cf.2 else (0, cf.2)
    if nm.1 < 0 then some (main_done env (-1) nm.2) else
    match main_args2 g.opts l1 nm.2 with
    | .error e => some e
    | .ok (l2, w2) =>
      if l2.help then some (usage w2)
      else main_pidfile env l2 argv0 (1 + g.consumed.length) fuel w2

/-! ## The specification side -/

/-- The content of `tmp` in the words of the specification: the empty tree after the
plugin reset hook, with the tree of the extra xml file merged into it when there is one. -/
def spec_tmp_content {Tree : Type} (env : Env Tree) (extra_xml : Option Tree) : Tree :=
  match extra_xml with
  | none => env.reset env.empty
  | some x => env.merge x (env.reset env.empty)

/-! ## Concrete inputs -/

/-- A tree type for the examples: the list of the leaves. Merging into a tree appends
what is merged, and the plugins reset hook adds the leaf `reset`. -/
def exEnv : Env (List String) :=
  { empty := [],
    merge := fun x base => base ++ x,
    reset := fun t => t ++ ["reset"],
    xmlfile := fun f => if f = "extra.xml" then some ["extra"] else none,
    fault := fun _ _ => none,
    configfile := fun f =>
      if f = "cfg.xml" then
        some [("CLICON_BACKEND_PIDFILE", "/pid"), ("CLICON_SOCK", "/sock"),
              ("CLICON_SOCK_GROUP", "clicon"), ("CLICON_XMLDB_PLUGIN", "text"),
              ("CLICON_STARTUP_MODE", "init")]
      else none,
    oldpid := 0 }

/-- A world at the start of the process: `running` holds the leaf `old` (scenario S5:
`<cfg><k>old</k></cfg>`), no other database is materialized, nothing has been called. -/
def exWorld : World (List String) :=
  { dbs := fun n => if n = "running" then some ["old"] else none,
    calls := fun _ => 0,
    errno := 0,
    log := [],
    options := fun _ => none,
    fs := fun _ => false,
    argv := [] }

/-- The example environment with one failing call: the first call of `op` fails with
errno `e`. -/
def exEnvFail (op : Op) (e : Nat) : Env (List String) :=
  { exEnv with fault := fun o n => if o = op ∧ n = 0 then some e else none }

/-! ## Reading the trace -/

/-- Kinds of calls: the datastore and what the startup modes call; the setting up of the
process; what terminates it; the plugin start; the daemon, its pid file, its socket and its
event loop; the ghost entries. -/
inductive OpKind where
  | store
  | setup
  | term
  | start
  | serve
  | ghost
  deriving DecidableEq, Repr

/-- The kind of a call. -/
def Op.kind : Op → OpKind
  | .xmldb_copy _ _ => .store
  | .xmldb_create _ => .store
  | .xmldb_delete _ => .store
  | .xmldb_get _ => .store
  | .xmldb_put _ => .store
  | .candidate_commit _ => .store
  | .backend_plugin_initiate => .store
  | .clixon_plugin_reset _ => .store
  | .open_file _ => .store
  | .xml_parse_file _ => .store
  | .xml_rootchild => .store
  | .clixon_plugin_start _ => .start
  | .reconcile _ => .ghost
  | .reconcile_return _ => .ghost
  | .backend_handle_init => .setup
  | .clicon_log_file _ => .setup
  | .clicon_options_main => .setup
  | .nacm_load_external => .setup
  | .pidfile_get _ => .setup
  | .pidfile_zapold _ => .setup
  | .group_name2gid _ => .setup
  | .stream_register _ => .setup
  | .xmldb_plugin_load _ => .setup
  | .xmldb_connect => .setup
  | .yang_spec_main => .setup
  | .yang_spec_append _ => .setup
  | .xmldb_setopt _ => .setup
  | .usage => .setup
  | .unlink _ => .term
  | .clixon_plugin_exit => .term
  | .exit _ => .term
  | .daemon => .serve
  | .pidfile_write _ => .serve
  | .clicon_log_register_callback => .serve
  | .set_signal _ => .serve
  | .backend_socket_init => .serve
  | .event_reg_fd => .serve
  | .close_fd => .serve
  | .event_loop => .serve

/-- The world `w1` comes after `w` by calls whose entries all satisfy `P`: its trace is the
trace of `w` with such entries on top. -/
def Adds {Tree : Type} (P : Event Tree → Prop) (w w1 : World Tree) : Prop :=
  ∃ l, w1.log = l ++ w.log ∧ ∀ e ∈ l, P e

/-- As `Adds`, and the options of the handle are the same in `w1` as in `w`. -/
def Extends {Tree : Type} (P : Event Tree → Prop) (w w1 : World Tree) : Prop :=
  w1.options = w.options ∧ Adds P w w1

/-- Number of calls of a `startup_mode_*` function in a trace. -/
def reconcile_count {Tree : Type} (log : List (Event Tree)) : Nat :=
  (log.filter (fun e => match e.op with
    | .reconcile _ => true
    | _ => false)).length

/-- An entry that `main` may add before it calls a startup mode: setting up, unlinking
what a dead daemon left, terminating, or creating `running`. -/
def PreEvent {Tree : Type} (e : Event Tree) : Prop :=
  e.op.kind = .setup ∨ e.op.kind = .term ∨ e.op.kind = .store

/-- An entry that `main` adds while it reads its options: the creation of the handle, the
opening of a log file (`-l f<file>`), the reading of the configuration file, the loading
of an external NACM file. -/
def OptionEvent {Tree : Type} (e : Event Tree) : Prop :=
  e.op = .backend_handle_init ∨ (∃ p, e.op = .clicon_log_file p) ∨
  e.op = .clicon_options_main ∨ e.op = .nacm_load_external

/-- An entry that `main` may add after a startup mode has returned; when it is the call of
the plugin start hooks, `running` and `candidate` are materialized and equal at that
moment. -/
def PostEvent {Tree : Type} (e : Event Tree) : Prop :=
  (e.op.kind = .store ∨ e.op.kind = .start ∨ e.op.kind = .serve ∨ e.op.kind = .term) ∧
  (e.op.kind = .start →
    (e.dbs "running").isSome = true ∧ e.dbs "candidate" = e.dbs "running")

/-- The trace of a run of `main` from the world `w` to the world `w1`, with return value
`rv`: either no startup mode was called and the entries added are those of `PreEvent`, or
the configured startup mode `m` was called, once. Then the trace is, from the latest
entry down: what came after the return of the mode, the return itself (with its
outcome), the calls of the mode, the call of the mode, and what came before. A failed
mode gives the return value -1 and is followed by termination only. -/
def MainShape {Tree : Type} (w : World Tree) (rv : Int) (w1 : World Tree) : Prop :=
  Adds PreEvent w w1 ∨
  ∃ m, clicon_startup_mode w1 = some m ∧
    ∃ post ok d2 mid d1 pre,
      w1.log = post ++ ⟨.reconcile_return m, ok, d2⟩ ::
        (mid ++ ⟨.reconcile m, true, d1⟩ :: (pre ++ w.log)) ∧
      (∀ e ∈ pre, PreEvent e) ∧ (∀ e ∈ mid, e.op.kind = .store) ∧
      (∀ e ∈ post, PostEvent e) ∧
      (ok = false → rv = -1 ∧ ∀ e ∈ post, e.op.kind = .term)

/-- The world at the end of a loop over the options, whether the process ended there or
goes on. -/
def loop_world {Tree : Type}
    (r : Except (Int × World Tree) (main_locals × World Tree)) : World Tree :=
  match r with
  | .error e => e.2
  | .ok r => r.2

/-! ## clixon_netconf_monitoring.c: the monitoring view -/

/-- Time value of a lock, as `struct timeval`. -/
structure timeval where
  tv_sec : Int
  tv_usec : Int
  deriving DecidableEq, Repr

/-- What the monitoring view reads through the handle: the options, and the locks of the
datastore. -/
structure mon_handle where
  /-- Options held by the handle (`clicon_option_str`). -/
  options : String → Option String
  /-- Modelled from the spec: `xmldb_islocked`, `is-locked(db) → sid?`: the session id of
  the holder of the lock (a `uint32_t`), 0 when the database is not locked. -/
  xmldb_islocked : String → Nat
  /-- Modelled from the spec: `xmldb_lock_timestamp`, `lock-timestamp(db) → instant?`. -/
  xmldb_lock_timestamp : String → timeval
  /-- Modelled from the spec: `time2str`, the RFC 3339 text of a time value; `none` when
  the formatting fails (a negative return value). -/
  time2str : timeval → Option String

/-- A loaded YANG module as the monitoring view reads it: the argument of the module
statement, the argument of its revision statement if it has one, and its namespace. -/
structure yang_module where
  identifier : String
  revision : Option String
  mynamespace : String
  deriving DecidableEq, Repr

/-- The YANG specification as the monitoring view reads it: the modules in the order of
`yn_each`, and the features that are enabled (`if_feature`). -/
structure yang_spec where
  modules : List yang_module
  if_feature : String → String → Bool

/-- Embedding of `per_datastore`: append the entry of one database to the buffer. Returns
0, or -1 when the lock time cannot be formatted. -/
def per_datastore (h : mon_handle) (cb : String) (db : String) : Int × String :=
  let cb1 := cb ++ "<datastore><name>" ++ db ++ "</name>"
  let sid := h.xmldb_islocked db
  if sid > 0 then
    let cb2 := cb1 ++ "<locks>"
    let cb3 := cb2 ++ "<locked-by-session>" ++ toString sid ++ "</locked-by-session>"
    let tv := h.xmldb_lock_timestamp db
    match h.time2str tv with
    | none => (-1, cb3)
    | some timestr =>
      let cb4 := cb3 ++ "<locked-time>" ++ timestr ++ "</locked-time>"
      let cb5 := cb4 ++ "</locks>"
      (0, cb5 ++ "</datastore>")
  else (0, cb1 ++ "</datastore>")

/-- Embedding of `netconf_monitoring_datastores`: the entries of `running`, of `candidate`
and, when the feature `startup` of `ietf-netconf` is enabled, of `startup`. -/
def netconf_monitoring_datastores (h : mon_handle) (yspec : yang_spec) (cb : String) :
    Int × String :=
  let cb0 := cb ++ "<datastores>"
  let r := per_datastore h cb0 "running"
  if r.1 < 0 then (-1, r.2) else
  let c := per_datastore h r.2 "candidate"
  if c.1 < 0 then (-1, c.2) else
  if yspec.if_feature "ietf-netconf" "startup" then
    let s := per_datastore h c.2 "startup"
    if s.1 < 0 then (-1, s.2) else (0, s.2 ++ "</datastores>")
  else (0, c.2 ++ "</datastores>")

/-- The body of the loop of `netconf_monitoring_schemas`: append the entry of one module. -/
def netconf_monitoring_schema (h : mon_handle) (cb : String) (ym : yang_module) : String :=
  let cb1 := cb ++ "<schema>"
  let cb2 := cb1 ++ "<identifier>" ++ ym.identifier ++ "</identifier>"
  let cb3 := cb2 ++ "<version>"
  let cb4 := match ym.revision with
    | some revision => cb3 ++ revision
    | none => cb3
  let cb5 := cb4 ++ "</version>"
  let cb6 := cb5 ++ "<format>yang</format>"
  let cb7 := cb6 ++ "<namespace>" ++ ym.mynamespace ++ "</namespace>"
  let cb8 := cb7 ++ "<location>NETCONF</location>"
  let cb9 := match h.options "CLICON_NETCONF_MONITORING_LOCATION" with
    | some dir =>
      match ym.revision with
      | some revision =>
        cb8 ++ "<location>" ++ dir ++ "/" ++ ym.identifier ++ "@" ++ revision ++ ".yang</location>"
      | none => cb8 ++ "<location>" ++ dir ++ "/" ++ ym.identifier ++ ".yang</location>"
    | none => cb8
  cb9 ++ "</schema>"

/-- The loop `while ((ym = yn_each(yspec, ym)) != NULL)` of `netconf_monitoring_schemas`. -/
def netconf_monitoring_schemas_loop (h : mon_handle) : List yang_module → String → String
  | [], cb => cb
  | ym :: rest, cb => netconf_monitoring_schemas_loop h rest (netconf_monitoring_schema h cb ym)

/-- Embedding of `netconf_monitoring_schemas`: one entry for every module. Returns 0. -/
def netconf_monitoring_schemas (h : mon_handle) (yspec : yang_spec) (cb : String) :
    Int × String :=
  let cb0 := cb ++ "<schemas>"
  let cb1 := netconf_monitoring_schemas_loop h yspec.modules cb0
  (0, cb1 ++ "</schemas>")

/-- The entry of a database in the words of the specification: the name and, if the
database is locked, the session that holds the lock and the time of the lock. -/
def spec_datastore_entry (db : String) (lock : Option (Nat × String)) : String :=
  match lock with
  | none => "<datastore><name>" ++ db ++ "</name></datastore>"
  | some (sid, t) =>
    "<datastore><name>" ++ db ++ "</name><locks><locked-by-session>" ++ toString sid ++
      "</locked-by-session><locked-time>" ++ t ++ "</locked-time></locks></datastore>"

/-- The lock of a database as the store reports it: the holder and the formatted time,
`none` when the database is not locked. -/
def spec_lock (h : mon_handle) (db : String) : Option (Nat × String) :=
  if h.xmldb_islocked db > 0 then
    (h.time2str (h.xmldb_lock_timestamp db)).map (fun t => (h.xmldb_islocked db, t))
  else none

/-- The locations of a module in the words of the specification: the literal `NETCONF`,
and when a monitoring directory is set, the file `<module>[@<revision>].yang` in it. -/
def spec_schema_locations (dir : Option String) (ym : yang_module) : List String :=
  "NETCONF" ::
    (match dir with
     | none => []
     | some d =>
       match ym.revision with
       | some r => [d ++ "/" ++ ym.identifier ++ "@" ++ r ++ ".yang"]
       | none => [d ++ "/" ++ ym.identifier ++ ".yang"])

/-- The entry of a module in the words of the specification: identifier, revision (if
present), format `yang`, namespace, then the locations. -/
def spec_schema_entry (dir : Option String) (ym : yang_module) : String :=
  "<schema><identifier>" ++ ym.identifier ++ "</identifier><version>" ++
    ym.revision.getD "" ++ "</version><format>yang</format><namespace>" ++ ym.mynamespace ++
    "</namespace>" ++
    String.join ((spec_schema_locations dir ym).map
      (fun loc => "<location>" ++ loc ++ "</location>")) ++
    "</schema>"

/-- Number of places of a text at which a pattern starts. -/
def count_occurrences (pat : List Char) : List Char → Nat
  | [] => 0
  | c :: rest => (if pat.isPrefixOf (c :: rest) then 1 else 0) + count_occurrences pat rest

/-! ## backend_main.c: the signal handler -/

/-- What the signal handler of the backend can reach: the world of the process, the
exit-requested flag that the event loop reads, the static counter `i` of the handler (the
bits of an `int`, as a number below 2^32), and the signal numbers of the notices written
to the log. -/
structure sig_state (Tree : Type) where
  world : World Tree
  exit_requested : Bool
  i : Nat
  notices : List Int

/-- Modelled from the spec: `clicon_exit_set` of the event library, set the
exit-requested flag that the event loop observes between iterations. -/
def clicon_exit_set {Tree : Type} (s : sig_state Tree) : sig_state Tree :=
  { s with exit_requested := true }

/-- Embedding of `backend_sig_term`: on the first call (`i++ == 0`) write a notice to the
log, and in every call set the exit-requested flag. -/
def backend_sig_term {Tree : Type} (arg : Int) (s : sig_state Tree) : sig_state Tree :=
  let s1 : sig_state Tree := { s with i := (s.i + 1) % 4294967296 }
  let s2 : sig_state Tree :=
    if s.i = 0 then { s1 with notices := s1.notices ++ [arg] } else s1
  clicon_exit_set s2

/-- The handler called once for every signal of a list, in order. -/
def backend_sig_term_all {Tree : Type} (sigs : List Int) (s : sig_state Tree) :
    sig_state Tree :=
  sigs.foldl (fun st arg => backend_sig_term arg st) s

/-- The state of the example world before any signal. -/
def exSigState : sig_state (List String) :=
  { world := exWorld, exit_requested := false, i := 0, notices := [] }

/-! ## restconf_main_evhtp.c: the parameters of a request -/

/-- Modelled from the spec: `islower` of the C library in the locale "C", where the
lowercase letters are `a` to `z`. -/
def islower (c : Char) : Bool :=
  decide (97 ≤ c.toNat ∧ c.toNat ≤ 122)

/-- Modelled from the spec: `toupper` of the C library in the locale "C". -/
def toupper (c : Char) : Char :=
  if islower c then Char.ofNat (c.toNat - 32) else c

/-- The parameters of the current request held by the handle (`restconf_param_set`,
`restconf_param_get`): the value of each name that is set. -/
abbrev restconf_params := String → Option String

/-- Version of HTTP of a request. -/
inductive evhtp_proto where
  | EVHTP_PROTO_INVALID
  | EVHTP_PROTO_10
  | EVHTP_PROTO_11
  deriving DecidableEq, Repr

/-- A header of a request: key and value. -/
structure evhtp_header_t where
  key : String
  val : String
  deriving DecidableEq, Repr

/-- The path of the URI of a request. -/
structure evhtp_path_t where
  full : String
  deriving DecidableEq, Repr

/-- The URI of a request: the path and the query, either of which may be NULL. -/
structure evhtp_uri_t where
  path : Option evhtp_path_t
  query : Option (List evhtp_header_t)
  deriving DecidableEq, Repr

/-- A request as `evhtp_params_set` reads it: the URI (or NULL), the name of the method
(`evhtp_method2str` of `evhtp_request_get_method`), the version, the TLS session of the
connection (`none` without TLS; with TLS, the subject of the peer certificate as
`htp_sslutil_subject_tostr` gives it, or NULL), and the headers. -/
structure evhtp_request_t where
  uri : Option evhtp_uri_t
  method : String
  proto : evhtp_proto
  ssl : Option (Option String)
  headers_in : List evhtp_header_t
  deriving DecidableEq, Repr

/-- What is outside the functions of this file: which calls fail, the parsing of a
certificate subject into its fields, and the value that the API handlers return. -/
structure evhtp_env where
  /-- `cbuf_new` returns NULL. -/
  cbuf_new_fails : Bool
  /-- `cvec_new` returns NULL. -/
  cvec_new_fails : Bool
  /-- `restconf_param_set` fails for this name. -/
  param_set_fails : String → Bool
  /-- `restconf_param_del_all` fails (and then clears nothing). -/
  param_del_all_fails : Bool
  /-- The iteration over the query (`evhtp_kvs_for_each` with `query_iterator`) fails. -/
  query_fails : Bool
  /-- `restconf_badrequest` fails. -/
  badrequest_fails : Bool
  /-- Modelled from the spec: `str2cvec` of a subject with the separators `/` and `=`:
  the fields, `none` when it fails. -/
  str2cvec : String → Option (List (String × String))
  /-- Return value of `api_root_restconf`. -/
  api_root_restconf : Int
  /-- Return value of `api_well_known`. -/
  api_well_known : Int

/-- Modelled from the spec: `restconf_param_set`, set the value of a parameter of the
current request. -/
def restconf_param_set (env : evhtp_env) (p : restconf_params) (name val : String) :
    Int × restconf_params :=
  if env.param_set_fails name then (-1, p)
  else (0, fun n => if n = name then some val else p n)

/-- Modelled from the spec: `restconf_param_del_all`, remove every parameter. -/
def restconf_param_del_all (env : evhtp_env) (p : restconf_params) : Int × restconf_params :=
  if env.param_del_all_fails then (-1, p) else (0, fun _ => none)

/-- The loop of `convert_fcgi` over the characters of the key: what `cprintf` appends to
the buffer. -/
def convert_fcgi_key : List Char → String → String
  | [], cb => cb
  | c :: rest, cb =>
    if islower c then convert_fcgi_key rest (cb.push (toupper c))
    else if c = '-' then convert_fcgi_key rest (cb ++ "_")
    else convert_fcgi_key rest (cb.push c)

/-- Embedding of `convert_fcgi`: translate the key of a header and set the parameter of
that name to the value of the header. -/
def convert_fcgi (env : evhtp_env) (p : restconf_params) (hdr : evhtp_header_t) :
    Int × restconf_params :=
  if env.cbuf_new_fails then (-1, p)
  else
    let cb := convert_fcgi_key hdr.key.data "HTTP_"
    let s := restconf_param_set env p cb hdr.val
    if s.1 < 0 then (-1, s.2) else (0, s.2)

/-- Modelled from the spec: `evhtp_headers_for_each`, call the function on each header in
order and stop at the first call that does not return 0, returning its value. -/
def evhtp_headers_for_each (f : restconf_params → evhtp_header_t → Int × restconf_params) :
    List evhtp_header_t → restconf_params → Int × restconf_params
  | [], p => (0, p)
  | hdr :: rest, p =>
    let r := f p hdr
    if r.1 ≠ 0 then r else evhtp_headers_for_each f rest r.2

/-- Modelled from the spec: `cvec_find_str`, the value of the first field of that name. -/
def cvec_find_str (cvv : List (String × String)) (name : String) : Option String :=
  (cvv.find? (fun kv => kv.1 = name)).map (fun kv => kv.2)

/-- Embedding of `evhtp_params_set`: 1 when the parameters are set and the request goes
on, 0 when the request has been answered (bad request), -1 on error. `qvec` tells whether
the caller gave a query vector. -/
def evhtp_params_set (env : evhtp_env) (p : restconf_params) (req : evhtp_request_t)
    (qvec : Bool) : Int × restconf_params :=
  match req.uri with
  | none => (-1, p)
  | some uri =>
    match uri.path with
    | none => (-1, p)
    | some path =>
      if qvec ∧ uri.query.isSome ∧ env.query_fails then (-1, p) else
      let m := restconf_param_set env p "REQUEST_METHOD" req.method
      if m.1 < 0 then (-1, m.2) else
      let u := restconf_param_set env m.2 "REQUEST_URI" path.full
      if u.1 < 0 then (-1, u.2) else
      if req.proto ≠ .EVHTP_PROTO_10 ∧ req.proto ≠ .EVHTP_PROTO_11 then
        (if env.badrequest_fails then (-1, u.2) else (0, u.2))
      else
        let s : Int × restconf_params :=
          match req.ssl with
          | none => (0, u.2)
          | some subject =>
            let t := restconf_param_set env u.2 "HTTPS" "https"
            if t.1 < 0 then (-1, t.2) else
            match subject with
            | none => (0, t.2)
            | some subj =>
              match env.str2cvec subj with
              | none => (-1, t.2)
              | some cvv =>
                match cvec_find_str cvv "CN" with
                | none => (0, t.2)
                | some cn =>
                  let c := restconf_param_set env t.2 "SSL_CN" cn
                  if c.1 < 0 then (-1, c.2) else (0, c.2)
        if s.1 < 0 then (-1, s.2) else
        let hs := evhtp_headers_for_each (convert_fcgi env) req.headers_in s.2
        if hs.1 < 0 then (-1, hs.2) else (1, hs.2)

/-- Embedding of `cx_path_wellknown`: the parameters held by the handle when the callback
returns. -/
def cx_path_wellknown (env : evhtp_env) (p : restconf_params) (req : evhtp_request_t) :
    restconf_params :=
  let r := evhtp_params_set env p req false
  if r.1 < 0 then r.2 else
  if r.1 = 1 ∧ env.api_well_known < 0 then r.2 else
  (restconf_param_del_all env r.2).2

/-- Embedding of `cx_path_restconf`: the parameters held by the handle when the callback
returns. -/
def cx_path_restconf (env : evhtp_env) (p : restconf_params) (req : evhtp_request_t) :
    restconf_params :=
  if env.cvec_new_fails then p else
  let r := evhtp_params_set env p req true
  if r.1 < 0 then r.2 else
  if r.1 = 1 ∧ env.api_root_restconf < 0 then r.2 else
  (restconf_param_del_all env r.2).2

/-- An environment in which nothing fails and the API handlers return 0. -/
def exEvhtpEnv : evhtp_env :=
  { cbuf_new_fails := false, cvec_new_fails := false, param_set_fails := fun _ => false,
    param_del_all_fails := false, query_fails := false, badrequest_fails := false,
    str2cvec := fun _ => some [], api_root_restconf := 0, api_well_known := 0 }

/-! ## cli_pipe.c: the output pipes of the CLI -/

/-- What is outside `pipe_arg_fn`: the file system as stat(2) sees it, calloc(3) and
execv(3). -/
structure pipe_env where
  /-- Modelled from the spec: stat(2) of a path: `none` when it fails, else whether the
  path is a regular file (`S_ISREG`). -/
  stat : String → Option Bool
  /-- `calloc` returns NULL. -/
  calloc_fails : Bool
  /-- `execv` fails (and returns -1). -/
  execv_fails : Bool

/-- How a pipe function ends: it returns a value, or the process has become the command,
run with an argument list. -/
inductive pipe_result where
  | returned (retval : Int)
  | executed (path : String) (args : List String)
  deriving DecidableEq, Repr

/-- Modelled from the spec: the argument list that execv(3) reads from an array of
pointers: the strings before the first NULL pointer. -/
def argv_until_null : List (Option String) → List String
  | [] => []
  | none :: _ => []
  | some a :: rest => a :: argv_until_null rest

/-- Modelled from the spec: execv(3). -/
def execv (env : pipe_env) (path : String) (argv : List (Option String)) : pipe_result :=
  if env.execv_fails then .returned (-1) else .executed path (argv_until_null argv)

/-- Embedding of `pipe_arg_fn`: `cmd`, `option` and `value` may each be NULL. -/
def pipe_arg_fn (env : pipe_env) (cmd option value : Option String) : pipe_result :=
  match cmd with
  | none => .returned (-1)
  | some cmd =>
    if cmd.length = 0 then .returned (-1) else
    match env.stat cmd with
    | none => .returned (-1)
    | some isreg =>
      if ¬ isreg then .returned (-1) else
      if env.calloc_fails then .returned (-1) else
      let argv : List (Option String) := [none, none, none, none]
      let argv := argv.set 0 (some cmd)
      let argv := argv.set 1 option
      let argv := argv.set 2 value
      let argv := argv.set 3 none
      execv env cmd argv

/-- A CLIgen variable as the pipe functions read it: its name and its string value
(`cv_string_get`, which may be NULL). -/
structure cg_var where
  name : String
  string : Option String
  deriving DecidableEq, Repr

/-- Modelled from the spec: `cvec_i`, the variable at an index, NULL outside the vector. -/
def cvec_i (cvv : List cg_var) (i : Nat) : Option cg_var :=
  cvv.get? i

/-- Modelled from the spec: `cvec_find_var`, the first variable of that name. -/
def cvec_find_var (cvv : List cg_var) (name : String) : Option cg_var :=
  cvv.find? (fun cv => cv.name = name)

/-- The test `(cv = ...) != NULL && (str = cv_string_get(cv)) != NULL && strlen(str)` of
the pipe functions: the string when all three hold. -/
def cv_nonempty_string (cv : Option cg_var) : Option String :=
  match cv with
  | none => none
  | some cv =>
    match cv.string with
    | none => none
    | some str => if str.length ≠ 0 then some str else none

/-- Modelled from the spec: `GREP_BIN`, the path of grep that the build has found. -/
def GREP_BIN : String := "/usr/bin/grep"

/-- Embedding of `pipe_grep_fn`: `argv` holds the option and the name of the variable of
`cvv` that holds the value. -/
def pipe_grep_fn (env : pipe_env) (cvv argv : List cg_var) : pipe_result :=
  if argv.length ≠ 2 then .returned (-1) else
  let option := cv_nonempty_string (cvec_i argv 0)
  let argname := cv_nonempty_string (cvec_i argv 1)
  let value :=
    match argname with
    | none => none
    | some argname =>
      if argname.length ≠ 0 then cv_nonempty_string (cvec_find_var cvv argname) else none
  pipe_arg_fn env (some GREP_BIN) option value

/-- A file system with grep in it, and calls that work. -/
def exPipeEnv : pipe_env :=
  { stat := fun p => if p = GREP_BIN then some true else none,
    calloc_fails := false, execv_fails := false }

/-! ## cli_plugin.c: the syntax modes -/

/-- Modelled from the spec: the sizes and the default prompt that `cli_plugin.h` gives:
the size of the array `csm_name`, `CLI_PROMPT_LEN` (the size of `csm_prompt` and of the
prompt buffer) and `CLI_DEFAULT_PROMPT`. The header is not among the sources, so the
values are parameters. -/
structure cli_consts where
  csm_name_size : Nat
  CLI_PROMPT_LEN : Nat
  CLI_DEFAULT_PROMPT : String

/-- A syntax mode: the address of its block (what a pointer to it holds), its name and its
prompt format. -/
structure cli_syntaxmode_t where
  addr : Nat
  csm_name : String
  csm_prompt : String
  deriving DecidableEq, Repr

/-- The syntax of the CLI: the number of modes, the active mode (a pointer, or NULL), and
the circular list of the modes, read from `stx_modes` along `NEXTQ`. -/
structure cli_syntax_t where
  stx_nmodes : Int
  stx_active_mode : Option Nat
  stx_modes : List cli_syntaxmode_t
  deriving DecidableEq, Repr

/-- Modelled from the spec: `strncpy(dst, src, n - 1)` into an array of `n` bytes whose
last byte is 0: the array then holds the first `n - 1` characters of `src`. -/
def strncpy (n : Nat) (src : String) : String :=
  String.mk (src.data.take (n - 1))

/-- Embedding of `syntax_mode_find`: the first mode of that name on the circle; when there
is none and `create` is set, a new mode in the block that malloc gives (`none` when malloc
fails), inserted before the head and made the head (`INSQ`), and counted. -/
def syntax_mode_find (k : cli_consts) (stx : cli_syntax_t) (mode : String) (create : Bool)
    (malloc : Option Nat) : Option cli_syntaxmode_t × cli_syntax_t :=
  match stx.stx_modes.find? (fun m => m.csm_name = mode) with
  | some m => (some m, stx)
  | none =>
    if create = false then (none, stx)
    else
      match malloc with
      | none => (none, stx)
      | some a =>
        let m : cli_syntaxmode_t :=
          { addr := a, csm_name := strncpy k.csm_name_size mode,
            csm_prompt := strncpy k.CLI_PROMPT_LEN k.CLI_DEFAULT_PROMPT }
        (some m, { stx with stx_modes := m :: stx.stx_modes, stx_nmodes := stx.stx_nmodes + 1 })

/-- The loop of `cli_syntax_unload`: while the count is positive, take the head off the
circle (`DELQ`), free it and count down. `none` when the head is NULL while the count is
positive (`DELQ` then reads through a NULL pointer). -/
def cli_syntax_unload_loop : Nat → cli_syntax_t → Option cli_syntax_t
  | 0, stx => if stx.stx_nmodes > 0 then none else some stx
  | fuel + 1, stx =>
    if stx.stx_nmodes > 0 then
      match stx.stx_modes with
      | [] => none
      | _ :: rest =>
        cli_syntax_unload_loop fuel { stx with stx_modes := rest, stx_nmodes := stx.stx_nmodes - 1 }
    else some stx

/-- Embedding of `cli_syntax_unload`, for a handle with a syntax. The loop runs at most
`stx_nmodes` times. -/
def cli_syntax_unload (stx : cli_syntax_t) : Option cli_syntax_t :=
  cli_syntax_unload_loop stx.stx_nmodes.toNat stx

/-- Embedding of `cli_set_syntax_mode`, on the syntax of the handle. -/
def cli_set_syntax_mode (k : cli_consts) (stx : cli_syntax_t) (name : String)
    (malloc : Option Nat) : Int × cli_syntax_t :=
  match syntax_mode_find k stx name true malloc with
  | (none, stx1) => (0, stx1)
  | (some mode, stx1) => (1, { stx1 with stx_active_mode := some mode.addr })

/-- Embedding of `cli_syntax_mode`: the name of the active mode, NULL when there is none.
The pointer is followed into the list of the modes. -/
def cli_syntax_mode (stx : cli_syntax_t) : Option String :=
  match stx.stx_active_mode with
  | none => none
  | some a => (stx.stx_modes.find? (fun m => m.addr = a)).map (fun m => m.csm_name)

/-- Embedding of `cli_set_prompt`, on the syntax of the handle. -/
def cli_set_prompt (k : cli_consts) (stx : cli_syntax_t) (name prompt : String)
    (malloc : Option Nat) : Int × cli_syntax_t :=
  match syntax_mode_find k stx name true malloc with
  | (none, stx1) => (-1, stx1)
  | (some m, stx1) =>
    (0, { stx1 with stx_modes := stx1.stx_modes.map (fun x =>
      if x.addr = m.addr then { x with csm_prompt := strncpy k.CLI_PROMPT_LEN prompt } else x) })

/-- A call on the syntax, with what malloc gives when the call asks for a block. -/
inductive stx_call where
  | find (mode : String) (create : Bool) (malloc : Option Nat)
  | set_syntax_mode (name : String) (malloc : Option Nat)
  | set_prompt (name prompt : String) (malloc : Option Nat)
  | unload
  deriving DecidableEq, Repr

/-- The syntax after one call; `none` when the call reads through a NULL pointer. -/
def stx_step (k : cli_consts) (stx : cli_syntax_t) : stx_call → Option cli_syntax_t
  | .find mode create malloc => some (syntax_mode_find k stx mode create malloc).2
  | .set_syntax_mode name malloc => some (cli_set_syntax_mode k stx name malloc).2
  | .set_prompt name prompt malloc => some (cli_set_prompt k stx name prompt malloc).2
  | .unload => cli_syntax_unload stx

/-- The syntax after a sequence of calls. -/
def stx_run (k : cli_consts) : List stx_call → cli_syntax_t → Option cli_syntax_t
  | [], stx => some stx
  | c :: rest, stx =>
    match stx_step k stx c with
    | none => none
    | some stx1 => stx_run k rest stx1

/-- The names that a call gives to `syntax_mode_find`. -/
def stx_call.names : stx_call → List String
  | .find mode _ _ => [mode]
  | .set_syntax_mode name _ => [name]
  | .set_prompt name _ _ => [name]
  | .unload => []

/-- The syntax after `memset(stx, 0, sizeof(*stx))`. -/
def stx_zero : cli_syntax_t :=
  { stx_nmodes := 0, stx_active_mode := none, stx_modes := [] }

/-- Sizes for the examples: a name array of 8 bytes, a prompt of 16. -/
def exConsts : cli_consts :=
  { csm_name_size := 8, CLI_PROMPT_LEN := 16, CLI_DEFAULT_PROMPT := "cli> " }

/-! ## cli_plugin.c: the hooks set by `cli_syntax_load` -/

/-- A plugin as `cli_syntax_load` reads it: its name and the two callbacks of its API,
each a function pointer or NULL. -/
structure clixon_plugin where
  cp_name : String
  ca_suspend : Option Nat
  ca_interrupt : Option Nat
  deriving DecidableEq, Repr

/-- The two hooks that CLIgen holds. -/
structure cligen_hooks where
  susp_hook : Option Nat
  interrupt_hook : Option Nat
  deriving DecidableEq, Repr

/-- Modelled from the spec: `cli_susp_hook`, set the suspend hook of CLIgen. -/
def cli_susp_hook (fails : Bool) (ch : cligen_hooks) (fn : Option Nat) : Int × cligen_hooks :=
  if fails then (-1, ch) else (0, { ch with susp_hook := fn })

/-- Embedding of the loop of `cli_syntax_load` over the plugins (`clixon_plugin_each`, in
the order of registration), with the variables `fns` and `fni`. -/
def cli_syntax_load_hooks (fails : Bool) :
    List clixon_plugin → Option Nat → Option Nat → cligen_hooks → Int × cligen_hooks
  | [], _, _, ch => (0, ch)
  | cp :: rest, fns, fni, ch =>
    let fns1 := if fns = none then cp.ca_suspend else fns
    let r1 := if fns = none ∧ fns1 ≠ none then cli_susp_hook fails ch fns1 else (0, ch)
    if r1.1 < 0 then (-1, r1.2) else
    let fni1 := if fni = none then cp.ca_interrupt else fni
    let r2 := if fni = none ∧ fni1 ≠ none then cli_susp_hook fails r1.2 fns1 else (0, r1.2)
    if r2.1 < 0 then (-1, r2.2) else
    cli_syntax_load_hooks fails rest fns1 fni1 r2.2

/-- The handle of the CLI as `cli_syntax_load` reads it: the syntax (or NULL), the hooks
of CLIgen and the plugins. -/
structure cli_handle where
  stx : Option cli_syntax_t
  cligen : cligen_hooks
  plugins : List clixon_plugin
  deriving DecidableEq, Repr

/-- What is outside `cli_syntax_load`: malloc, the loading of the plugins
(`clixon_plugins_load`: the plugins in the order of registration, `none` when it fails),
the loading of the syntax files into the modes (`cli_load_syntax` on the file of the
option and on each file of the directory: the syntax that results, `none` when one of
them fails), and the setting of a hook. -/
structure cli_load_env where
  malloc_fails : Bool
  plugins_load : Option (List clixon_plugin)
  load_syntax : cli_syntax_t → Option cli_syntax_t
  hook_fails : Bool

/-- The `done` label of `cli_syntax_load` with a return value that is not 0: the plugins
exit, the modes are unloaded and the syntax of the handle is set to NULL. -/
def cli_syntax_load_fail (h : cli_handle) : Int × cli_handle :=
  (-1, { h with stx := none, plugins := [] })

/-- Embedding of `cli_syntax_load`. -/
def cli_syntax_load (env : cli_load_env) (h : cli_handle) : Int × cli_handle :=
  if h.stx.isSome then (0, h) else
  if env.malloc_fails then cli_syntax_load_fail h else
  match env.plugins_load with
  | none => cli_syntax_load_fail h
  | some plugins =>
    match env.load_syntax stx_zero with
    | none => cli_syntax_load_fail { h with plugins := plugins }
    | some stx =>
      if stx.stx_nmodes ≤ 0 then (0, { h with stx := some stx, plugins := plugins })
      else
        let r := cli_syntax_load_hooks env.hook_fails plugins none none h.cligen
        if r.1 < 0 then cli_syntax_load_fail { h with plugins := plugins, cligen := r.2 }
        else (0, { stx := some stx, cligen := r.2, plugins := plugins })

/-- The invariant of the list of the syntax modes as the specification states it: the
count is the number of the modes on the circle, and no two modes have the same name. -/
def spec_stx_invariant (stx : cli_syntax_t) : Prop :=
  stx.stx_nmodes = stx.stx_modes.length ∧ (stx.stx_modes.map (fun m => m.csm_name)).Nodup

/-! ## backend_main.c: the log callback -/

/-- The byte that ends a C string. -/
def NUL : Char := Char.ofNat 0

/-- Modelled from the spec: the C string that a block of bytes holds from its first byte:
the bytes before the first NUL; `none` when the block holds no NUL, so that a reader of
the string leaves the block. -/
def c_string (bytes : List Char) : Option (List Char) :=
  if NUL ∈ bytes then some (bytes.takeWhile (fun c => c ≠ NUL)) else none

/-- Modelled from the spec: malloc(3) gives a block that is not initialised: `junk i` is
what its byte `i` holds. -/
def malloc_block (junk : Nat → Char) (size : Nat) : List Char :=
  (List.range size).map junk

/-- The first loop of `backend_log_cb`: count the `%` of the message. -/
def backend_log_cb_count : List Char → Nat → Nat
  | [], n => n
  | c :: rest, n => backend_log_cb_count rest (if c = '%' then n + 1 else n)

/-- The second loop of `backend_log_cb`: copy the message into the block from the index
`nptr` on, with a second `%` after each `%`. -/
def backend_log_cb_copy : List Char → Nat → List Char → List Char
  | [], _, newmsg => newmsg
  | c :: rest, nptr, newmsg =>
    let b := newmsg.set nptr c
    if c = '%' then backend_log_cb_copy rest (nptr + 2) (b.set (nptr + 1) '%')
    else backend_log_cb_copy rest (nptr + 1) b

/-- What is outside `backend_log_cb`: malloc and the value that `backend_notify`
returns. -/
structure log_env where
  malloc_fails : Bool
  junk : Nat → Char
  backend_notify : Int

/-- Embedding of `backend_log_cb`, for a message that is a C string (its characters, none
of them NUL): the value returned, and the call of `backend_notify`: the stream, the level
and the block that `newmsg` points to. -/
def backend_log_cb (env : log_env) (level : Int) (msg : List Char) :
    Int × Option (String × Int × List Char) :=
  let n := backend_log_cb_count msg 0
  if env.malloc_fails then (-1, none)
  else
    let newmsg := malloc_block env.junk (msg.length + n + 1)
    let newmsg := backend_log_cb_copy msg 0 newmsg
    (env.backend_notify, some ("CLICON", level, newmsg))

/-- The message of the specification: every `%` replaced by `%%`. -/
def spec_escape_percent : List Char → List Char
  | [] => []
  | c :: rest => (if c = '%' then ['%', '%'] else [c]) ++ spec_escape_percent rest

/-- Collapsing each `%%` back to `%`, from the left. -/
def spec_collapse_percent : List Char → List Char
  | [] => []
  | [c] => [c]
  | c :: d :: rest =>
    if c = '%' ∧ d = '%' then '%' :: spec_collapse_percent rest
    else c :: spec_collapse_percent (d :: rest)

/-! ## cli_plugin.c: the prompt -/

/-- Modelled from the spec: the memory in which a C string lies: its characters, the
terminating NUL, and then `beyond`, what the memory holds after the terminator. -/
def c_mem (s : List Char) (beyond : Nat → Char) (i : Nat) : Char :=
  if i < s.length then s.getD i NUL
  else if i = s.length then NUL
  else beyond (i - s.length - 1)

/-- What is outside `prompt_fmt`: `cbuf_new`; gethostname(2) (`none` when it fails);
getenv(3) of `USER` (`none` when it is not set); ttyname_r(3): the value it returns and
what the array `tty` holds after the call (on a failure, what the stack held). -/
structure prompt_env where
  cbuf_new_fails : Bool
  gethostname : Option (List Char)
  getenv_USER : Option (List Char)
  ttyname_r : Int × List Char

/-- The loop of `prompt_fmt` from the position `s` of the memory, with the buffer `cb`:
the position at which the loop has read the NUL that ends it, and the buffer. `none` when
`fuel` passes are not enough. -/
def prompt_fmt_loop (env : prompt_env) (mem : Nat → Char) :
    Nat → Nat → List Char → Option (Nat × List Char)
  | 0, _, _ => none
  | fuel + 1, s, cb =>
    if mem s = NUL then some (s, cb)
    else if mem s = '%' ∧ mem (s + 1) ≠ NUL then
      let c := mem (s + 1)
      let cb1 :=
        if c = 'H' then
          cb ++ (match env.gethostname with
            | some hname => hname
            | none => "unknown".data)
        else if c = 'U' then
          cb ++ (match env.getenv_USER with
            | some tmp => tmp
            | none => "nobody".data)
        else if c = 'T' then
          cb ++ (if env.ttyname_r.1 < 0 then "notty".data else env.ttyname_r.2)
        else cb ++ ['%', c]
      prompt_fmt_loop env mem fuel (s + 2) cb1
    else
      let s1 := if mem s = '%' then s + 1 else s
      if mem s1 = '\\' ∧ mem (s1 + 1) ≠ NUL then
        let c := mem (s1 + 1)
        let cb1 := if c = 'n' then cb ++ ['\n'] else cb ++ ['\\', c]
        prompt_fmt_loop env mem fuel (s1 + 2) cb1
      else
        let s2 := if mem s1 = '\\' then s1 + 1 else s1
        prompt_fmt_loop env mem fuel (s2 + 1) (cb ++ [mem s2])

/-- Modelled from the spec: what printf(3) writes for a format when it is given no
argument: the characters of the format, `%%` as `%`; `none` for any other conversion,
which asks for an argument that is not there. -/
def format_noargs : List Char → Option (List Char)
  | [] => some []
  | [c] => if c = '%' then none else some [c]
  | c :: d :: rest =>
    if c = '%' then
      (if d = '%' then (format_noargs rest).map (fun out => '%' :: out) else none)
    else (format_noargs (d :: rest)).map (fun out => c :: out)

/-- Modelled from the spec: vsnprintf(3) with no argument into an array of `plen` bytes:
the value returned (the length of the whole output) and the string that the array holds
(at most `plen - 1` characters of it). -/
def vsnprintf (plen : Nat) (fmt : List Char) : Option (Int × List Char) :=
  (format_noargs fmt).map (fun out => ((out.length : Int), out.take (plen - 1)))

/-- Embedding of `prompt_fmt`, for a format `fmt` (a C string: its characters, none of them
NUL) that lies in memory with `beyond` after its terminator: the value returned and the
prompt written. `none` when the scan does not end within `fuel` passes or the behaviour
of vsnprintf is not defined. -/
def prompt_fmt (env : prompt_env) (plen : Nat) (fmt : List Char) (beyond : Nat → Char)
    (fuel : Nat) : Option (Int × List Char) :=
  if env.cbuf_new_fails then vsnprintf plen fmt
  else
    match prompt_fmt_loop env (c_mem fmt beyond) fuel 0 [] with
    | none => none
    | some (_, cb) => vsnprintf plen (cb.takeWhile (fun c => c ≠ NUL))

/-- Embedding of `cli_prompt`. -/
def cli_prompt (k : cli_consts) (env : prompt_env) (fmt : List Char) (beyond : Nat → Char)
    (fuel : Nat) : Option (List Char) :=
  match prompt_fmt env k.CLI_PROMPT_LEN fmt beyond fuel with
  | none => none
  | some (ret, prompt) => if ret < 0 then some k.CLI_DEFAULT_PROMPT.data else some prompt

/-- An environment for the examples: the user `olof` on the host `r1`, the terminal
`/dev/pts/0`. -/
def exPromptEnv : prompt_env :=
  { cbuf_new_fails := false, gethostname := some "r1".data, getenv_USER := some "olof".data,
    ttyname_r := (0, "/dev/pts/0".data) }

/-- The pieces of a prompt format as the specification reads it: a plain character, `%H`,
`%U`, `%T`, a backslash followed by `n`, a backslash followed by another character. -/
inductive prompt_item where
  | plain (c : Char)
  | host
  | user
  | tty
  | newline
  | backslash (c : Char)
  deriving DecidableEq, Repr

/-- The characters of a piece in the format. -/
def prompt_item.src : prompt_item → List Char
  | .plain c => [c]
  | .host => ['%', 'H']
  | .user => ['%', 'U']
  | .tty => ['%', 'T']
  | .newline => ['\\', 'n']
  | .backslash c => ['\\', c]

/-- A piece is well formed: a plain character is not NUL, `%` or a backslash; the
character after a backslash is not NUL and, for the last kind, not `n`. -/
def prompt_item.wf : prompt_item → Prop
  | .plain c => c ≠ NUL ∧ c ≠ '%' ∧ c ≠ '\\'
  | .backslash c => c ≠ NUL ∧ c ≠ 'n'
  | _ => True

/-- What the specification puts in the prompt for a piece: the host name (`unknown` on
failure), the value of `USER` (`nobody` when unset), the tty name (`notty` on failure), a
newline, or the characters as they are. -/
def spec_prompt_item (env : prompt_env) : prompt_item → List Char
  | .plain c => [c]
  | .host => (match env.gethostname with
      | some hname => hname
      | none => "unknown".data)
  | .user => (match env.getenv_USER with
      | some tmp => tmp
      | none => "nobody".data)
  | .tty => if env.ttyname_r.1 < 0 then "notty".data else env.ttyname_r.2
  | .newline => ['\n']
  | .backslash c => ['\\', c]

/-- The format made of a list of pieces. -/
def spec_prompt_format : List prompt_item → List Char
  | [] => []
  | it :: rest => it.src ++ spec_prompt_format rest

/-- The prompt of the specification for a list of pieces, before truncation. -/
def spec_prompt (env : prompt_env) : List prompt_item → List Char
  | [] => []
  | it :: rest => spec_prompt_item env it ++ spec_prompt env rest

end Clixon

/-! # Properties -/

namespace Clixon

variable {Tree : Type}

/-! ## The outside calls -/

theorem Dbs.set_same (d : Dbs Tree) (n : String) (v : Option Tree) : d.set n v n = v := by
  simp [Dbs.set]

theorem Dbs.set_other (d : Dbs Tree) (n m : String) (v : Option Tree) (h : m ≠ n) :
    d.set n v m = d m := by
  simp [Dbs.set, h]

theorem perform_calls (env : Env Tree) (op : Op) (e0 : Nat) (eff : Dbs Tree → Option (Dbs Tree))
    (w : World Tree) : (perform env op e0 eff w).2.calls = bump w.calls op := by
  unfold perform
  split
  · rfl
  · split <;> rfl

/-- A call that succeeds: the oracle let it through, the effect is defined, and the call
is recorded as a success on top of the trace. -/
theorem perform_ok_world (env : Env Tree) (op : Op) (e0 : Nat)
    (eff : Dbs Tree → Option (Dbs Tree)) (w : World Tree)
    (h : ¬ (perform env op e0 eff w).1 < 0) :
    eff w.dbs = some (perform env op e0 eff w).2.dbs ∧
    (perform env op e0 eff w).2.log = ⟨op, true, w.dbs⟩ :: w.log := by
  unfold perform at h ⊢
  split
  · rename_i h1
    simp [h1] at h
  · split
    · rename_i h1 _ h2
      simp [h1, h2] at h
    · rename_i h1 _ _ h2
      exact ⟨h2, rfl⟩

/-- A call that fails changes no database and is recorded as a failure. -/
theorem perform_fail_world (env : Env Tree) (op : Op) (e0 : Nat)
    (eff : Dbs Tree → Option (Dbs Tree)) (w : World Tree)
    (h : (perform env op e0 eff w).1 < 0) :
    (perform env op e0 eff w).2.dbs = w.dbs ∧
    (perform env op e0 eff w).2.log = ⟨op, false, w.dbs⟩ :: w.log := by
  unfold perform at h ⊢
  split
  · exact ⟨rfl, rfl⟩
  · split
    · exact ⟨rfl, rfl⟩
    · rename_i h1 _ _ h2
      simp [h1, h2] at h

theorem xmldb_copy_ok (env : Env Tree) (src dst : String) (w : World Tree)
    (h : ¬ (xmldb_copy env src dst w).1 < 0) :
    (∃ t, w.dbs src = some t ∧ (xmldb_copy env src dst w).2.dbs = w.dbs.set dst (some t)) ∧
    (xmldb_copy env src dst w).2.log = ⟨.xmldb_copy src dst, true, w.dbs⟩ :: w.log := by
  unfold xmldb_copy at h ⊢
  obtain ⟨h1, h2⟩ := perform_ok_world _ _ _ _ _ h
  refine ⟨?_, h2⟩
  cases hs : w.dbs src with
  | none => simp [hs] at h1
  | some t => exact ⟨t, rfl, by simpa [hs] using h1.symm⟩

theorem xmldb_create_ok (env : Env Tree) (db : String) (w : World Tree)
    (h : ¬ (xmldb_create env db w).1 < 0) :
    w.dbs db = none ∧ (xmldb_create env db w).2.dbs = w.dbs.set db (some env.empty) ∧
    (xmldb_create env db w).2.log = ⟨.xmldb_create db, true, w.dbs⟩ :: w.log := by
  unfold xmldb_create at h ⊢
  obtain ⟨h1, h2⟩ := perform_ok_world _ _ _ _ _ h
  cases hs : w.dbs db with
  | none => exact ⟨rfl, by simpa [hs] using h1.symm, h2⟩
  | some t => simp [hs] at h1

theorem xmldb_delete_ok (env : Env Tree) (db : String) (w : World Tree)
    (h : ¬ (xmldb_delete env db w).1 < 0) :
    (xmldb_delete env db w).2.dbs = w.dbs.set db none ∧
    (xmldb_delete env db w).2.log = ⟨.xmldb_delete db, true, w.dbs⟩ :: w.log := by
  unfold xmldb_delete at h ⊢
  obtain ⟨h1, h2⟩ := perform_ok_world _ _ _ _ _ h
  exact ⟨by simpa using h1.symm, h2⟩

theorem xmldb_delete_fail (env : Env Tree) (db : String) (w : World Tree)
    (h : (xmldb_delete env db w).1 < 0) :
    (xmldb_delete env db w).2.dbs = w.dbs ∧
    (xmldb_delete env db w).2.log = ⟨.xmldb_delete db, false, w.dbs⟩ :: w.log :=
  perform_fail_world _ _ _ _ _ h

theorem xmldb_put_merge_ok (env : Env Tree) (db : String) (xt : Tree) (w : World Tree)
    (h : ¬ (xmldb_put env db .OP_MERGE xt w).1 < 0) :
    (∃ t, w.dbs db = some t ∧
      (xmldb_put env db .OP_MERGE xt w).2.dbs = w.dbs.set db (some (env.merge xt t))) ∧
    (xmldb_put env db .OP_MERGE xt w).2.log = ⟨.xmldb_put db, true, w.dbs⟩ :: w.log := by
  unfold xmldb_put at h ⊢
  obtain ⟨h1, h2⟩ := perform_ok_world _ _ _ _ _ h
  refine ⟨?_, h2⟩
  cases hs : w.dbs db with
  | none => simp [hs] at h1
  | some t => exact ⟨t, rfl, by simpa [hs] using h1.symm⟩

theorem candidate_commit_ok (env : Env Tree) (src : String) (w : World Tree)
    (h : ¬ (candidate_commit env src w).1 < 0) :
    (∃ t, w.dbs src = some t ∧
      (candidate_commit env src w).2.dbs = w.dbs.set "running" (some t)) ∧
    (candidate_commit env src w).2.log = ⟨.candidate_commit src, true, w.dbs⟩ :: w.log := by
  unfold candidate_commit at h ⊢
  obtain ⟨h1, h2⟩ := perform_ok_world _ _ _ _ _ h
  refine ⟨?_, h2⟩
  cases hs : w.dbs src with
  | none => simp [hs] at h1
  | some t =>
    cases hr : w.dbs "running" with
    | none => simp [hs, hr] at h1
    | some r => exact ⟨t, rfl, by simpa [hs, hr] using h1.symm⟩

theorem backend_plugin_initiate_dbs (env : Env Tree) (w : World Tree) :
    (backend_plugin_initiate env w).2.dbs = w.dbs := by
  unfold backend_plugin_initiate perform
  split
  · rfl
  · rfl

theorem clixon_plugin_reset_ok (env : Env Tree) (db : String) (w : World Tree)
    (h : ¬ (clixon_plugin_reset env db w).1 < 0) :
    ∃ t, w.dbs db = some t ∧
      (clixon_plugin_reset env db w).2.dbs = w.dbs.set db (some (env.reset t)) := by
  unfold clixon_plugin_reset at h ⊢
  obtain ⟨h1, _⟩ := perform_ok_world _ _ _ _ _ h
  cases hs : w.dbs db with
  | none => simp [hs] at h1
  | some t => exact ⟨t, rfl, by simpa [hs] using h1.symm⟩

theorem extcall_dbs (env : Env Tree) (op : Op) (w : World Tree) :
    (extcall env op w).2.dbs = w.dbs := by
  unfold extcall perform
  split
  · rfl
  · rfl

/-! ## The database helpers -/

theorem Dbs.set_set (d : Dbs Tree) (n : String) (u v : Option Tree) :
    (d.set n u).set n v = d.set n v := by
  funext m
  by_cases h : m = n <;> simp [Dbs.set, h]

theorem xmldb_exists_eq_one (db : String) (w : World Tree) :
    xmldb_exists db w = 1 ↔ (w.dbs db).isSome = true := by
  unfold xmldb_exists
  split <;> simp_all

/-- A reset that succeeds leaves the database materialized and empty, and touches no other
database. -/
theorem db_reset_ok (env : Env Tree) (db : String) (w : World Tree)
    (h : ¬ (db_reset env db w).1 < 0) :
    (db_reset env db w).2.dbs = w.dbs.set db (some env.empty) := by
  unfold db_reset at h ⊢
  split at h
  · rename_i hex
    rw [if_pos hex]
    dsimp only at h ⊢
    split at h
    · simp at h
    · rename_i hdel
      rw [if_neg hdel]
      split at h
      · simp at h
      · rename_i hcr
        rw [if_neg hcr]
        obtain ⟨hnone, hd, _⟩ := xmldb_create_ok _ _ _ hcr
        by_cases hp : (xmldb_delete env db w).1 < 0
        · have := (xmldb_delete_fail _ _ _ hp).1
          rw [this] at hnone
          rw [xmldb_exists_eq_one] at hex
          simp [hnone] at hex
        · have := (xmldb_delete_ok _ _ _ hp).1
          simp only [hd, this, Dbs.set_set]
  · rename_i hex
    rw [if_neg hex]
    dsimp only at h ⊢
    split at h
    · simp at h
    · rename_i hcr
      rw [if_neg hcr]
      exact (xmldb_create_ok _ _ _ hcr).2.1

/-- Whatever a reset does, it touches no other database. -/
theorem db_reset_other (env : Env Tree) (db : String) (w : World Tree) (m : String)
    (hm : m ≠ db) : (db_reset env db w).2.dbs m = w.dbs m := by
  have hdel : (xmldb_delete env db w).2.dbs m = w.dbs m := by
    by_cases hp : (xmldb_delete env db w).1 < 0
    · rw [(xmldb_delete_fail _ _ _ hp).1]
    · rw [(xmldb_delete_ok _ _ _ hp).1, Dbs.set_other _ _ _ _ hm]
  have hcr : ∀ v : World Tree, (xmldb_create env db v).2.dbs m = v.dbs m := by
    intro v
    by_cases hp : (xmldb_create env db v).1 < 0
    · unfold xmldb_create at hp ⊢
      rw [(perform_fail_world _ _ _ _ _ hp).1]
    · rw [(xmldb_create_ok _ _ _ hp).2.1, Dbs.set_other _ _ _ _ hm]
  unfold db_reset
  split
  · dsimp only
    split
    · exact hdel
    · split
      · dsimp only; rw [hcr, hdel]
      · dsimp only; rw [hcr, hdel]
  · dsimp only
    split
    · dsimp only; rw [hcr]
    · dsimp only; rw [hcr]

/-- A merge of one database into another that succeeds: both are materialized, the target
gets the merge, and the trace gets the get and then the put. -/
theorem db_merge_ok (env : Env Tree) (db1 db2 : String) (w : World Tree)
    (h : ¬ (db_merge env db1 db2 w).1 < 0) :
    ∃ x t, w.dbs db1 = some x ∧ w.dbs db2 = some t ∧
      (db_merge env db1 db2 w).2.dbs = w.dbs.set db2 (some (env.merge x t)) ∧
      (db_merge env db1 db2 w).2.log
        = ⟨.xmldb_put db2, true, w.dbs⟩ :: ⟨.xmldb_get db1, true, w.dbs⟩ :: w.log := by
  unfold db_merge at h ⊢
  simp only [] at h ⊢
  split at h
  · simp at h
  · rename_i hg
    rw [if_neg hg]
    have hg1 : ¬ (perform env (.xmldb_get db1) ENOENT
        (fun d => (d db1).map (fun _ => d)) w).1 < 0 := hg
    obtain ⟨hge, hgl⟩ := perform_ok_world _ _ _ _ _ hg1
    have hgd : (xmldb_get env db1 w).2.2.dbs = w.dbs := by
      cases hs : w.dbs db1 with
      | none => simp [hs] at hge
      | some x =>
        have : some w.dbs = some (xmldb_get env db1 w).2.2.dbs := by
          simpa [hs] using hge
        exact (Option.some.inj this).symm
    have hgv : (xmldb_get env db1 w).2.1 = w.dbs db1 := by
      show (if (xmldb_get env db1 w).1 < 0 then none else w.dbs db1) = w.dbs db1
      rw [if_neg hg]
    have hgl1 : (xmldb_get env db1 w).2.2.log = ⟨.xmldb_get db1, true, w.dbs⟩ :: w.log := hgl
    split at h
    · simp at h
    · rename_i xt hxt
      split at h
      · simp at h
      · rename_i hp
        simp only [if_neg hp]
        obtain ⟨⟨t, ht, hd⟩, hl⟩ := xmldb_put_merge_ok _ _ _ _ hp
        rw [hgv] at hxt
        rw [hgd] at ht hd hl
        exact ⟨xt, t, hxt, ht, hd, by rw [hl, hgl1]⟩

/-- Loading the extra xml file with success: without a file name nothing changes; with
one, the file is there and its tree is merged into the database. -/
theorem load_extraxml_ok (env : Env Tree) (filename : Option String) (db : String)
    (w : World Tree) (h : ¬ (load_extraxml env filename db w).1 < 0) :
    (filename = none ∧ (load_extraxml env filename db w).2.dbs = w.dbs) ∨
    (∃ f x t, filename = some f ∧ env.xmlfile f = some x ∧ w.dbs db = some t ∧
      (load_extraxml env filename db w).2.dbs = w.dbs.set db (some (env.merge x t))) := by
  cases filename with
  | none => left; exact ⟨rfl, rfl⟩
  | some f =>
    right
    unfold load_extraxml at h ⊢
    simp only [] at h ⊢
    split at h
    · simp at h
    · rename_i ho
      rw [if_neg ho]
      split at h
      · simp at h
      · rename_i hp
        rw [if_neg hp]
        split at h
        · simp at h
        · rename_i hr
          rw [if_neg hr]
          have hod := (perform_ok_world _ _ _ _ _ ho).1
          generalize hw1 : perform env (.open_file f) ENOENT
            (fun d => (env.xmlfile f).map (fun _ => d)) w = w1 at h hp hr hod ⊢
          cases hx : env.xmlfile f with
          | none => simp [hx] at hod
          | some x =>
            have hod1 : w1.2.dbs = w.dbs := by
              have : some w.dbs = some w1.2.dbs := by simpa [hx] using hod
              exact (Option.some.inj this).symm
            simp only [hx] at h ⊢
            split at h
            · simp at h
            · rename_i hm
              rw [if_neg hm]
              obtain ⟨⟨t, ht, hd⟩, _⟩ := xmldb_put_merge_ok _ _ _ _ hm
              rw [extcall_dbs, extcall_dbs, hod1] at ht hd
              exact ⟨f, x, t, rfl, hx, ht, hd⟩

/-! ## The `done` labels of the startup modes -/

/-- When the `done` label of mode `running` is left, the return value is the one it was
entered with, `tmp` is gone, no other database has changed, and only deletes of `tmp` have
been added to the trace. -/
theorem startup_mode_running_done_spec (env : Env Tree) (fuel : Nat) (rv : Int)
    (w : World Tree) (rv1 : Int) (w1 : World Tree)
    (h : startup_mode_running_done env fuel rv w = some (rv1, w1)) :
    rv1 = rv ∧ w1.dbs = w.dbs.set "tmp" none ∧
      ∃ l, w1.log = l ++ w.log ∧ ∀ e ∈ l, e.op = Op.xmldb_delete "tmp" := by
  induction fuel generalizing w with
  | zero => simp [startup_mode_running_done] at h
  | succ n ih =>
    unfold startup_mode_running_done at h
    dsimp only at h
    split at h
    · rename_i hd
      obtain ⟨h1, h2, l, h3, h4⟩ := ih _ h
      obtain ⟨hdb, hlog⟩ := xmldb_delete_fail _ _ _ hd
      refine ⟨h1, by rw [h2, hdb], l ++ [⟨.xmldb_delete "tmp", false, w.dbs⟩], ?_, ?_⟩
      · rw [h3, hlog]; simp
      · intro e he
        rcases List.mem_append.mp he with he | he
        · exact h4 e he
        · simp at he; rw [he]
    · rename_i hd
      obtain ⟨hdb, hlog⟩ := xmldb_delete_ok _ _ _ hd
      simp only [Option.some.injEq, Prod.mk.injEq] at h
      obtain ⟨h1, h2⟩ := h
      subst h1 h2
      refine ⟨rfl, hdb, [⟨.xmldb_delete "tmp", true, w.dbs⟩], by rw [hlog]; rfl, ?_⟩
      intro e he
      simp at he; rw [he]

/-- When the `done` label of mode `startup` is left, the return value is the one it was
entered with, `backup` and `tmp` are gone and no other database has changed. -/
theorem startup_mode_startup_done_spec (env : Env Tree) (fuel : Nat) (rv : Int)
    (w : World Tree) (rv1 : Int) (w1 : World Tree)
    (h : startup_mode_startup_done env fuel rv w = some (rv1, w1)) :
    rv1 = rv ∧ w1.dbs = (w.dbs.set "backup" none).set "tmp" none := by
  induction fuel generalizing w with
  | zero => simp [startup_mode_startup_done] at h
  | succ n ih =>
    unfold startup_mode_startup_done at h
    dsimp only at h
    split at h
    · rename_i hb
      obtain ⟨h1, h2⟩ := ih _ h
      exact ⟨h1, by rw [h2, (xmldb_delete_fail _ _ _ hb).1]⟩
    · rename_i hb
      have hbd := (xmldb_delete_ok _ _ _ hb).1
      split at h
      · rename_i hd
        obtain ⟨h1, h2⟩ := ih _ h
        exact ⟨h1, by rw [h2, (xmldb_delete_fail _ _ _ hd).1, hbd, Dbs.set_set]⟩
      · rename_i hd
        simp only [Option.some.injEq, Prod.mk.injEq] at h
        obtain ⟨h1, h2⟩ := h
        subst h1 h2
        exact ⟨rfl, by rw [(xmldb_delete_ok _ _ _ hd).1, hbd]⟩

/-! ## Startup mode `running` -/

/-- What a run of mode `running` that returns 0 has done to the datastore and to the
trace. -/
theorem startup_mode_running_ok_spec (env : Env Tree) (extraxml_file : Option String)
    (fuel : Nat) (w w1 : World Tree)
    (h : startup_mode_running env extraxml_file fuel w = some (0, w1)) :
    ∃ r, w.dbs "running" = some r ∧
      w1.dbs "running"
        = some (env.merge (spec_tmp_content env (extraxml_file.bind env.xmlfile)) r) ∧
      w1.dbs "tmp" = none ∧
      ∃ l d0 d1 l0,
        w1.log = l ++ ⟨.xmldb_put "running", true, d1⟩ :: ⟨.xmldb_get "tmp", true, d1⟩ ::
          ⟨.candidate_commit "candidate", true, d0⟩ :: l0 ∧
        (∀ e ∈ l, e.op = Op.xmldb_delete "tmp") ∧
        d1 "running" = some r ∧
        d1 "tmp" = some (spec_tmp_content env (extraxml_file.bind env.xmlfile)) := by
  unfold startup_mode_running at h
  dsimp only at h
  split at h
  · exact absurd (startup_mode_running_done_spec _ _ _ _ _ _ h).1 (by decide)
  rename_i hc
  split at h
  · exact absurd (startup_mode_running_done_spec _ _ _ _ _ _ h).1 (by decide)
  rename_i hp
  split at h
  · exact absurd (startup_mode_running_done_spec _ _ _ _ _ _ h).1 (by decide)
  rename_i ht
  split at h
  · exact absurd (startup_mode_running_done_spec _ _ _ _ _ _ h).1 (by decide)
  rename_i ha
  split at h
  · exact absurd (startup_mode_running_done_spec _ _ _ _ _ _ h).1 (by decide)
  rename_i hx
  split at h
  · exact absurd (startup_mode_running_done_spec _ _ _ _ _ _ h).1 (by decide)
  rename_i hr
  split at h
  · exact absurd (startup_mode_running_done_spec _ _ _ _ _ _ h).1 (by decide)
  rename_i hk
  split at h
  · exact absurd (startup_mode_running_done_spec _ _ _ _ _ _ h).1 (by decide)
  rename_i hm
  obtain ⟨_, hdone, l, hlog, hl⟩ := startup_mode_running_done_spec _ _ _ _ _ _ h
  obtain ⟨⟨r, hwr, hcd⟩, _⟩ := xmldb_copy_ok _ _ _ _ hc
  generalize xmldb_copy env "running" "candidate" w = c at *
  have hpd := backend_plugin_initiate_dbs env c.2
  generalize backend_plugin_initiate env c.2 = p at *
  have htd := db_reset_ok _ _ _ ht
  generalize db_reset env "tmp" p.2 = t at *
  obtain ⟨t0, ht0, had⟩ := clixon_plugin_reset_ok _ _ _ ha
  generalize clixon_plugin_reset env "tmp" t.2 = a at *
  have hxd := load_extraxml_ok _ _ _ _ hx
  generalize load_extraxml env extraxml_file "tmp" a.2 = x at *
  have hrd := db_reset_ok _ _ _ hr
  generalize db_reset env "running" x.2 = rr at *
  obtain ⟨⟨tc, htc, hkd⟩, hklog⟩ := candidate_commit_ok _ _ _ hk
  generalize candidate_commit env "candidate" rr.2 = k at *
  obtain ⟨xo, tr, hxo, htr, hmd, hmlog⟩ := db_merge_ok _ _ _ _ hm
  generalize db_merge env "tmp" "running" k.2 = m at *
  have ht0e : t0 = env.empty := by
    rw [htd] at ht0
    simpa [Dbs.set] using ht0.symm
  subst ht0e
  have hcand : x.2.dbs "candidate" = some r := by
    rcases hxd with ⟨_, hxd⟩ | ⟨f, xf, tf, _, _, _, hxd⟩ <;>
      simp [hxd, had, htd, hpd, hcd, Dbs.set]
  have htmp : x.2.dbs "tmp" = some (spec_tmp_content env (extraxml_file.bind env.xmlfile)) := by
    rcases hxd with ⟨hf, hxd⟩ | ⟨f, xf, tf, hf, hxf, htf, hxd⟩
    · simp [hxd, had, hf, spec_tmp_content, Dbs.set]
    · rw [had] at htf
      simp [Dbs.set] at htf
      simp [hxd, hf, hxf, spec_tmp_content, Dbs.set, htf]
  have htce : tc = r := by
    rw [hrd] at htc
    simp [Dbs.set, hcand] at htc
    exact htc.symm
  subst htce
  have hxoe : xo = spec_tmp_content env (extraxml_file.bind env.xmlfile) := by
    rw [hkd, hrd] at hxo
    simp [Dbs.set, htmp] at hxo
    exact hxo.symm
  have htre : tr = tc := by
    rw [hkd] at htr
    simpa [Dbs.set] using htr.symm
  subst htre
  refine ⟨tr, hwr, ?_, ?_, l, rr.2.dbs, k.2.dbs, rr.2.log, ?_, hl, ?_, ?_⟩
  · rw [hdone, hmd, hxoe]; simp [Dbs.set]
  · rw [hdone]; simp [Dbs.set]
  · rw [hlog, hmlog, hklog]
  · rw [hkd]; simp [Dbs.set]
  · rw [hkd, hrd]; simp [Dbs.set, htmp]

/-! ## Startup mode `startup` -/

/-- What a run of mode `startup` that returns 0 has done to the datastore: `running` is the
content of `startup` (the empty tree when `startup` was not there) with the content of `tmp`
merged into it, `startup` is materialized, `backup` and `tmp` are gone. -/
theorem startup_mode_startup_ok_spec (env : Env Tree) (extraxml_file : Option String)
    (fuel : Nat) (w w1 : World Tree)
    (h : startup_mode_startup env extraxml_file fuel w = some (0, w1)) :
    (w.dbs "running").isSome ∧
      w1.dbs "running"
        = some (env.merge (spec_tmp_content env (extraxml_file.bind env.xmlfile))
            ((w.dbs "startup").getD env.empty)) ∧
      w1.dbs "startup" = some ((w.dbs "startup").getD env.empty) ∧
      w1.dbs "backup" = none ∧ w1.dbs "tmp" = none := by
  unfold startup_mode_startup at h
  dsimp only at h
  split at h
  · exact absurd (startup_mode_startup_done_spec _ _ _ _ _ _ h).1 (by decide)
  rename_i hc
  split at h
  · simp at h
  rename_i hs
  split at h
  · exact absurd (startup_mode_startup_done_spec _ _ _ _ _ _ h).1 (by decide)
  rename_i hp
  split at h
  · exact absurd (startup_mode_startup_done_spec _ _ _ _ _ _ h).1 (by decide)
  rename_i ht
  split at h
  · exact absurd (startup_mode_startup_done_spec _ _ _ _ _ _ h).1 (by decide)
  rename_i ha
  split at h
  · exact absurd (startup_mode_startup_done_spec _ _ _ _ _ _ h).1 (by decide)
  rename_i hx
  split at h
  · exact absurd (startup_mode_startup_done_spec _ _ _ _ _ _ h).1 (by decide)
  rename_i hr
  split at h
  · exact absurd (startup_mode_startup_done_spec _ _ _ _ _ _ h).1 (by decide)
  rename_i hk
  split at h
  · exact absurd (startup_mode_startup_done_spec _ _ _ _ _ _ h).1 (by decide)
  rename_i hm
  obtain ⟨_, hdone⟩ := startup_mode_startup_done_spec _ _ _ _ _ _ h
  obtain ⟨⟨r, hwr, hcd⟩, _⟩ := xmldb_copy_ok _ _ _ _ hc
  generalize xmldb_copy env "running" "backup" w = c at *
  have hsd : (xmldb_create_if_absent env "startup" c.2).2.dbs
      = c.2.dbs.set "startup" (some ((w.dbs "startup").getD env.empty)) := by
    unfold xmldb_create_if_absent at hs ⊢
    split
    · rename_i hex
      rw [if_pos hex] at hs
      obtain ⟨hn, hd, _⟩ := xmldb_create_ok _ _ _ hs
      rw [hd]
      rw [hcd] at hn
      simp [Dbs.set] at hn
      simp [hn]
    · rename_i hex
      have hex1 : (c.2.dbs "startup").isSome = true := by
        rw [← xmldb_exists_eq_one]
        exact not_not.mp hex
      rw [hcd] at hex1
      simp [Dbs.set] at hex1
      obtain ⟨v, hv⟩ := Option.isSome_iff_exists.mp hex1
      funext n
      by_cases hn : n = "startup"
      · subst hn
        simp [Dbs.set, hcd, hv]
      · simp [Dbs.set, hn]
  generalize xmldb_create_if_absent env "startup" c.2 = s at *
  have hpd := backend_plugin_initiate_dbs env s.2
  generalize backend_plugin_initiate env s.2 = p at *
  have htd := db_reset_ok _ _ _ ht
  generalize db_reset env "tmp" p.2 = t at *
  obtain ⟨t0, ht0, had⟩ := clixon_plugin_reset_ok _ _ _ ha
  generalize clixon_plugin_reset env "tmp" t.2 = a at *
  have hxd := load_extraxml_ok _ _ _ _ hx
  generalize load_extraxml env extraxml_file "tmp" a.2 = x at *
  have hrd := db_reset_ok _ _ _ hr
  generalize db_reset env "running" x.2 = rr at *
  obtain ⟨⟨tc, htc, hkd⟩, _⟩ := candidate_commit_ok _ _ _ hk
  generalize candidate_commit env "startup" rr.2 = k at *
  obtain ⟨xo, tr, hxo, htr, hmd, _⟩ := db_merge_ok _ _ _ _ hm
  generalize db_merge env "tmp" "running" k.2 = m at *
  have ht0e : t0 = env.empty := by
    rw [htd] at ht0
    simpa [Dbs.set] using ht0.symm
  subst ht0e
  have hst : x.2.dbs "startup" = some ((w.dbs "startup").getD env.empty) := by
    rcases hxd with ⟨_, hxd⟩ | ⟨f, xf, tf, _, _, _, hxd⟩ <;>
      simp [hxd, had, htd, hpd, hsd, Dbs.set]
  have htmp : x.2.dbs "tmp" = some (spec_tmp_content env (extraxml_file.bind env.xmlfile)) := by
    rcases hxd with ⟨hf, hxd⟩ | ⟨f, xf, tf, hf, hxf, htf, hxd⟩
    · simp [hxd, had, hf, spec_tmp_content, Dbs.set]
    · rw [had] at htf
      simp [Dbs.set] at htf
      simp [hxd, hf, hxf, spec_tmp_content, Dbs.set, htf]
  have htce : tc = (w.dbs "startup").getD env.empty := by
    rw [hrd] at htc
    simp [Dbs.set, hst] at htc
    exact htc.symm
  have hxoe : xo = spec_tmp_content env (extraxml_file.bind env.xmlfile) := by
    rw [hkd, hrd] at hxo
    simp [Dbs.set, htmp] at hxo
    exact hxo.symm
  have htre : tr = tc := by
    rw [hkd] at htr
    simpa [Dbs.set] using htr.symm
  refine ⟨by simp [hwr], ?_, ?_, ?_, ?_⟩
  · rw [hdone, hmd, hxoe, htre, htce]; simp [Dbs.set]
  · rw [hdone, hmd, hkd, hrd]; simp [Dbs.set, hst]
  · rw [hdone]; simp [Dbs.set]
  · rw [hdone]; simp [Dbs.set]

/-! ## Claims on the startup modes -/

/-- C1, failing input. In mode `startup`, with `startup` absent and the create of `startup`
failing, the function leaves by its early `return -1` and not by the `done` label: it
returns -1 and `backup`, just copied from `running`, still exists. -/
theorem startup_mode_startup_early_return_leaves_backup :
    (startup_mode_startup (exEnvFail (.xmldb_create "startup") EACCES) none 1 exWorld).map
      (fun r => (r.1, r.2.dbs "backup", r.2.dbs "tmp", r.2.dbs "running"))
      = some (-1, some ["old"], none, some ["old"]) := by
  decide

/-- C2. Mode `running`, from any content `r` of `running`, any overlay file that is there
and any plugin reset hook: when the re-commit of the stashed candidate fails (and no other
call does), the function returns -1, `running` holds `r` again, no `xmldb_put` on `running`
has been made (the overlay of `tmp` is not merged), and `tmp` is gone. -/
theorem startup_mode_running_commit_failure_restores (env : Env Tree)
    (extraxml_file : Option String) (w : World Tree) (r : Tree) (e : Nat) (fuel : Nat)
    (hr : w.dbs "running" = some r)
    (hfile : ∀ p, extraxml_file = some p → (env.xmlfile p).isSome)
    (hcommit : env.fault (.candidate_commit "candidate")
      (w.calls (.candidate_commit "candidate")) = some e)
    (hothers : ∀ op n, op ≠ Op.candidate_commit "candidate" → env.fault op n = none) :
    ∃ w1, startup_mode_running env extraxml_file (fuel + 1) w = some (-1, w1) ∧
      w1.dbs "running" = some r ∧
      w1.calls (.xmldb_put "running") = w.calls (.xmldb_put "running") ∧
      w1.dbs "tmp" = none := by
  cases extraxml_file with
  | none =>
    cases htmp : w.dbs "tmp" <;>
    simp [startup_mode_running, startup_mode_running_done, xmldb_copy, backend_plugin_initiate,
      db_reset, xmldb_exists, xmldb_delete, xmldb_create, clixon_plugin_reset, load_extraxml,
      candidate_commit, perform, hothers, hr, htmp, Dbs.set, bump, hcommit]
  | some p =>
    obtain ⟨x, hx⟩ := Option.isSome_iff_exists.mp (hfile p rfl)
    cases htmp : w.dbs "tmp" <;>
    simp [startup_mode_running, startup_mode_running_done, xmldb_copy, backend_plugin_initiate,
      db_reset, xmldb_exists, xmldb_delete, xmldb_create, clixon_plugin_reset, load_extraxml,
      candidate_commit, perform, hothers, hr, htmp, Dbs.set, bump, hcommit, extcall,
      xmldb_put, hx]

/-- C2, witness: the example world, the overlay file `extra.xml`, the commit failing. -/
theorem startup_mode_running_commit_failure_restores_witness :
    ∃ w1, startup_mode_running (exEnvFail (.candidate_commit "candidate") EACCES)
        (some "extra.xml") 1 exWorld = some (-1, w1) ∧
      w1.dbs "running" = some ["old"] ∧
      w1.calls (.xmldb_put "running") = exWorld.calls (.xmldb_put "running") ∧
      w1.dbs "tmp" = none :=
  startup_mode_running_commit_failure_restores
    (exEnvFail (.candidate_commit "candidate") EACCES) (some "extra.xml") exWorld ["old"]
    EACCES 0 (by decide) (by intro p hp; cases hp; decide) (by decide)
    (by intro op n hop; simp [exEnvFail, hop])

/-- C3. Mode `startup`, from any content `r` of `running`: when the commit of `startup`
into `running` fails (and no other call does), `running` is copied back from `backup`, the
function returns -1 and `running` holds `r` again; `backup` and `tmp` are gone. -/
theorem startup_mode_startup_commit_failure_restores (env : Env Tree)
    (extraxml_file : Option String) (w : World Tree) (r : Tree) (e : Nat) (fuel : Nat)
    (hr : w.dbs "running" = some r)
    (hfile : ∀ p, extraxml_file = some p → (env.xmlfile p).isSome)
    (hcommit : env.fault (.candidate_commit "startup")
      (w.calls (.candidate_commit "startup")) = some e)
    (hothers : ∀ op n, op ≠ Op.candidate_commit "startup" → env.fault op n = none) :
    ∃ w1, startup_mode_startup env extraxml_file (fuel + 1) w = some (-1, w1) ∧
      w1.dbs "running" = some r ∧
      w1.calls (.xmldb_copy "backup" "running")
        = w.calls (.xmldb_copy "backup" "running") + 1 ∧
      w1.dbs "backup" = none ∧ w1.dbs "tmp" = none := by
  cases extraxml_file with
  | none =>
    cases htmp : w.dbs "tmp" <;> cases hst : w.dbs "startup" <;>
    simp [startup_mode_startup, startup_mode_startup_done, xmldb_copy, backend_plugin_initiate,
      db_reset, xmldb_exists, xmldb_delete, xmldb_create, clixon_plugin_reset, load_extraxml,
      candidate_commit, perform, hothers, hr, htmp, hst, Dbs.set, bump, hcommit,
      xmldb_create_if_absent]
  | some p =>
    obtain ⟨x, hx⟩ := Option.isSome_iff_exists.mp (hfile p rfl)
    cases htmp : w.dbs "tmp" <;> cases hst : w.dbs "startup" <;>
    simp [startup_mode_startup, startup_mode_startup_done, xmldb_copy, backend_plugin_initiate,
      db_reset, xmldb_exists, xmldb_delete, xmldb_create, clixon_plugin_reset, load_extraxml,
      candidate_commit, perform, hothers, hr, htmp, hst, Dbs.set, bump, hcommit, extcall,
      xmldb_put, hx, xmldb_create_if_absent]

/-- C3, witness: the example world, no overlay file, the commit of `startup` failing. -/
theorem startup_mode_startup_commit_failure_restores_witness :
    ∃ w1, startup_mode_startup (exEnvFail (.candidate_commit "startup") EACCES)
        none 1 exWorld = some (-1, w1) ∧
      w1.dbs "running" = some ["old"] ∧
      w1.calls (.xmldb_copy "backup" "running")
        = exWorld.calls (.xmldb_copy "backup" "running") + 1 ∧
      w1.dbs "backup" = none ∧ w1.dbs "tmp" = none :=
  startup_mode_startup_commit_failure_restores
    (exEnvFail (.candidate_commit "startup") EACCES) none exWorld ["old"]
    EACCES 0 (by decide) (by intro p hp; cases hp) (by decide)
    (by intro op n hop; simp [exEnvFail, hop])

/-- Mode `none` writes no database but `candidate`, and not even that one when it is
there. -/
theorem startup_mode_none_frame (env : Env Tree) (w : World Tree) :
    (∀ db, db ≠ "candidate" → (startup_mode_none env w).2.dbs db = w.dbs db) ∧
    ((w.dbs "candidate").isSome = true → (startup_mode_none env w).2.dbs = w.dbs) := by
  have hcopy : ∀ db, db ≠ "candidate" →
      (xmldb_copy env "running" "candidate" w).2.dbs db = w.dbs db := by
    intro db hdb
    by_cases hc : (xmldb_copy env "running" "candidate" w).1 < 0
    · unfold xmldb_copy at hc ⊢
      rw [(perform_fail_world _ _ _ _ _ hc).1]
    · obtain ⟨⟨t, _, hd⟩, _⟩ := xmldb_copy_ok _ _ _ _ hc
      rw [hd, Dbs.set_other _ _ _ _ hdb]
  constructor
  · intro db hdb
    unfold startup_mode_none
    dsimp only
    split_ifs <;> simp only [backend_plugin_initiate_dbs, hcopy db hdb]
  · intro hc
    have hex : xmldb_exists "candidate" w = 1 := (xmldb_exists_eq_one _ _).mpr hc
    unfold startup_mode_none
    dsimp only
    rw [if_neg (not_not.mpr hex)]
    split_ifs <;> simp only [backend_plugin_initiate_dbs]

/-- C7. Mode `none`, from every initial datastore and whatever fails: the content of
`running` after the reconcile is its content before; every database other than `candidate`
is as it was, and when `candidate` was materialized no database is written at all. -/
theorem startup_mode_none_preserves_running (env : Env Tree) (w : World Tree) :
    (startup_mode_none env w).2.dbs "running" = w.dbs "running" ∧
    (∀ db, db ≠ "candidate" → (startup_mode_none env w).2.dbs db = w.dbs db) ∧
    ((w.dbs "candidate").isSome = true → (startup_mode_none env w).2.dbs = w.dbs) :=
  ⟨(startup_mode_none_frame env w).1 "running" (by decide),
   (startup_mode_none_frame env w).1, (startup_mode_none_frame env w).2⟩

/-- A run of mode `init` that returns 0 leaves `running` materialized and empty. -/
theorem startup_mode_init_ok_spec (env : Env Tree) (w : World Tree)
    (h : (startup_mode_init env w).1 = 0) :
    (startup_mode_init env w).2.dbs "running" = some env.empty := by
  unfold startup_mode_init at h ⊢
  dsimp only at h ⊢
  split at h
  · simp at h
  rename_i hr
  rw [if_neg hr]
  have hrd := db_reset_ok _ _ _ hr
  split at h
  · rename_i hex
    rw [if_pos hex]
    split at h
    · simp at h
    rename_i hc
    rw [if_neg hc]
    obtain ⟨⟨t, _, hd⟩, _⟩ := xmldb_copy_ok _ _ _ _ hc
    split_ifs <;> simp [backend_plugin_initiate_dbs, hd, hrd, Dbs.set]
  · rename_i hex
    rw [if_neg hex]
    split_ifs <;> simp [backend_plugin_initiate_dbs, hrd, Dbs.set]

/-- Mode `init` never touches `tmp` and never calls the plugins reset hook. -/
theorem startup_mode_init_no_reset (env : Env Tree) (w : World Tree) :
    (startup_mode_init env w).2.dbs "tmp" = w.dbs "tmp" ∧
    ∀ db, (startup_mode_init env w).2.calls (.clixon_plugin_reset db)
      = w.calls (.clixon_plugin_reset db) := by
  have hcopy : ∀ v : World Tree,
      (xmldb_copy env "running" "candidate" v).2.dbs "tmp" = v.dbs "tmp" := by
    intro v
    by_cases hc : (xmldb_copy env "running" "candidate" v).1 < 0
    · unfold xmldb_copy at hc ⊢
      rw [(perform_fail_world _ _ _ _ _ hc).1]
    · obtain ⟨⟨t, _, hd⟩, _⟩ := xmldb_copy_ok _ _ _ _ hc
      rw [hd, Dbs.set_other _ _ _ _ (by decide)]
  have hreset := db_reset_other env "running" w "tmp" (by decide)
  constructor
  · unfold startup_mode_init
    dsimp only
    split_ifs <;> simp only [backend_plugin_initiate_dbs, hcopy, hreset]
  · intro db
    simp only [startup_mode_init, db_reset, xmldb_copy, xmldb_delete, xmldb_create,
      backend_plugin_initiate]
    split_ifs <;> simp [perform_calls, bump]

/-- C5, as the code has it. After a successful reconcile in mode `init`, from every initial
datastore and for every plugin reset hook, `running` is the empty tree: mode `init` does
not call the reset hook and does not touch `tmp`, so nothing is merged from it. -/
theorem startup_mode_init_running_is_empty (env : Env Tree) (w : World Tree)
    (h : (startup_mode_init env w).1 = 0) :
    (startup_mode_init env w).2.dbs "running" = some env.empty ∧
    (startup_mode_init env w).2.dbs "tmp" = w.dbs "tmp" ∧
    ∀ db, (startup_mode_init env w).2.calls (.clixon_plugin_reset db)
      = w.calls (.clixon_plugin_reset db) :=
  ⟨startup_mode_init_ok_spec env w h, startup_mode_init_no_reset env w⟩

/-- C5, witness: mode `init` succeeds on the example world. -/
theorem startup_mode_init_running_is_empty_witness :
    (startup_mode_init exEnv exWorld).1 = 0 ∧
    (startup_mode_init exEnv exWorld).2.dbs "running" = some exEnv.empty ∧
    (startup_mode_init exEnv exWorld).2.dbs "tmp" = exWorld.dbs "tmp" ∧
    ∀ db, (startup_mode_init exEnv exWorld).2.calls (.clixon_plugin_reset db)
      = exWorld.calls (.clixon_plugin_reset db) :=
  ⟨by decide, startup_mode_init_running_is_empty exEnv exWorld (by decide)⟩

/-- C5, counterexample to the claim as stated. With a reset hook that writes the leaf
`reset`, the empty tree plus the reset content merged from `tmp` is `[reset]`; mode `init`
succeeds and leaves `running` empty, without that content. -/
theorem startup_mode_init_has_no_reset_content :
    (startup_mode_init exEnv exWorld).1 = 0 ∧
    exEnv.merge (spec_tmp_content exEnv none) exEnv.empty = ["reset"] ∧
    (startup_mode_init exEnv exWorld).2.dbs "running"
      ≠ some (exEnv.merge (spec_tmp_content exEnv none) exEnv.empty) := by
  decide

/-- C6. Scenario S5 for every prior content of `running`, for a tree type where merging a
tree into the empty tree gives that tree: when `startup` is absent and mode `startup`
returns 0, `startup` has been created empty, `running` is exactly the content of `tmp` (the
output of the reset hook with the overlay file merged in, if there is one), whatever
`running` held before, and `backup` and `tmp` do not exist. -/
theorem startup_mode_startup_absent_startup (env : Env Tree) (extraxml_file : Option String)
    (fuel : Nat) (w w1 : World Tree)
    (hmerge : ∀ t, env.merge t env.empty = t)
    (hs : w.dbs "startup" = none)
    (h : startup_mode_startup env extraxml_file fuel w = some (0, w1)) :
    w1.dbs "startup" = some env.empty ∧
    w1.dbs "running" = some (spec_tmp_content env (extraxml_file.bind env.xmlfile)) ∧
    w1.dbs "backup" = none ∧ w1.dbs "tmp" = none := by
  obtain ⟨_, h1, h2, h3, h4⟩ := startup_mode_startup_ok_spec env extraxml_file fuel w w1 h
  rw [hs] at h1 h2
  exact ⟨by simpa using h2, by simpa [hmerge] using h1, h3, h4⟩

/-- C6, witness: scenario S5 on the example world (`running` holds `old`, `startup` is
absent), with the overlay file `extra.xml`. -/
theorem startup_mode_startup_absent_startup_witness :
    (startup_mode_startup exEnv (some "extra.xml") 1 exWorld).isSome = true ∧
    ((startup_mode_startup exEnv (some "extra.xml") 1 exWorld).getD (0, exWorld)).2.dbs "running"
      = some ["reset", "extra"] ∧
    ((startup_mode_startup exEnv (some "extra.xml") 1 exWorld).getD (0, exWorld)).2.dbs "backup"
      = none :=
  have h := startup_mode_startup_absent_startup exEnv (some "extra.xml") 1 exWorld
    ((startup_mode_startup exEnv (some "extra.xml") 1 exWorld).getD (0, exWorld)).2
    (by intro t; simp [exEnv]) (by decide) (by rfl)
  ⟨by decide, h.2.1, h.2.2.1⟩

/-- C8. Mode `running`, when every step succeeds (the function returns 0): `running` was
materialized with some content `r`, and on return `running` holds `r` with the content of
`tmp` merged into it, `tmp` being the empty tree after the reset hook and the merge of the
extra xml file. In the trace the commit of `candidate` comes first (it leaves `r` in
`running`), then the get of `tmp` and the put into `running`, and after the put only
deletes of `tmp`: the merge comes after the commit and is not committed. -/
theorem startup_mode_running_merges_overlay_after_commit (env : Env Tree)
    (extraxml_file : Option String) (fuel : Nat) (w w1 : World Tree)
    (h : startup_mode_running env extraxml_file fuel w = some (0, w1)) :
    ∃ r, w.dbs "running" = some r ∧
      w1.dbs "running"
        = some (env.merge (spec_tmp_content env (extraxml_file.bind env.xmlfile)) r) ∧
      w1.dbs "tmp" = none ∧
      ∃ l d0 d1 l0,
        w1.log = l ++ ⟨.xmldb_put "running", true, d1⟩ :: ⟨.xmldb_get "tmp", true, d1⟩ ::
          ⟨.candidate_commit "candidate", true, d0⟩ :: l0 ∧
        (∀ e ∈ l, e.op = Op.xmldb_delete "tmp") ∧
        d1 "running" = some r ∧
        d1 "tmp" = some (spec_tmp_content env (extraxml_file.bind env.xmlfile)) :=
  startup_mode_running_ok_spec env extraxml_file fuel w w1 h

/-- C8, witness: mode `running` on the example world with the overlay file `extra.xml`
returns 0 and leaves `old`, then `reset`, then `extra` in `running`. -/
theorem startup_mode_running_merges_overlay_after_commit_witness :
    (startup_mode_running exEnv (some "extra.xml") 1 exWorld).isSome = true ∧
    ((startup_mode_running exEnv (some "extra.xml") 1 exWorld).getD (0, exWorld)).2.dbs "running"
      = some ["old", "reset", "extra"] :=
  have h := startup_mode_running_merges_overlay_after_commit exEnv (some "extra.xml") 1 exWorld
    ((startup_mode_running exEnv (some "extra.xml") 1 exWorld).getD (0, exWorld)).2 (by rfl)
  ⟨by decide, by
    obtain ⟨r, hr, hrun, _⟩ := h
    have hr1 : r = ["old"] := by
      have : exWorld.dbs "running" = some ["old"] := by decide
      rw [this] at hr
      exact (Option.some.inj hr).symm
    rw [hrun, hr1]
    decide⟩

/-! ## The trace of the outside calls -/

theorem Extends.erefl (P : Event Tree → Prop) (w : World Tree) : Extends P w w :=
  ⟨rfl, [], rfl, by simp⟩

theorem Extends.adds {P : Event Tree → Prop} {w w1 : World Tree} (h : Extends P w w1) : Adds P w w1 :=
  h.2

theorem Adds.refl (P : Event Tree → Prop) (w : World Tree) : Adds P w w :=
  ⟨[], rfl, by simp⟩

theorem Adds.trans {P : Event Tree → Prop} {w w1 w2 : World Tree} (h1 : Adds P w w1)
    (h2 : Adds P w1 w2) : Adds P w w2 := by
  obtain ⟨l1, hl1, hp1⟩ := h1
  obtain ⟨l2, hl2, hp2⟩ := h2
  refine ⟨l2 ++ l1, by rw [hl2, hl1, List.append_assoc], ?_⟩
  intro e he
  rcases List.mem_append.mp he with he | he
  · exact hp2 e he
  · exact hp1 e he

theorem Adds.mono {P Q : Event Tree → Prop} {w w1 : World Tree} (h : Adds P w w1)
    (hPQ : ∀ e, P e → Q e) : Adds Q w w1 := by
  obtain ⟨l, hl, hp⟩ := h
  exact ⟨l, hl, fun e he => hPQ _ (hp e he)⟩

theorem Extends.etrans {P : Event Tree → Prop} {w w1 w2 : World Tree} (h1 : Extends P w w1)
    (h2 : Extends P w1 w2) : Extends P w w2 :=
  ⟨h2.1.trans h1.1, h1.2.trans h2.2⟩

theorem Extends.emono {P Q : Event Tree → Prop} {w w1 : World Tree} (h : Extends P w w1)
    (hPQ : ∀ e, P e → Q e) : Extends Q w w1 :=
  ⟨h.1, h.2.mono hPQ⟩

/-- One more entry on the trace. -/
theorem Extends.step {P : Event Tree → Prop} {w0 w w1 : World Tree} (ev : Event Tree)
    (h : Extends P w0 w) (hop : P ev) (ho : w1.options = w.options)
    (hl : w1.log = ev :: w.log) : Extends P w0 w1 := by
  obtain ⟨h1, l, hl1, hp⟩ := h
  refine ⟨ho.trans h1, ev :: l, by rw [hl, hl1]; rfl, ?_⟩
  intro e he
  rcases List.mem_cons.mp he with he | he
  · rw [he]; exact hop
  · exact hp e he

theorem extends_perform {P : Event Tree → Prop} {w0 w : World Tree} (env : Env Tree)
    (op : Op) (e0 : Nat) (eff : Dbs Tree → Option (Dbs Tree))
    (hop : ∀ ok, P ⟨op, ok, w.dbs⟩) (h : Extends P w0 w) :
    Extends P w0 (perform env op e0 eff w).2 := by
  unfold perform
  split
  · exact h.step ⟨op, false, w.dbs⟩ (hop _) rfl rfl
  · split
    · exact h.step ⟨op, false, w.dbs⟩ (hop _) rfl rfl
    · exact h.step ⟨op, true, w.dbs⟩ (hop _) rfl rfl

theorem extends_record {P : Event Tree → Prop} {w0 w : World Tree} (op : Op)
    (hop : P ⟨op, true, w.dbs⟩) (h : Extends P w0 w) : Extends P w0 (record op w) :=
  h.step ⟨op, true, w.dbs⟩ hop rfl rfl

theorem extends_mark {P : Event Tree → Prop} {w0 w : World Tree} (op : Op) (ok : Bool)
    (hop : P ⟨op, ok, w.dbs⟩) (h : Extends P w0 w) : Extends P w0 (mark op ok w) :=
  h.step ⟨op, ok, w.dbs⟩ hop rfl rfl

theorem extends_extcall {P : Event Tree → Prop} {w0 w : World Tree} (env : Env Tree) (op : Op)
    (hop : ∀ ok, P ⟨op, ok, w.dbs⟩) (h : Extends P w0 w) :
    Extends P w0 (extcall env op w).2 :=
  extends_perform env op _ _ hop h

theorem extends_unlink {P : Event Tree → Prop} {w0 w : World Tree} (env : Env Tree)
    (path : String) (hP : ∀ e : Event Tree, e.op.kind = .term → P e) (h : Extends P w0 w) :
    Extends P w0 (unlink env path w).2 := by
  unfold unlink
  split
  · exact h.step ⟨.unlink path, false, w.dbs⟩ (hP _ rfl) rfl rfl
  · split
    · exact h.step ⟨.unlink path, true, w.dbs⟩ (hP _ rfl) rfl rfl
    · exact h.step ⟨.unlink path, false, w.dbs⟩ (hP _ rfl) rfl rfl

/-! ### The datastore calls add entries of kind `store` -/

section store
variable {P : Event Tree → Prop} {w0 w : World Tree} (env : Env Tree)
  (hP : ∀ e : Event Tree, e.op.kind = .store → P e)
include hP

theorem extends_xmldb_copy (src dst : String) (h : Extends P w0 w) :
    Extends P w0 (xmldb_copy env src dst w).2 :=
  extends_perform env _ _ _ (fun _ => hP _ rfl) h

theorem extends_xmldb_create (db : String) (h : Extends P w0 w) :
    Extends P w0 (xmldb_create env db w).2 :=
  extends_perform env _ _ _ (fun _ => hP _ rfl) h

theorem extends_xmldb_delete (db : String) (h : Extends P w0 w) :
    Extends P w0 (xmldb_delete env db w).2 :=
  extends_perform env _ _ _ (fun _ => hP _ rfl) h

theorem extends_xmldb_get (db : String) (h : Extends P w0 w) :
    Extends P w0 (xmldb_get env db w).2.2 :=
  extends_perform env _ _ _ (fun _ => hP _ rfl) h

theorem extends_xmldb_put (db : String) (op : operation_type) (xt : Tree)
    (h : Extends P w0 w) : Extends P w0 (xmldb_put env db op xt w).2 :=
  extends_perform env _ _ _ (fun _ => hP _ rfl) h

theorem extends_candidate_commit (src : String) (h : Extends P w0 w) :
    Extends P w0 (candidate_commit env src w).2 :=
  extends_perform env _ _ _ (fun _ => hP _ rfl) h

theorem extends_backend_plugin_initiate (h : Extends P w0 w) :
    Extends P w0 (backend_plugin_initiate env w).2 :=
  extends_perform env _ _ _ (fun _ => hP _ rfl) h

theorem extends_clixon_plugin_reset (db : String) (h : Extends P w0 w) :
    Extends P w0 (clixon_plugin_reset env db w).2 :=
  extends_perform env _ _ _ (fun _ => hP _ rfl) h

theorem extends_xmldb_create_if_absent (db : String) (h : Extends P w0 w) :
    Extends P w0 (xmldb_create_if_absent env db w).2 := by
  unfold xmldb_create_if_absent
  split
  · exact extends_xmldb_create env hP db h
  · exact h

theorem extends_db_reset (db : String) (h : Extends P w0 w) :
    Extends P w0 (db_reset env db w).2 := by
  unfold db_reset
  dsimp only
  split_ifs <;>
    apply_rules [extends_xmldb_create, extends_xmldb_delete]

end store

section store_modes
variable {P : Event Tree → Prop} {w0 w : World Tree} (env : Env Tree)
  (hP : ∀ e : Event Tree, e.op.kind = .store → P e)
include hP

theorem extends_db_merge (db1 db2 : String) (h : Extends P w0 w) :
    Extends P w0 (db_merge env db1 db2 w).2 := by
  unfold db_merge
  dsimp only
  split_ifs
  · exact extends_xmldb_get env hP db1 h
  · split
    · exact extends_xmldb_get env hP db1 h
    · split_ifs <;>
        exact extends_xmldb_put env hP _ _ _ (extends_xmldb_get env hP db1 h)

theorem extends_load_extraxml (filename : Option String) (db : String) (h : Extends P w0 w) :
    Extends P w0 (load_extraxml env filename db w).2 := by
  cases filename with
  | none => exact h
  | some f =>
    have ho : Extends P w0 (perform env (.open_file f) ENOENT
        (fun d => (env.xmlfile f).map (fun _ => d)) w).2 :=
      extends_perform env _ _ _ (fun _ => hP _ rfl) h
    have hp := extends_extcall env (.xml_parse_file f) (fun _ => hP _ rfl) ho
    have hr := extends_extcall env .xml_rootchild (fun _ => hP _ rfl) hp
    unfold load_extraxml
    dsimp only
    split_ifs
    · exact ho
    · exact hp
    · exact hr
    · split
      · exact hr
      · split_ifs <;> exact extends_xmldb_put env hP _ _ _ hr

theorem extends_startup_mode_none (h : Extends P w0 w) :
    Extends P w0 (startup_mode_none env w).2 := by
  unfold startup_mode_none
  dsimp only
  split_ifs <;>
    apply_rules [extends_xmldb_copy, extends_backend_plugin_initiate]

theorem extends_startup_mode_init (h : Extends P w0 w) :
    Extends P w0 (startup_mode_init env w).2 := by
  unfold startup_mode_init
  dsimp only
  split_ifs <;>
    apply_rules [extends_xmldb_copy, extends_backend_plugin_initiate, extends_db_reset]

theorem extends_startup_mode_running_done (fuel : Nat) (rv rv1 : Int) (w1 : World Tree)
    (h : Extends P w0 w) (hr : startup_mode_running_done env fuel rv w = some (rv1, w1)) :
    Extends P w0 w1 := by
  induction fuel generalizing w with
  | zero => simp [startup_mode_running_done] at hr
  | succ n ih =>
    unfold startup_mode_running_done at hr
    dsimp only at hr
    have hd := extends_xmldb_delete env hP "tmp" h
    split at hr
    · exact ih hd hr
    · simp only [Option.some.injEq, Prod.mk.injEq] at hr
      rw [← hr.2]
      exact hd

theorem extends_startup_mode_startup_done (fuel : Nat) (rv rv1 : Int) (w1 : World Tree)
    (h : Extends P w0 w) (hr : startup_mode_startup_done env fuel rv w = some (rv1, w1)) :
    Extends P w0 w1 := by
  induction fuel generalizing w with
  | zero => simp [startup_mode_startup_done] at hr
  | succ n ih =>
    unfold startup_mode_startup_done at hr
    dsimp only at hr
    have hb := extends_xmldb_delete env hP "backup" h
    have hd := extends_xmldb_delete env hP "tmp" hb
    split at hr
    · exact ih hb hr
    · split at hr
      · exact ih hd hr
      · simp only [Option.some.injEq, Prod.mk.injEq] at hr
        rw [← hr.2]
        exact hd

theorem extends_startup_mode_running (extraxml_file : Option String) (fuel : Nat) (rv : Int)
    (w1 : World Tree) (h : Extends P w0 w)
    (hr : startup_mode_running env extraxml_file fuel w = some (rv, w1)) :
    Extends P w0 w1 := by
  unfold startup_mode_running at hr
  dsimp only at hr
  have hc := extends_xmldb_copy env hP "running" "candidate" h
  generalize xmldb_copy env "running" "candidate" w = c at hr hc
  have hp := extends_backend_plugin_initiate env hP hc
  generalize backend_plugin_initiate env c.2 = p at hr hp
  have ht := extends_db_reset env hP "tmp" hp
  generalize db_reset env "tmp" p.2 = t at hr ht
  have ha := extends_clixon_plugin_reset env hP "tmp" ht
  generalize clixon_plugin_reset env "tmp" t.2 = a at hr ha
  have hx := extends_load_extraxml env hP extraxml_file "tmp" ha
  generalize load_extraxml env extraxml_file "tmp" a.2 = x at hr hx
  have hrr := extends_db_reset env hP "running" hx
  generalize db_reset env "running" x.2 = rr at hr hrr
  have hk := extends_candidate_commit env hP "candidate" hrr
  generalize candidate_commit env "candidate" rr.2 = k at hr hk
  have hb := extends_xmldb_copy env hP "candidate" "running" hk
  generalize xmldb_copy env "candidate" "running" k.2 = b at hr hb
  have hm := extends_db_merge env hP "tmp" "running" hk
  generalize db_merge env "tmp" "running" k.2 = m at hr hm
  split at hr
  · exact extends_startup_mode_running_done env hP _ _ _ _ hc hr
  split at hr
  · exact extends_startup_mode_running_done env hP _ _ _ _ hp hr
  split at hr
  · exact extends_startup_mode_running_done env hP _ _ _ _ ht hr
  split at hr
  · exact extends_startup_mode_running_done env hP _ _ _ _ ha hr
  split at hr
  · exact extends_startup_mode_running_done env hP _ _ _ _ hx hr
  split at hr
  · exact extends_startup_mode_running_done env hP _ _ _ _ hrr hr
  split at hr
  · exact extends_startup_mode_running_done env hP _ _ _ _ hb hr
  split at hr
  · exact extends_startup_mode_running_done env hP _ _ _ _ hm hr
  · exact extends_startup_mode_running_done env hP _ _ _ _ hm hr

theorem extends_startup_mode_startup (extraxml_file : Option String) (fuel : Nat) (rv : Int)
    (w1 : World Tree) (h : Extends P w0 w)
    (hr : startup_mode_startup env extraxml_file fuel w = some (rv, w1)) :
    Extends P w0 w1 := by
  unfold startup_mode_startup at hr
  dsimp only at hr
  have hc := extends_xmldb_copy env hP "running" "backup" h
  generalize xmldb_copy env "running" "backup" w = c at hr hc
  have hs := extends_xmldb_create_if_absent env hP "startup" hc
  generalize xmldb_create_if_absent env "startup" c.2 = s at hr hs
  have hp := extends_backend_plugin_initiate env hP hs
  generalize backend_plugin_initiate env s.2 = p at hr hp
  have ht := extends_db_reset env hP "tmp" hp
  generalize db_reset env "tmp" p.2 = t at hr ht
  have ha := extends_clixon_plugin_reset env hP "tmp" ht
  generalize clixon_plugin_reset env "tmp" t.2 = a at hr ha
  have hx := extends_load_extraxml env hP extraxml_file "tmp" ha
  generalize load_extraxml env extraxml_file "tmp" a.2 = x at hr hx
  have hrr := extends_db_reset env hP "running" hx
  generalize db_reset env "running" x.2 = rr at hr hrr
  have hk := extends_candidate_commit env hP "startup" hrr
  generalize candidate_commit env "startup" rr.2 = k at hr hk
  have hb := extends_xmldb_copy env hP "backup" "running" hk
  generalize xmldb_copy env "backup" "running" k.2 = b at hr hb
  have hm := extends_db_merge env hP "tmp" "running" hk
  generalize db_merge env "tmp" "running" k.2 = m at hr hm
  split at hr
  · exact extends_startup_mode_startup_done env hP _ _ _ _ hc hr
  split at hr
  · simp only [Option.some.injEq, Prod.mk.injEq] at hr
    rw [← hr.2]
    exact hs
  split at hr
  · exact extends_startup_mode_startup_done env hP _ _ _ _ hp hr
  split at hr
  · exact extends_startup_mode_startup_done env hP _ _ _ _ ht hr
  split at hr
  · exact extends_startup_mode_startup_done env hP _ _ _ _ ha hr
  split at hr
  · exact extends_startup_mode_startup_done env hP _ _ _ _ hx hr
  split at hr
  · exact extends_startup_mode_startup_done env hP _ _ _ _ hrr hr
  split at hr
  · exact extends_startup_mode_startup_done env hP _ _ _ _ hb hr
  split at hr
  · exact extends_startup_mode_startup_done env hP _ _ _ _ hm hr
  · exact extends_startup_mode_startup_done env hP _ _ _ _ hm hr

end store_modes

/-! ### The calls of `main` -/

/-- A world that differs from another one in neither trace nor options extends the same
worlds. -/
theorem Extends.eof_eq {P : Event Tree → Prop} {w0 w w1 : World Tree} (h : Extends P w0 w)
    (ho : w1.options = w.options) (hl : w1.log = w.log) : Extends P w0 w1 := by
  obtain ⟨h1, l, hl1, hp⟩ := h
  exact ⟨ho.trans h1, l, by rw [hl, hl1], hp⟩

section term
variable {P : Event Tree → Prop} {w0 w : World Tree} (env : Env Tree)
  (hT : ∀ e : Event Tree, e.op.kind = .term → P e)
include hT

theorem extends_backend_terminate (h : Extends P w0 w) :
    Extends P w0 (backend_terminate env w) := by
  unfold backend_terminate
  dsimp only
  have h1 : Extends P w0 (record .clixon_plugin_exit w) := extends_record _ (hT _ rfl) h
  generalize record .clixon_plugin_exit w = w1 at h1 ⊢
  have h2 : Extends P w0 (match clicon_option_str w1 "CLICON_BACKEND_PIDFILE" with
      | some pidfile => (unlink env pidfile w1).2
      | none => w1) := by
    split
    · exact extends_unlink env _ hT h1
    · exact h1
  generalize (match clicon_option_str w1 "CLICON_BACKEND_PIDFILE" with
      | some pidfile => (unlink env pidfile w1).2
      | none => w1) = w2 at h2 ⊢
  split
  · exact extends_unlink env _ hT h2
  · exact h2

theorem extends_main_done (rv : Int) (h : Extends P w0 w) :
    Extends P w0 (main_done env rv w).2 :=
  extends_backend_terminate env hT h

end term

theorem extends_usage {P : Event Tree → Prop} {w0 w : World Tree}
    (hS : ∀ e : Event Tree, e.op.kind = .setup → P e)
    (hT : ∀ e : Event Tree, e.op.kind = .term → P e) (h : Extends P w0 w) :
    Extends P w0 (usage w).2 :=
  extends_record _ (hT _ rfl) (extends_record _ (hS _ rfl) h)

theorem extends_plugin_start_useroptions {P : Event Tree → Prop} {w0 w : World Tree}
    (env : Env Tree) (argv0 : String) (optind : Nat)
    (hst : ∀ a ok, P ⟨.clixon_plugin_start a, ok, w.dbs⟩) (h : Extends P w0 w) :
    Extends P w0 (plugin_start_useroptions env argv0 optind w).2 := by
  unfold plugin_start_useroptions
  dsimp only
  have h1 : Extends P w0 ({ w with argv := w.argv.set (optind - 1) argv0 } : World Tree) :=
    h.eof_eq rfl rfl
  have h2 : Extends P w0 (clixon_plugin_start env
      (List.drop (optind - 1) (w.argv.set (optind - 1) argv0))
      ({ w with argv := w.argv.set (optind - 1) argv0 } : World Tree)).2 :=
    extends_perform env _ _ _ (fun ok => hst _ ok) h1
  split_ifs
  · exact h2
  · exact h2.eof_eq rfl rfl

section serve
variable {P : Event Tree → Prop} {w0 w : World Tree} (env : Env Tree)
  (hS : ∀ e : Event Tree, e.op.kind = .serve → P e)
  (hT : ∀ e : Event Tree, e.op.kind = .term → P e)
include hS

theorem extends_pidfile_write (pidfile : String) (h : Extends P w0 w) :
    Extends P w0 (pidfile_write env pidfile w).2 := by
  unfold pidfile_write
  dsimp only
  have h1 := extends_extcall env (.pidfile_write pidfile) (fun _ => hS _ rfl) h
  split_ifs
  · exact h1
  · exact h1.eof_eq rfl rfl

theorem extends_server_socket (h : Extends P w0 w) :
    Extends P w0 (server_socket env w).2 := by
  unfold server_socket
  dsimp only
  have h1 := extends_extcall env .backend_socket_init (fun _ => hS _ rfl) h
  generalize extcall env .backend_socket_init w = s at h1 ⊢
  have h2 : Extends P w0 ({ s.2 with fs := fun p =>
      if p = (clicon_option_str s.2 "CLICON_SOCK").getD "" then true else s.2.fs p } :
      World Tree) := h1.eof_eq rfl rfl
  have h3 := extends_extcall env .event_reg_fd (fun _ => hS _ rfl) h2
  split_ifs
  · exact h1
  · exact extends_record _ (hS _ rfl) h3
  · exact h3

include hT

theorem extends_main_serve (l : main_locals) (pidfile : String) (h : Extends P w0 w) :
    Extends P w0 (main_serve env l pidfile w).2 := by
  unfold main_serve
  dsimp only
  have hd : Extends P w0 (if l.foreground = false then extcall env .daemon w else (0, w)).2 := by
    split
    · exact extends_extcall env _ (fun _ => hS _ rfl) h
    · exact h
  generalize (if l.foreground = false then extcall env .daemon w else (0, w)) = d at hd ⊢
  have hpw := extends_pidfile_write env hS pidfile hd
  generalize pidfile_write env pidfile d.2 = pw at hpw ⊢
  have hcb := extends_extcall env .clicon_log_register_callback (fun _ => hS _ rfl) hpw
  generalize extcall env .clicon_log_register_callback pw.2 = cb at hcb ⊢
  have hs1 := extends_extcall env (.set_signal SIGTERM) (fun _ => hS _ rfl) hcb
  generalize extcall env (.set_signal SIGTERM) cb.2 = s1 at hs1 ⊢
  have hs2 := extends_extcall env (.set_signal SIGINT) (fun _ => hS _ rfl) hs1
  generalize extcall env (.set_signal SIGINT) s1.2 = s2 at hs2 ⊢
  have hss := extends_server_socket env hS hs2
  generalize server_socket env s2.2 = ss at hss ⊢
  have hel := extends_extcall env .event_loop (fun _ => hS _ rfl) hss
  generalize extcall env .event_loop ss.2 = el at hel ⊢
  split_ifs
  · exact extends_record _ (hT _ rfl) hd
  · exact extends_main_done env hT _ hpw
  · exact extends_main_done env hT _ hcb
  · exact extends_main_done env hT _ hs1
  · exact extends_main_done env hT _ hs2
  · exact extends_main_done env hT _ hss
  · exact extends_main_done env hT _ hel
  · exact extends_main_done env hT _ hel

end serve

/-! ### The trace of `main` from the startup mode on -/

/-- The startup mode called by `main` adds entries of kind `store` only and keeps the
options. -/
theorem extends_startup_mode_switch {P : Event Tree → Prop} {w0 w : World Tree}
    (env : Env Tree) (hP : ∀ e : Event Tree, e.op.kind = .store → P e)
    (extraxml_file : Option String) (fuel : Nat) (m : startup_mode_t) (res : Int × World Tree)
    (h : Extends P w0 w)
    (hr : (match m with
      | .SM_NONE => some (startup_mode_none env w)
      | .SM_INIT => some (startup_mode_init env w)
      | .SM_RUNNING => startup_mode_running env extraxml_file fuel w
      | .SM_STARTUP => startup_mode_startup env extraxml_file fuel w) = some res) :
    Extends P w0 res.2 := by
  cases m with
  | SM_NONE =>
    simp only [Option.some.injEq] at hr
    rw [← hr]
    exact extends_startup_mode_none env hP h
  | SM_INIT =>
    simp only [Option.some.injEq] at hr
    rw [← hr]
    exact extends_startup_mode_init env hP h
  | SM_RUNNING => exact extends_startup_mode_running env hP _ _ res.1 res.2 h hr
  | SM_STARTUP => exact extends_startup_mode_startup env hP _ _ res.1 res.2 h hr

/-- What `main` does after the return of the startup mode, from the world `w` in which the
return has been marked: the entries it adds are those of `PostEvent`, and after a failed
mode (`failed`) they terminate only and the return value is -1. -/
theorem main_after_reconcile (env : Env Tree) (l : main_locals) (argv0 : String)
    (optind : Nat) (pidfile : String) (failed : Prop) [Decidable failed] (w : World Tree) :
    let res :=
      if failed then main_done env (-1) w else
      let c := xmldb_copy env "running" "candidate" w
      if c.1 < 0 then main_done env (-1) c.2 else
      let ps := plugin_start_useroptions env argv0 optind c.2
      if ps.1 < 0 then main_done env (-1) ps.2 else
      if l.once then main_done env (-1) ps.2 else
      main_serve env l pidfile ps.2
    Extends (fun e => PostEvent e ∧ (failed → e.op.kind = .term)) w res.2 ∧
      (failed → res.1 = -1) := by
  dsimp only
  by_cases hf : failed
  · rw [if_pos hf]
    refine ⟨?_, fun _ => rfl⟩
    apply extends_main_done env _ _ (Extends.erefl _ _)
    intro e he
    exact ⟨⟨Or.inr (Or.inr (Or.inr he)), by rw [he]; intro h; cases h⟩, fun _ => he⟩
  · rw [if_neg hf]
    refine ⟨?_, fun h => absurd h hf⟩
    have hstore : ∀ e : Event Tree, e.op.kind = .store →
        PostEvent e ∧ (failed → e.op.kind = .term) := by
      intro e he
      exact ⟨⟨Or.inl he, by rw [he]; intro h; cases h⟩, fun h => absurd h hf⟩
    have hserve : ∀ e : Event Tree, e.op.kind = .serve →
        PostEvent e ∧ (failed → e.op.kind = .term) := by
      intro e he
      exact ⟨⟨Or.inr (Or.inr (Or.inl he)), by rw [he]; intro h; cases h⟩,
        fun h => absurd h hf⟩
    have hterm : ∀ e : Event Tree, e.op.kind = .term →
        PostEvent e ∧ (failed → e.op.kind = .term) := by
      intro e he
      exact ⟨⟨Or.inr (Or.inr (Or.inr he)), by rw [he]; intro h; cases h⟩, fun _ => he⟩
    have hc := extends_xmldb_copy env hstore "running" "candidate" (Extends.erefl _ w)
    by_cases hcf : (xmldb_copy env "running" "candidate" w).1 < 0
    · rw [if_pos hcf]
      exact extends_main_done env hterm _ hc
    · rw [if_neg hcf]
      obtain ⟨⟨t, ht, hd⟩, _⟩ := xmldb_copy_ok _ _ _ _ hcf
      generalize xmldb_copy env "running" "candidate" w = c at hc hd ⊢
      have hps := extends_plugin_start_useroptions env argv0 optind (w := c.2)
        (P := fun e => PostEvent e ∧ (failed → e.op.kind = .term))
        (by
          intro a ok
          refine ⟨⟨Or.inr (Or.inl rfl), fun _ => ?_⟩, fun h => absurd h hf⟩
          simp [hd, Dbs.set, ht]) hc
      generalize plugin_start_useroptions env argv0 optind c.2 = ps at hps ⊢
      split_ifs
      · exact extends_main_done env hterm _ hps
      · exact extends_main_done env hterm _ hps
      · exact extends_main_serve env hserve hterm _ _ hps

/-- The same, read on the result of `main_startup`. -/
theorem main_after_reconcile_some (env : Env Tree) (l : main_locals) (argv0 : String)
    (optind : Nat) (pidfile : String) (failed : Prop) [Decidable failed] (w : World Tree)
    (rv : Int) (w1 : World Tree)
    (h : (if failed then some (main_done env (-1) w) else
      let c := xmldb_copy env "running" "candidate" w
      if c.1 < 0 then some (main_done env (-1) c.2) else
      let ps := plugin_start_useroptions env argv0 optind c.2
      if ps.1 < 0 then some (main_done env (-1) ps.2) else
      if l.once then some (main_done env (-1) ps.2) else
      some (main_serve env l pidfile ps.2)) = some (rv, w1)) :
    Extends (fun e => PostEvent e ∧ (failed → e.op.kind = .term)) w w1 ∧
      (failed → rv = -1) := by
  have key := main_after_reconcile env l argv0 optind pidfile failed w
  dsimp only at key h
  split_ifs at h key <;>
    (simp only [Option.some.injEq] at h
     rw [h] at key
     exact key)

/-- The trace of `main_startup`: either the create of `running` failed and nothing but
datastore calls were made, or one startup mode was called, once. The options are kept. -/
theorem main_startup_shape (env : Env Tree) (l : main_locals) (argv0 : String)
    (optind : Nat) (pidfile : String) (m : startup_mode_t) (fuel : Nat) (w : World Tree)
    (rv : Int) (w1 : World Tree)
    (h : main_startup env l argv0 optind pidfile m fuel w = some (rv, w1)) :
    w1.options = w.options ∧
    (Adds (fun e => e.op.kind = .store) w w1 ∨
     ∃ post ok d2 mid d1 pre,
      w1.log = post ++ ⟨.reconcile_return m, ok, d2⟩ ::
        (mid ++ ⟨.reconcile m, true, d1⟩ :: (pre ++ w.log)) ∧
      (∀ e ∈ pre, e.op.kind = .store) ∧ (∀ e ∈ mid, e.op.kind = .store) ∧
      (∀ e ∈ post, PostEvent e) ∧
      (ok = false → rv = -1 ∧ ∀ e ∈ post, e.op.kind = .term)) := by
  unfold main_startup at h
  dsimp only at h
  have hr := extends_xmldb_create_if_absent env (P := fun e => e.op.kind = .store)
    (fun e he => he) "running" (Extends.erefl _ w)
  generalize xmldb_create_if_absent env "running" w = r at h hr
  split at h
  · simp only [Option.some.injEq, Prod.mk.injEq] at h
    rw [← h.2]
    exact ⟨hr.1, Or.inl hr.2⟩
  · split at h
    · cases h
    · rename_i mres hm
      have hmid := extends_startup_mode_switch env (P := fun e => e.op.kind = .store)
        (fun e he => he) _ _ m mres (Extends.erefl _ (record (.reconcile m) r.2)) hm
      obtain ⟨hpost, hfail⟩ := main_after_reconcile_some env l argv0 optind pidfile
        (mres.1 < 0) (mark (.reconcile_return m) (decide (0 ≤ mres.1)) mres.2) rv w1 h
      obtain ⟨ho3, post, hl3, hp3⟩ := hpost
      obtain ⟨ho2, mid, hl2, hp2⟩ := hmid
      obtain ⟨ho1, pre, hl1, hp1⟩ := hr
      refine ⟨?_, Or.inr ⟨post, decide (0 ≤ mres.1), mres.2.dbs, mid, r.2.dbs, pre,
        ?_, hp1, hp2, fun e he => (hp3 e he).1, ?_⟩⟩
      · rw [ho3]
        show mres.2.options = w.options
        rw [ho2]
        exact ho1
      · rw [hl3]
        show post ++ ⟨.reconcile_return m, decide (0 ≤ mres.1), mres.2.dbs⟩ :: mres.2.log = _
        rw [hl2]
        show post ++ ⟨.reconcile_return m, decide (0 ≤ mres.1), mres.2.dbs⟩ ::
          (mid ++ ⟨.reconcile m, true, r.2.dbs⟩ :: r.2.log) = _
        rw [hl1]
      · intro hok
        have hlt : mres.1 < 0 := by
          have := of_decide_eq_false hok
          omega
        exact ⟨hfail hlt, fun e he => (hp3 e he).2 hlt⟩

/-! ### The trace of `main` before the startup mode -/

theorem preEvent_of_setup (e : Event Tree) (h : e.op.kind = .setup) : PreEvent e :=
  Or.inl h

theorem preEvent_of_term (e : Event Tree) (h : e.op.kind = .term) : PreEvent e :=
  Or.inr (Or.inl h)

theorem preEvent_of_store (e : Event Tree) (h : e.op.kind = .store) : PreEvent e :=
  Or.inr (Or.inr h)

theorem Adds.of_eq {P : Event Tree → Prop} {w0 w w1 : World Tree} (h : Adds P w0 w)
    (hl : w1.log = w.log) : Adds P w0 w1 := by
  obtain ⟨l, hl1, hp⟩ := h
  exact ⟨l, by rw [hl, hl1], hp⟩

/-- From a world reached by entries of `PreEvent`, `main_startup` gives a trace of the
shape of `main`. -/
theorem main_startup_main_shape (env : Env Tree) (l : main_locals) (argv0 : String)
    (optind : Nat) (pidfile : String) (m : startup_mode_t) (fuel : Nat) (w0 w : World Tree)
    (rv : Int) (w1 : World Tree) (hw : Adds PreEvent w0 w)
    (hm : clicon_startup_mode w = some m)
    (h : main_startup env l argv0 optind pidfile m fuel w = some (rv, w1)) :
    MainShape w0 rv w1 := by
  obtain ⟨ho, hs⟩ := main_startup_shape env l argv0 optind pidfile m fuel w rv w1 h
  rcases hs with hs | ⟨post, ok, d2, mid, d1, pre, hl, hpre, hmid, hpost, hok⟩
  · exact Or.inl (hw.trans (hs.mono preEvent_of_store))
  · obtain ⟨l0, hl0, hp0⟩ := hw
    refine Or.inr ⟨m, ?_, post, ok, d2, mid, d1, pre ++ l0, ?_, ?_, hmid, hpost, hok⟩
    · unfold clicon_startup_mode at hm ⊢
      rw [ho]
      exact hm
    · rw [hl, hl0, List.append_assoc]
    · intro e he
      rcases List.mem_append.mp he with he | he
      · exact preEvent_of_store e (hpre e he)
      · exact hp0 e he

theorem main_setup_shape (env : Env Tree) (l : main_locals) (argv0 : String)
    (optind : Nat) (pidfile : String) (fuel : Nat) (w0 w : World Tree)
    (rv : Int) (w1 : World Tree) (hw : Adds PreEvent w0 w)
    (h : main_setup env l argv0 optind pidfile fuel w = some (rv, w1)) :
    MainShape w0 rv w1 := by
  have hS : ∀ (v : World Tree) (op : Op), op.kind = .setup →
      ∀ ok, PreEvent (⟨op, ok, v.dbs⟩ : Event Tree) := fun _ _ hk _ => Or.inl hk
  have fin : ∀ v : World Tree, Extends PreEvent w v → MainShape w0 rv (main_done env (-1) v).2 :=
    fun v hv => Or.inl (hw.trans (extends_main_done env preEvent_of_term _ hv).adds)
  have fin1 : ∀ {x : Int × World Tree}, some x = some (rv, w1) →
      MainShape w0 rv x.2 → MainShape w0 rv w1 := by
    intro x hx hs
    simp only [Option.some.injEq] at hx
    rw [hx] at hs
    exact hs
  unfold main_setup at h
  split at h
  · simp only [Option.some.injEq, Prod.mk.injEq] at h
    rw [← h.2]
    exact Or.inl hw
  rename_i config_group _
  lift_lets at h
  extract_lets g n c at h
  have hg : Extends PreEvent w g.2 :=
    extends_extcall env (.group_name2gid config_group) (hS _ _ rfl) (Extends.erefl _ w)
  have hn : Extends PreEvent w n.2 :=
    extends_extcall env (.stream_register "NETCONF") (hS _ _ rfl) hg
  have hc : Extends PreEvent w c.2 :=
    extends_extcall env (.stream_register "CLICON") (hS _ _ rfl) hn
  by_cases hlt_g : g.1 < 0
  · rw [if_pos hlt_g] at h
    exact fin1 h (Or.inl (hw.trans hg.adds))
  rw [if_neg hlt_g] at h
  by_cases hlt_n : n.1 < 0
  · rw [if_pos hlt_n] at h
    exact fin1 h (fin _ hn)
  rw [if_neg hlt_n] at h
  by_cases hlt_c : c.1 < 0
  · rw [if_pos hlt_c] at h
    exact fin1 h (fin _ hc)
  rw [if_neg hlt_c] at h
  split at h
  · exact fin1 h (fin _ hc)
  rename_i xmldb_plugin _
  lift_lets at h
  extract_lets pl cn ys ya o1 o2 o3 o4 o5 at h
  have hpl : Extends PreEvent w pl.2 :=
    extends_extcall env (.xmldb_plugin_load xmldb_plugin) (hS _ _ rfl) hc
  have hcn : Extends PreEvent w cn.2 := extends_extcall env .xmldb_connect (hS _ _ rfl) hpl
  have hys : Extends PreEvent w ys.2 := extends_extcall env .yang_spec_main (hS _ _ rfl) hcn
  have hya : Extends PreEvent w ya.2 :=
    extends_extcall env (.yang_spec_append "ietf-restconf-monitoring") (hS _ _ rfl) hys
  have ho1 : Extends PreEvent w o1.2 :=
    extends_extcall env (.xmldb_setopt "dbdir") (hS _ _ rfl) hya
  have ho2 : Extends PreEvent w o2.2 :=
    extends_extcall env (.xmldb_setopt "yangspec") (hS _ _ rfl) ho1
  have ho3 : Extends PreEvent w o3.2 := by
    show Extends PreEvent w (if clicon_option_bool o2.2 "CLICON_XMLDB_CACHE" ≥ 0
      then extcall env (.xmldb_setopt "xml_cache") o2.2 else (0, o2.2)).2
    split
    · exact extends_extcall env _ (hS _ _ rfl) ho2
    · exact ho2
  have ho4 : Extends PreEvent w o4.2 :=
    extends_extcall env (.xmldb_setopt "format") (hS _ _ rfl) ho3
  have ho5 : Extends PreEvent w o5.2 := by
    show Extends PreEvent w (if clicon_option_bool o4.2 "CLICON_XMLDB_PRETTY" ≥ 0
      then extcall env (.xmldb_setopt "pretty") o4.2 else (0, o4.2)).2
    split
    · exact extends_extcall env _ (hS _ _ rfl) ho4
    · exact ho4
  by_cases hlt_pl : pl.1 < 0
  · rw [if_pos hlt_pl] at h
    exact fin1 h (fin _ hpl)
  rw [if_neg hlt_pl] at h
  by_cases hlt_cn : cn.1 < 0
  · rw [if_pos hlt_cn] at h
    exact fin1 h (fin _ hcn)
  rw [if_neg hlt_cn] at h
  by_cases hlt_ys : ys.1 < 0
  · rw [if_pos hlt_ys] at h
    exact fin1 h (fin _ hys)
  rw [if_neg hlt_ys] at h
  by_cases hlt_ya : ya.1 < 0
  · rw [if_pos hlt_ya] at h
    exact fin1 h (fin _ hya)
  rw [if_neg hlt_ya] at h
  by_cases hlt_o1 : o1.1 < 0
  · rw [if_pos hlt_o1] at h
    exact fin1 h (fin _ ho1)
  rw [if_neg hlt_o1] at h
  by_cases hlt_o2 : o2.1 < 0
  · rw [if_pos hlt_o2] at h
    exact fin1 h (fin _ ho2)
  rw [if_neg hlt_o2] at h
  by_cases hlt_o3 : o3.1 < 0
  · rw [if_pos hlt_o3] at h
    exact fin1 h (fin _ ho3)
  rw [if_neg hlt_o3] at h
  by_cases hlt_o4 : o4.1 < 0
  · rw [if_pos hlt_o4] at h
    exact fin1 h (fin _ ho4)
  rw [if_neg hlt_o4] at h
  by_cases hlt_o5 : o5.1 < 0
  · rw [if_pos hlt_o5] at h
    exact fin1 h (fin _ ho5)
  rw [if_neg hlt_o5] at h
  split at h
  · exact fin1 h (fin _ ho5)
  rename_i m hm
  exact main_startup_main_shape env l argv0 optind pidfile m fuel w0 o5.2 rv w1
    (hw.trans ho5.adds) hm h

theorem main_pidfile_shape (env : Env Tree) (l : main_locals) (argv0 : String)
    (optind : Nat) (fuel : Nat) (w0 w : World Tree)
    (rv : Int) (w1 : World Tree) (hw : Adds PreEvent w0 w)
    (h : main_pidfile env l argv0 optind fuel w = some (rv, w1)) :
    MainShape w0 rv w1 := by
  have hS : ∀ (v : World Tree) (op : Op), op.kind = .setup →
      ∀ ok, PreEvent (⟨op, ok, v.dbs⟩ : Event Tree) := fun _ _ hk _ => Or.inl hk
  have fin1 : ∀ {x : Int × World Tree}, some x = some (rv, w1) →
      MainShape w0 rv x.2 → MainShape w0 rv w1 := by
    intro x hx hs
    simp only [Option.some.injEq] at hx
    rw [hx] at hs
    exact hs
  unfold main_pidfile at h
  split at h
  · exact fin1 h (Or.inl (hw.trans
      (extends_main_done env preEvent_of_term _ (Extends.erefl _ w)).adds))
  rename_i pidfile _
  lift_lets at h
  extract_lets sockfamily at h
  split at h
  · exact fin1 h (Or.inl (hw.trans
      (extends_main_done env preEvent_of_term _ (Extends.erefl _ w)).adds))
  rename_i sock _
  lift_lets at h
  extract_lets pg pid z u1 u1' u2 u2' at h
  have hpg : Extends PreEvent w pg.2.2 :=
    extends_extcall env (.pidfile_get pidfile) (hS _ _ rfl) (Extends.erefl _ w)
  have hz : Extends PreEvent w z.2 := by
    show Extends PreEvent w (if pid ≠ 0 then extcall env (.pidfile_zapold pid) pg.2.2
      else (0, pg.2.2)).2
    split
    · exact extends_extcall env _ (hS _ _ rfl) hpg
    · exact hpg
  have hu : ∀ (v : World Tree) (path : String) (c : Prop) [Decidable c],
      Extends PreEvent w v → Extends PreEvent w (if c then (unlink env path v).2 else v) := by
    intro v path c _ hv
    split
    · exact extends_unlink env path preEvent_of_term hv
    · exact hv
  have hu1 : Extends PreEvent w u1 := hu _ _ _ hz
  have hu2 : Extends PreEvent w u2 := hu _ _ _ hu1
  have hu1' : Extends PreEvent w u1' := hu _ _ _ hpg
  have hu2' : Extends PreEvent w u2' := hu _ _ _ hu1'
  by_cases hlt_pg : pg.1 < 0
  · rw [if_pos hlt_pg] at h
    exact fin1 h (Or.inl (hw.trans hpg.adds))
  rw [if_neg hlt_pg] at h
  by_cases hzap : l.zap ≠ 0
  · rw [if_pos hzap] at h
    by_cases hlt_z : z.1 < 0
    · rw [if_pos hlt_z] at h
      exact fin1 h (Or.inl (hw.trans hz.adds))
    · rw [if_neg hlt_z] at h
      exact fin1 h (Or.inl (hw.trans
        (extends_record (.exit 0) (preEvent_of_term _ rfl)
          (extends_backend_terminate env preEvent_of_term hu2)).adds))
  rw [if_neg hzap] at h
  by_cases hpid : pid ≠ 0
  · rw [if_pos hpid] at h
    exact fin1 h (Or.inl (hw.trans hpg.adds))
  rw [if_neg hpid] at h
  exact main_setup_shape env l argv0 optind pidfile fuel w0 u2' rv w1
    (hw.trans hu2'.adds) h

theorem adds_usage (w0 v : World Tree) (hv : Adds PreEvent w0 v) :
    Adds PreEvent w0 (usage v).2 := by
  obtain ⟨l0, hl0, hp0⟩ := hv
  refine ⟨⟨.exit (-1), true, v.dbs⟩ :: ⟨.usage, true, v.dbs⟩ :: l0, ?_, ?_⟩
  · show _ :: _ :: v.log = _
    rw [hl0]; rfl
  · intro e he
    simp only [List.mem_cons] at he
    rcases he with he | he | he
    · rw [he]; exact preEvent_of_term _ rfl
    · rw [he]; exact preEvent_of_setup _ rfl
    · exact hp0 e he

/-- The first loop over the options adds entries of `PreEvent` only, whether it ends the
process or goes on. -/
theorem main_args1_adds (env : Env Tree) (opts : List (Char × String)) (l : main_locals)
    (w0 w : World Tree) (hw : Adds PreEvent w0 w) :
    Adds PreEvent w0 (loop_world (main_args1 env opts l w)) := by
  induction opts generalizing l w with
  | nil => exact hw
  | cons o rest ih =>
    obtain ⟨c, optarg⟩ := o
    unfold main_args1
    by_cases h1 : c = 'h'
    · rw [if_pos h1]; exact ih _ _ hw
    rw [if_neg h1]
    by_cases h2 : c = 'D'
    · rw [if_pos h2]
      split
      · exact adds_usage _ _ hw
      · exact ih _ _ hw
    rw [if_neg h2]
    by_cases h3 : c = 'f'
    · rw [if_pos h3]
      split
      · exact adds_usage _ _ hw
      · exact ih _ _ (hw.of_eq rfl)
    rw [if_neg h3]
    by_cases h4 : c = 'l'
    · rw [if_pos h4]
      dsimp only
      have hf := extends_extcall env (.clicon_log_file (optarg.drop 1))
        (fun _ => preEvent_of_setup _ rfl) (Extends.erefl PreEvent w)
      split
      · exact adds_usage _ _ hw
      · split
        · split
          · exact hw.trans (extends_main_done env preEvent_of_term _ hf).adds
          · exact ih _ _ (hw.trans hf.adds)
        · exact ih _ _ hw
    rw [if_neg h4]
    exact ih _ _ hw

/-- The second loop over the options adds entries of `PreEvent` only. -/
theorem main_args2_adds (opts : List (Char × String)) (l : main_locals)
    (w0 w : World Tree) (hw : Adds PreEvent w0 w) :
    Adds PreEvent w0 (loop_world (main_args2 opts l w)) := by
  induction opts generalizing l w with
  | nil => exact hw
  | cons o rest ih =>
    obtain ⟨c, optarg⟩ := o
    have hset : ∀ name : String, Adds PreEvent w0 (clicon_option_str_set name optarg w) :=
      fun _ => hw.of_eq rfl
    have hsetlen : ∀ name : String, Adds PreEvent w0 (loop_world
        (if optarg.length = 0 then Except.error (usage w)
         else main_args2 rest l (clicon_option_str_set name optarg w))) := by
      intro name
      split
      · exact adds_usage _ _ hw
      · exact ih _ _ (hset name)
    unfold main_args2
    by_cases h1 : c = 'h' ∨ c = 'D' ∨ c = 'f' ∨ c = 'l'
    · rw [if_pos h1]; exact ih _ _ hw
    rw [if_neg h1]
    by_cases h2 : c = 'd'
    · rw [if_pos h2]; exact hsetlen _
    rw [if_neg h2]
    by_cases h3 : c = 'b'
    · rw [if_pos h3]; exact hsetlen _
    rw [if_neg h3]
    by_cases h4 : c = 'F'
    · rw [if_pos h4]; exact ih _ _ hw
    rw [if_neg h4]
    by_cases h5 : c = 'z'
    · rw [if_pos h5]; exact ih _ _ hw
    rw [if_neg h5]
    by_cases h6 : c = 'a'
    · rw [if_pos h6]; exact ih _ _ (hset _)
    rw [if_neg h6]
    by_cases h7 : c = 'u'
    · rw [if_pos h7]; exact hsetlen _
    rw [if_neg h7]
    by_cases h8 : c = 'P'
    · rw [if_pos h8]; exact ih _ _ (hset _)
    rw [if_neg h8]
    by_cases h9 : c = '1'
    · rw [if_pos h9]; exact ih _ _ hw
    rw [if_neg h9]
    by_cases h10 : c = 's'
    · rw [if_pos h10]
      dsimp only
      split
      · exact adds_usage _ _ (hset _)
      · exact ih _ _ (hset _)
    rw [if_neg h10]
    by_cases h11 : c = 'c'
    · rw [if_pos h11]; exact ih _ _ hw
    rw [if_neg h11]
    by_cases h12 : c = 'g'
    · rw [if_pos h12]; exact ih _ _ (hset _)
    rw [if_neg h12]
    by_cases h13 : c = 'y'
    · rw [if_pos h13]; exact ih _ _ (hset _)
    rw [if_neg h13]
    by_cases h14 : c = 'x'
    · rw [if_pos h14]; exact ih _ _ (hset _)
    rw [if_neg h14]
    exact adds_usage _ _ hw

theorem adds_clicon_options_main (env : Env Tree) (w0 w : World Tree)
    (hw : Adds PreEvent w0 w) : Adds PreEvent w0 (clicon_options_main env w).2 := by
  obtain ⟨l0, hl0, hp0⟩ := hw
  have step : ∀ (v : World Tree) (ok : Bool), v.log = ⟨.clicon_options_main, ok, w.dbs⟩ :: w.log →
      Adds PreEvent w0 v := by
    intro v ok hv
    refine ⟨⟨.clicon_options_main, ok, w.dbs⟩ :: l0, by rw [hv, hl0]; rfl, ?_⟩
    intro e he
    rcases List.mem_cons.mp he with he | he
    · rw [he]; exact preEvent_of_setup _ rfl
    · exact hp0 e he
  unfold clicon_options_main
  split
  · exact step _ false rfl
  · split
    · exact step _ false rfl
    · exact step _ true rfl

/-- The trace of every run of `main` that returns. -/
theorem main_shape (env : Env Tree) (argv : List String) (fuel : Nat) (w : World Tree)
    (rv : Int) (w1 : World Tree) (h : main env argv fuel w = some (rv, w1)) :
    MainShape w rv w1 := by
  have fin1 : ∀ {x : Int × World Tree}, some x = some (rv, w1) →
      MainShape w rv x.2 → MainShape w rv w1 := by
    intro x hx hs
    simp only [Option.some.injEq] at hx
    rw [hx] at hs
    exact hs
  unfold main at h
  lift_lets at h
  extract_lets argv0 hi g hi2 wa l0 at h
  have hstart : Extends PreEvent w ({ w with argv := argv } : World Tree) :=
    (Extends.erefl PreEvent w).eof_eq rfl rfl
  have hhi : Adds PreEvent w hi.2 :=
    (extends_extcall env .backend_handle_init (fun _ => preEvent_of_setup _ rfl) hstart).adds
  have hwa : Adds PreEvent w wa := hhi.of_eq rfl
  by_cases hlt : hi.1 < 0
  · rw [if_pos hlt] at h
    exact fin1 h (Or.inl hhi)
  rw [if_neg hlt] at h
  have ha1 := main_args1_adds env g.opts l0 w wa hwa
  split at h
  · rename_i e he
    rw [he] at ha1
    exact fin1 h (Or.inl ha1)
  rename_i l1 wb hb
  rw [hb] at ha1
  have hwb : Adds PreEvent w wb := ha1
  lift_lets at h
  extract_lets cf nm at h
  have hcf : Adds PreEvent w cf.2 := adds_clicon_options_main env w wb hwb
  have hnm : Adds PreEvent w nm.2 := by
    show Adds PreEvent w (if clicon_option_str cf.2 "CLICON_NACM_MODE" = some "external"
      then extcall env .nacm_load_external cf.2 else (0, cf.2)).2
    split
    · exact hcf.trans (extends_extcall env .nacm_load_external
        (fun _ => preEvent_of_setup _ rfl) (Extends.erefl PreEvent cf.2)).adds
    · exact hcf
  by_cases hlt_cf : cf.1 < 0
  · rw [if_pos hlt_cf] at h
    split at h
    · exact fin1 h (Or.inl (adds_usage _ _ hcf))
    · exact fin1 h (Or.inl hcf)
  rw [if_neg hlt_cf] at h
  by_cases hlt_nm : nm.1 < 0
  · rw [if_pos hlt_nm] at h
    exact fin1 h (Or.inl (hnm.trans
      (extends_main_done env preEvent_of_term _ (Extends.erefl PreEvent nm.2)).adds))
  rw [if_neg hlt_nm] at h
  have ha2 := main_args2_adds g.opts l1 w nm.2 hnm
  split at h
  · rename_i e he
    rw [he] at ha2
    exact fin1 h (Or.inl ha2)
  rename_i l2 wc hc
  rw [hc] at ha2
  have hwc : Adds PreEvent w wc := ha2
  split at h
  · exact fin1 h (Or.inl (adds_usage _ _ hwc))
  · exact main_pidfile_shape env l2 argv0 _ fuel w wc rv w1 hwc h

/-! ### Reading the trace of `main` -/

theorem reconcile_count_append (a b : List (Event Tree)) :
    reconcile_count (a ++ b) = reconcile_count a + reconcile_count b := by
  simp [reconcile_count, List.filter_append]

theorem reconcile_count_eq_zero (l : List (Event Tree))
    (hl : ∀ e ∈ l, e.op.kind ≠ .ghost) : reconcile_count l = 0 := by
  unfold reconcile_count
  rw [List.length_eq_zero, List.filter_eq_nil_iff]
  intro e he
  have := hl e he
  cases hop : e.op <;> simp_all [Op.kind]

theorem reconcile_count_cons_reconcile (m : startup_mode_t) (ok : Bool) (d : Dbs Tree)
    (l : List (Event Tree)) :
    reconcile_count (⟨.reconcile m, ok, d⟩ :: l) = reconcile_count l + 1 := by
  simp [reconcile_count]

theorem reconcile_count_cons_return (m : startup_mode_t) (ok : Bool) (d : Dbs Tree)
    (l : List (Event Tree)) :
    reconcile_count (⟨.reconcile_return m, ok, d⟩ :: l) = reconcile_count l := by
  simp [reconcile_count]

theorem preEvent_not_ghost (e : Event Tree) (h : PreEvent e) : e.op.kind ≠ .ghost := by
  rcases h with h | h | h <;> rw [h] <;> decide

theorem postEvent_not_ghost (e : Event Tree) (h : PostEvent e) : e.op.kind ≠ .ghost := by
  rcases h.1 with h | h | h | h <;> rw [h] <;> decide

theorem store_not_ghost (e : Event Tree) (h : e.op.kind = .store) : e.op.kind ≠ .ghost := by
  rw [h]; decide

/-- The number of startup modes called in a trace of the reconciled shape is one. -/
theorem reconcile_count_shape (m : startup_mode_t) (ok : Bool) (d1 d2 : Dbs Tree)
    (post mid pre : List (Event Tree))
    (hpre : ∀ e ∈ pre, PreEvent e) (hmid : ∀ e ∈ mid, e.op.kind = .store)
    (hpost : ∀ e ∈ post, e.op.kind ≠ .ghost) :
    reconcile_count (post ++ ⟨.reconcile_return m, ok, d2⟩ ::
      (mid ++ ⟨.reconcile m, true, d1⟩ :: pre)) = 1 := by
  rw [reconcile_count_append, reconcile_count_cons_return, reconcile_count_append,
    reconcile_count_cons_reconcile,
    reconcile_count_eq_zero post hpost,
    reconcile_count_eq_zero mid (fun e he => store_not_ghost e (hmid e he)),
    reconcile_count_eq_zero pre (fun e he => preEvent_not_ghost e (hpre e he))]

/-- An entry of a list `a ++ b` that cannot be in `b` is in `a`, and what follows it is
the rest of `a` followed by `b`. -/
theorem split_in_front (l1 l2 a b : List (Event Tree)) (e : Event Tree)
    (h : l1 ++ e :: l2 = a ++ b) (hb : e ∉ b) : ∃ a2, l2 = a2 ++ b ∧ a = l1 ++ e :: a2 := by
  induction l1 generalizing a with
  | nil =>
    cases a with
    | nil =>
      simp only [List.nil_append] at h
      rw [← h] at hb
      exact absurd (List.mem_cons_self _ _) hb
    | cons x a2 =>
      simp only [List.nil_append, List.cons_append, List.cons.injEq] at h
      exact ⟨a2, h.2, by rw [h.1]; rfl⟩
  | cons y l1 ih =>
    cases a with
    | nil =>
      simp only [List.nil_append] at h
      rw [← h] at hb
      exact absurd (by simp) hb
    | cons x a2 =>
      simp only [List.cons_append, List.cons.injEq] at h
      obtain ⟨a3, h3, h4⟩ := ih a2 h.2
      exact ⟨a3, h3, by rw [h.1, h4]; rfl⟩

/-! ## Claims on `main` -/

/-- C4. In every run of `main` that starts with an empty trace, whatever the startup mode
(none, init, running, startup) and the initial datastore: at the moment the plugin start
hooks are called (which `main` does only after the mode has succeeded and the final copy
into `candidate` has been made), `running` and `candidate` are both materialized and
`candidate` holds what `running` holds. -/
theorem main_plugin_start_sees_candidate_equal_running (env : Env Tree) (argv : List String)
    (fuel : Nat) (w : World Tree) (rv : Int) (w1 : World Tree)
    (hlog : w.log = [])
    (h : main env argv fuel w = some (rv, w1)) :
    ∀ e ∈ w1.log, ∀ a, e.op = Op.clixon_plugin_start a →
      (e.dbs "running").isSome = true ∧ (e.dbs "candidate").isSome = true ∧
      e.dbs "candidate" = e.dbs "running" := by
  intro e he a hop
  have hk : e.op.kind = .start := by rw [hop]; rfl
  have hpre : ∀ x : Event Tree, PreEvent x → x.op.kind ≠ .start := by
    intro x hx
    rcases hx with hx | hx | hx <;> rw [hx] <;> decide
  have hgood : PostEvent e → (e.dbs "running").isSome = true ∧
      (e.dbs "candidate").isSome = true ∧ e.dbs "candidate" = e.dbs "running" := by
    intro hp
    obtain ⟨h1, h2⟩ := hp.2 hk
    exact ⟨h1, by rw [h2]; exact h1, h2⟩
  rcases main_shape env argv fuel w rv w1 h with hs | ⟨m, _, post, ok, d2, mid, d1, pre,
    hl, hp, hm, hpo, _⟩
  · obtain ⟨l0, hl0, hp0⟩ := hs
    rw [hl0, hlog, List.append_nil] at he
    exact absurd hk (hpre e (hp0 e he))
  · rw [hl, hlog, List.append_nil] at he
    simp only [List.mem_append, List.mem_cons] at he
    rcases he with he | he | he | he | he
    · exact hgood (hpo e he)
    · rw [he] at hk; cases hk
    · rw [hm e he] at hk; cases hk
    · rw [he] at hk; cases hk
    · exact absurd hk (hpre e (hp e he))

/-- C4, witness: a run in the foreground in mode `startup` on the example world; the
plugin start hooks are called, and `running` and `candidate` are equal when they are. -/
theorem main_plugin_start_sees_candidate_equal_running_witness :
    (((main exEnv ["clixon_backend", "-F", "-f", "cfg.xml", "-s", "startup"] 1
        exWorld).getD (0, exWorld)).2.log.any
      (fun e => decide (e.op = Op.clixon_plugin_start ["clixon_backend"]))) = true ∧
    ∀ e ∈ ((main exEnv ["clixon_backend", "-F", "-f", "cfg.xml", "-s", "startup"] 1
        exWorld).getD (0, exWorld)).2.log, ∀ a, e.op = Op.clixon_plugin_start a →
      (e.dbs "running").isSome = true ∧ (e.dbs "candidate").isSome = true ∧
      e.dbs "candidate" = e.dbs "running" :=
  ⟨by decide,
   main_plugin_start_sees_candidate_equal_running exEnv
    ["clixon_backend", "-F", "-f", "cfg.xml", "-s", "startup"] 1 exWorld
    ((main exEnv ["clixon_backend", "-F", "-f", "cfg.xml", "-s", "startup"] 1
        exWorld).getD (0, exWorld)).1
    ((main exEnv ["clixon_backend", "-F", "-f", "cfg.xml", "-s", "startup"] 1
        exWorld).getD (0, exWorld)).2 (by rfl) (by rfl)⟩

/-- C9, as the code has it. In every run of `main` that starts with an empty trace and
returns: at most one startup mode is called, at most once, and it is the configured one;
every call of kind `serve` (the daemon, the write of the pid file, the server socket, the
event loop) has exactly one call of a startup mode before it; and when the startup mode
returns a failure, `main` returns -1 and the trace holds no plugin start and no call of
kind `serve`. -/
theorem main_reconciles_once_before_serving (env : Env Tree) (argv : List String)
    (fuel : Nat) (w : World Tree) (rv : Int) (w1 : World Tree)
    (hlog : w.log = [])
    (h : main env argv fuel w = some (rv, w1)) :
    reconcile_count w1.log ≤ 1 ∧
    (∀ e ∈ w1.log, ∀ m, e.op = Op.reconcile m → clicon_startup_mode w1 = some m) ∧
    (∀ l1 e l2, w1.log = l1 ++ e :: l2 → e.op.kind = .serve → reconcile_count l2 = 1) ∧
    (∀ e ∈ w1.log, ∀ m, e.op = Op.reconcile_return m → e.ok = false →
      rv = -1 ∧ ∀ x ∈ w1.log, x.op.kind ≠ .start ∧ x.op.kind ≠ .serve) := by
  have hpre : ∀ x : Event Tree, PreEvent x →
      x.op.kind ≠ .start ∧ x.op.kind ≠ .serve ∧ x.op.kind ≠ .ghost := by
    intro x hx
    rcases hx with hx | hx | hx <;> rw [hx] <;> decide
  rcases main_shape env argv fuel w rv w1 h with hs | ⟨m, hmode, post, ok, d2, mid, d1, pre,
    hl, hp, hm, hpo, hok⟩
  · obtain ⟨l0, hl0, hp0⟩ := hs
    rw [hlog, List.append_nil] at hl0
    have hng : ∀ e ∈ w1.log, e.op.kind ≠ .ghost := by
      intro e he
      rw [hl0] at he
      exact (hpre e (hp0 e he)).2.2
    refine ⟨by rw [reconcile_count_eq_zero _ hng]; exact Nat.zero_le _, ?_, ?_, ?_⟩
    · intro e he m hop
      exact absurd (by rw [hop]; rfl) (hng e he)
    · intro l1 e l2 hsplit hk
      have he : e ∈ w1.log := by rw [hsplit]; simp
      rw [hl0] at he
      exact absurd hk (hpre e (hp0 e he)).2.1
    · intro e he m hop
      exact absurd (by rw [hop]; rfl) (hng e he)
  · rw [hlog, List.append_nil] at hl
    have hcount := reconcile_count_shape m ok d1 d2 post mid pre hp hm
      (fun e he => postEvent_not_ghost e (hpo e he))
    refine ⟨by rw [hl, hcount], ?_, ?_, ?_⟩
    · intro e he m1 hop
      rw [hl] at he
      simp only [List.mem_append, List.mem_cons] at he
      rcases he with he | he | he | he | he
      · exact absurd (by rw [hop]; rfl) (postEvent_not_ghost e (hpo e he))
      · rw [he] at hop; cases hop
      · have := hm e he
        rw [hop] at this; cases this
      · rw [he] at hop
        cases hop
        exact hmode
      · exact absurd (by rw [hop]; rfl) (hpre e (hp e he)).2.2
    · intro l1 e l2 hsplit hk
      rw [hl] at hsplit
      have hnb : e ∉ ⟨.reconcile_return m, ok, d2⟩ :: (mid ++ ⟨.reconcile m, true, d1⟩ :: pre) := by
        intro hmem
        simp only [List.mem_append, List.mem_cons] at hmem
        rcases hmem with he | he | he | he
        · rw [he] at hk; cases hk
        · rw [hm e he] at hk; cases hk
        · rw [he] at hk; cases hk
        · exact absurd hk (hpre e (hp e he)).2.1
      obtain ⟨a2, h2, h3⟩ := split_in_front l1 l2 post _ e hsplit.symm hnb
      rw [h2]
      exact reconcile_count_shape m ok d1 d2 a2 mid pre hp hm
        (fun x hx => postEvent_not_ghost x (hpo x (by rw [h3]; simp [hx])))
    · intro e he m1 hop hfalse
      rw [hl] at he
      simp only [List.mem_append, List.mem_cons] at he
      have hokf : ok = false := by
        rcases he with he | he | he | he | he
        · exact absurd (by rw [hop]; rfl) (postEvent_not_ghost e (hpo e he))
        · rw [he] at hfalse; exact hfalse
        · have := hm e he
          rw [hop] at this; cases this
        · rw [he] at hop; cases hop
        · exact absurd (by rw [hop]; rfl) (hpre e (hp e he)).2.2
      obtain ⟨hrv, hterm⟩ := hok hokf
      refine ⟨hrv, ?_⟩
      intro x hx
      rw [hl] at hx
      simp only [List.mem_append, List.mem_cons] at hx
      rcases hx with hx | hx | hx | hx | hx
      · rw [hterm x hx]; decide
      · rw [hx]; exact ⟨(by intro hc; cases hc), (by intro hc; cases hc)⟩
      · rw [hm x hx]; decide
      · rw [hx]; exact ⟨(by intro hc; cases hc), (by intro hc; cases hc)⟩
      · exact ⟨(hpre x (hp x hx)).1, (hpre x (hp x hx)).2.1⟩

/-- C9, witness: a run in the foreground in mode `startup` in which the commit of
`startup` fails. One startup mode is called, it returns a failure, and `main` returns -1
without plugin start, pid file or socket. -/
theorem main_reconciles_once_before_serving_witness :
    reconcile_count ((main (exEnvFail (.candidate_commit "startup") EACCES)
      ["clixon_backend", "-F", "-f", "cfg.xml", "-s", "startup"] 1 exWorld).getD
        (0, exWorld)).2.log = 1 ∧
    (((main (exEnvFail (.candidate_commit "startup") EACCES)
      ["clixon_backend", "-F", "-f", "cfg.xml", "-s", "startup"] 1 exWorld).getD
        (0, exWorld)).2.log.any
      (fun e => decide (e.op = Op.reconcile_return .SM_STARTUP) && !e.ok)) = true ∧
    ((main (exEnvFail (.candidate_commit "startup") EACCES)
      ["clixon_backend", "-F", "-f", "cfg.xml", "-s", "startup"] 1 exWorld).getD
        (0, exWorld)).1 = -1 ∧
    (∀ e ∈ ((main (exEnvFail (.candidate_commit "startup") EACCES)
      ["clixon_backend", "-F", "-f", "cfg.xml", "-s", "startup"] 1 exWorld).getD
        (0, exWorld)).2.log, ∀ m, e.op = Op.reconcile m →
      clicon_startup_mode ((main (exEnvFail (.candidate_commit "startup") EACCES)
        ["clixon_backend", "-F", "-f", "cfg.xml", "-s", "startup"] 1 exWorld).getD
          (0, exWorld)).2 = some m) :=
  ⟨by decide, by decide, by decide,
   (main_reconciles_once_before_serving (exEnvFail (.candidate_commit "startup") EACCES)
    ["clixon_backend", "-F", "-f", "cfg.xml", "-s", "startup"] 1 exWorld
    ((main (exEnvFail (.candidate_commit "startup") EACCES)
      ["clixon_backend", "-F", "-f", "cfg.xml", "-s", "startup"] 1 exWorld).getD
        (0, exWorld)).1
    ((main (exEnvFail (.candidate_commit "startup") EACCES)
      ["clixon_backend", "-F", "-f", "cfg.xml", "-s", "startup"] 1 exWorld).getD
        (0, exWorld)).2 (by rfl) (by rfl)).2.1⟩

/-- C9, counterexample to the claim as stated. A run of `main` with `-z` (kill the other
daemon and exit) returns 0 and has called no startup mode at all. -/
theorem main_zap_calls_no_startup_mode :
    (main exEnv ["clixon_backend", "-z", "-f", "cfg.xml"] 1 exWorld).map
      (fun r => (r.1, reconcile_count r.2.log)) = some (0, 0) := by
  decide

/-- C10, failing input. Run once (`-1`) in mode `none` on the example world, where every
call succeeds (the two unlinks of `backend_terminate` find no pid file and no socket to
remove): the startup mode is run, the candidate is copied, the plugins are started, there
is no daemon, no pid file, no socket, and `main` returns -1, not 0. -/
theorem main_once_returns_minus_one :
    (main exEnv ["clixon_backend", "-1", "-f", "cfg.xml", "-s", "none"] 1 exWorld).map
      (fun r => (r.1, r.2.log.reverse.map (fun e => (e.op, e.ok))))
    = some (-1,
       [(.backend_handle_init, true),
        (.clicon_options_main, true),
        (.pidfile_get "/pid", true),
        (.group_name2gid "clicon", true),
        (.stream_register "NETCONF", true),
        (.stream_register "CLICON", true),
        (.xmldb_plugin_load "text", true),
        (.xmldb_connect, true),
        (.yang_spec_main, true),
        (.yang_spec_append "ietf-restconf-monitoring", true),
        (.xmldb_setopt "dbdir", true),
        (.xmldb_setopt "yangspec", true),
        (.xmldb_setopt "xml_cache", true),
        (.xmldb_setopt "format", true),
        (.xmldb_setopt "pretty", true),
        (.reconcile .SM_NONE, true),
        (.xmldb_copy "running" "candidate", true),
        (.backend_plugin_initiate, true),
        (.reconcile_return .SM_NONE, true),
        (.xmldb_copy "running" "candidate", true),
        (.clixon_plugin_start ["clixon_backend"], true),
        (.clixon_plugin_exit, true),
        (.unlink "/pid", false),
        (.unlink "/sock", false)]) := by
  decide

/-- Whenever mode `running` returns, with 0 or with -1 and whatever failed on the way,
`tmp` does not exist: every path of the function leaves through its `done` label. -/
theorem startup_mode_running_returns_without_tmp (env : Env Tree)
    (extraxml_file : Option String) (fuel : Nat) (w : World Tree) (rv : Int) (w1 : World Tree)
    (h : startup_mode_running env extraxml_file fuel w = some (rv, w1)) :
    w1.dbs "tmp" = none := by
  have key : ∀ (r : Int) (v : World Tree),
      startup_mode_running_done env fuel r v = some (rv, w1) → w1.dbs "tmp" = none := by
    intro r v hv
    rw [(startup_mode_running_done_spec _ _ _ _ _ _ hv).2.1]
    exact Dbs.set_same _ _ _
  unfold startup_mode_running at h
  lift_lets at h
  extract_lets c p t a x r k b m at h
  split_ifs at h <;> exact key _ _ h

/-! ## The monitoring view -/

theorem string_join_acc (l : List String) (acc : String) :
    l.foldl (fun r s => r ++ s) acc = acc ++ String.join l := by
  induction l generalizing acc with
  | nil => simp [String.join]
  | cons a l ih =>
    simp only [List.foldl_cons, String.join]
    rw [ih, ih ("" ++ a)]
    simp [String.append_assoc]

theorem string_join_cons (a : String) (l : List String) :
    String.join (a :: l) = a ++ String.join l := by
  show List.foldl (fun r s => r ++ s) ("" ++ a) l = a ++ String.join l
  rw [string_join_acc]
  simp

/-- The entry that `per_datastore` appends when it succeeds is the one of the
specification for the lock that the store reports; the lock is reported in it exactly when
the store has a holder. -/
theorem per_datastore_ok (h : mon_handle) (cb db : String)
    (hok : ¬ (per_datastore h cb db).1 < 0) :
    (per_datastore h cb db).2 = cb ++ spec_datastore_entry db (spec_lock h db) ∧
    ((spec_lock h db).isSome = true ↔ h.xmldb_islocked db > 0) := by
  unfold per_datastore at hok ⊢
  unfold spec_lock
  by_cases hs : h.xmldb_islocked db > 0
  · simp only [hs, if_true] at hok ⊢
    cases ht : h.time2str (h.xmldb_lock_timestamp db) with
    | none => simp [ht] at hok
    | some t =>
      refine ⟨?_, by simp⟩
      apply String.ext
      simp [spec_datastore_entry, String.data_append, List.append_assoc]
  · refine ⟨?_, by simp [hs]⟩
    simp only [hs, if_false]
    apply String.ext
    simp [spec_datastore_entry, String.data_append, List.append_assoc]

/-- C16. When `netconf_monitoring_datastores` succeeds, what it has appended to the
buffer is `<datastores>`, the entry of `running`, the entry of `candidate`, the entry of
`startup` if and only if the feature `startup` of `ietf-netconf` is enabled, and
`</datastores>`; each entry is the one of the specification, with a `<locks>` child if and
only if the store reports a holder of the lock, and without one it is exactly
`<datastore><name>db</name></datastore>`. -/
theorem netconf_monitoring_datastores_entries (h : mon_handle) (yspec : yang_spec)
    (cb : String) (hok : (netconf_monitoring_datastores h yspec cb).1 = 0) :
    (netconf_monitoring_datastores h yspec cb).2
      = cb ++ "<datastores>"
        ++ spec_datastore_entry "running" (spec_lock h "running")
        ++ spec_datastore_entry "candidate" (spec_lock h "candidate")
        ++ (if yspec.if_feature "ietf-netconf" "startup"
            then spec_datastore_entry "startup" (spec_lock h "startup") else "")
        ++ "</datastores>" ∧
    (∀ db, db = "running" ∨ db = "candidate" ∨
        (db = "startup" ∧ yspec.if_feature "ietf-netconf" "startup" = true) →
      ((spec_lock h db).isSome = true ↔ h.xmldb_islocked db > 0)) ∧
    (∀ db, spec_datastore_entry db none = "<datastore><name>" ++ db ++ "</name></datastore>") := by
  unfold netconf_monitoring_datastores at hok ⊢
  dsimp only at hok ⊢
  split at hok
  · simp at hok
  rename_i hr
  rw [if_neg hr]
  obtain ⟨hr1, hr2⟩ := per_datastore_ok h _ _ hr
  split at hok
  · simp at hok
  rename_i hc
  rw [if_neg hc]
  obtain ⟨hc1, hc2⟩ := per_datastore_ok h _ _ hc
  by_cases hf : yspec.if_feature "ietf-netconf" "startup" = true
  · rw [if_pos hf] at hok ⊢
    split at hok
    · simp at hok
    rename_i hs
    rw [if_neg hs]
    obtain ⟨hs1, hs2⟩ := per_datastore_ok h _ _ hs
    refine ⟨?_, ?_, fun db => rfl⟩
    · simp only [hf, if_true]
      rw [hs1, hc1, hr1]
    · rintro db (rfl | rfl | ⟨rfl, _⟩)
      · exact hr2
      · exact hc2
      · exact hs2
  · rw [if_neg hf] at hok ⊢
    refine ⟨?_, ?_, fun db => rfl⟩
    · simp only [hf]
      rw [hc1, hr1]
      simp
    · rintro db (rfl | rfl | ⟨rfl, hf1⟩)
      · exact hr2
      · exact hc2
      · exact absurd hf1 hf

set_option maxRecDepth 4000 in
/-- C16, witness: `candidate` locked by session 42, the feature `startup` enabled: three
entries in the order running, candidate, startup, and only `candidate` has `<locks>`. -/
theorem netconf_monitoring_datastores_entries_witness :
    (netconf_monitoring_datastores
      { options := fun _ => none,
        xmldb_islocked := fun db => if db = "candidate" then 42 else 0,
        xmldb_lock_timestamp := fun _ => ⟨1546398245, 0⟩,
        time2str := fun _ => some "2019-01-02T03:04:05Z" }
      { modules := [], if_feature := fun m f => m = "ietf-netconf" ∧ f = "startup" } "").2
    = "<datastores><datastore><name>running</name></datastore>" ++
      "<datastore><name>candidate</name><locks><locked-by-session>42" ++
      "</locked-by-session><locked-time>2019-01-02T03:04:05Z</locked-time></locks>" ++
      "</datastore><datastore><name>startup</name></datastore></datastores>" := by
  have h := (netconf_monitoring_datastores_entries
      { options := fun _ => none,
        xmldb_islocked := fun db => if db = "candidate" then 42 else 0,
        xmldb_lock_timestamp := fun _ => ⟨1546398245, 0⟩,
        time2str := fun _ => some "2019-01-02T03:04:05Z" }
      { modules := [], if_feature := fun m f => m = "ietf-netconf" ∧ f = "startup" } ""
      (by decide)).1
  rw [h]
  decide

/-- What the loop over the modules appends: the entries of the specification, in the
order of the modules. -/
theorem netconf_monitoring_schemas_loop_eq (h : mon_handle) (ms : List yang_module)
    (cb : String) :
    netconf_monitoring_schemas_loop h ms cb
      = cb ++ String.join (ms.map
          (spec_schema_entry (h.options "CLICON_NETCONF_MONITORING_LOCATION"))) := by
  induction ms generalizing cb with
  | nil => simp [netconf_monitoring_schemas_loop, String.join]
  | cons ym rest ih =>
    unfold netconf_monitoring_schemas_loop
    rw [ih, List.map_cons, string_join_cons, ← String.append_assoc]
    congr 1
    unfold netconf_monitoring_schema spec_schema_entry spec_schema_locations
    cases hd : h.options "CLICON_NETCONF_MONITORING_LOCATION" <;>
      cases hrev : ym.revision <;>
      (apply String.ext
       simp [String.data_append, List.append_assoc, String.join])

/-- C17. `netconf_monitoring_schemas` returns 0 and appends `<schemas>`, one `<schema>`
entry for every loaded module in the order of the modules, and `</schemas>`. An entry
holds the identifier, the revision (if present) in `<version>`, the format `yang`, the
namespace, and then the locations: first the literal `NETCONF`, and a second one if and
only if the option of the monitoring directory is set, `<dir>/<module>@<revision>.yang`
for a module with a revision and `<dir>/<module>.yang` for one without. -/
theorem netconf_monitoring_schemas_entries (h : mon_handle) (yspec : yang_spec)
    (cb : String) :
    netconf_monitoring_schemas h yspec cb
      = (0, cb ++ "<schemas>"
          ++ String.join (yspec.modules.map
              (spec_schema_entry (h.options "CLICON_NETCONF_MONITORING_LOCATION")))
          ++ "</schemas>") ∧
    (yspec.modules.map
      (spec_schema_entry (h.options "CLICON_NETCONF_MONITORING_LOCATION"))).length
      = yspec.modules.length ∧
    (∀ ym, spec_schema_locations none ym = ["NETCONF"]) ∧
    (∀ dir ym rev, ym.revision = some rev →
      spec_schema_locations (some dir) ym
        = ["NETCONF", dir ++ "/" ++ ym.identifier ++ "@" ++ rev ++ ".yang"]) ∧
    (∀ dir ym, ym.revision = none →
      spec_schema_locations (some dir) ym
        = ["NETCONF", dir ++ "/" ++ ym.identifier ++ ".yang"]) := by
  refine ⟨?_, by simp, fun ym => rfl, ?_, ?_⟩
  · unfold netconf_monitoring_schemas
    dsimp only
    rw [netconf_monitoring_schemas_loop_eq]
  · intro dir ym rev hrev
    simp [spec_schema_locations, hrev]
  · intro dir ym hrev
    simp [spec_schema_locations, hrev]

theorem digitChar_ne_lt (k : Nat) (hk : k < 10) : Nat.digitChar k ≠ '<' := by
  interval_cases k <;> decide

theorem toDigitsCore_no_lt (f n : Nat) (ds : List Char) (hds : '<' ∉ ds) :
    '<' ∉ Nat.toDigitsCore 10 f n ds := by
  induction f generalizing n ds with
  | zero => simpa [Nat.toDigitsCore] using hds
  | succ f ih =>
    have hcons : '<' ∉ Nat.digitChar (n % 10) :: ds := by
      intro hmem
      rcases List.mem_cons.mp hmem with hc | hc
      · exact digitChar_ne_lt _ (Nat.mod_lt _ (by decide)) hc.symm
      · exact hds hc
    unfold Nat.toDigitsCore
    dsimp only
    split
    · exact hcons
    · exact ih _ _ hcons

/-- The unsigned decimal text of a number holds no `<`. -/
theorem toString_nat_no_lt (n : Nat) : '<' ∉ (toString n).data := by
  show '<' ∉ (Nat.toDigits 10 n).asString.data
  exact toDigitsCore_no_lt _ _ _ (by simp)

/-- No pattern that begins with `<` starts inside a text without `<`. -/
theorem count_occurrences_skip (p x y : List Char) (hx : '<' ∉ x) :
    count_occurrences ('<' :: p) (x ++ y) = count_occurrences ('<' :: p) y := by
  induction x with
  | nil => rfl
  | cons c x ih =>
    have hc : c ≠ '<' := fun hc => hx (by simp [hc])
    have hx1 : '<' ∉ x := fun hm => hx (by simp [hm])
    have hne : ('<' == c) = false := by
      simp only [beq_eq_false_iff_ne, ne_eq]
      exact fun h1 => hc h1.symm
    simp only [List.cons_append, count_occurrences, List.isPrefixOf, hne, Bool.false_and,
      Bool.false_eq_true, if_false, Nat.zero_add]
    exact ih hx1

/-- C15. Scenario S6 for every database name `db`, session id `A > 0` and lock time `T`:
when the store reports `db` locked by `A` (`xmldb_islocked`) and the time of the lock
formats as `T` (`time2str`), `per_datastore` returns 0 and appends exactly
`<datastore><name>db</name><locks><locked-by-session>A</locked-by-session>
<locked-time>T</locked-time></locks></datastore>` (in one line), with `A` in unsigned
decimal; and when neither `db` nor `T` holds a `<`, `<locks>` starts at exactly one place
of that text. -/
theorem per_datastore_locked_text (h : mon_handle) (cb db T : String)
    (hA : h.xmldb_islocked db > 0)
    (hT : h.time2str (h.xmldb_lock_timestamp db) = some T) :
    per_datastore h cb db
      = (0, cb ++ ("<datastore><name>" ++ db ++ "</name><locks><locked-by-session>"
          ++ toString (h.xmldb_islocked db) ++ "</locked-by-session><locked-time>" ++ T
          ++ "</locked-time></locks></datastore>")) ∧
    ('<' ∉ db.data → '<' ∉ T.data →
      count_occurrences "<locks>".data
        ("<datastore><name>" ++ db ++ "</name><locks><locked-by-session>"
          ++ toString (h.xmldb_islocked db) ++ "</locked-by-session><locked-time>" ++ T
          ++ "</locked-time></locks></datastore>").data = 1) := by
  constructor
  · unfold per_datastore
    simp only [hA, if_true, hT]
    congr 1
    apply String.ext
    simp [String.data_append, List.append_assoc]
  · intro hdb hTT
    have hn := toString_nat_no_lt (h.xmldb_islocked db)
    generalize toString (h.xmldb_islocked db) = A at hn
    have e : ("<datastore><name>" ++ db ++ "</name><locks><locked-by-session>"
          ++ A ++ "</locked-by-session><locked-time>" ++ T
          ++ "</locked-time></locks></datastore>").data
        = "<datastore><name>".data ++ (db.data ++ ("</name><locks><locked-by-session>".data
          ++ (A.data ++ ("</locked-by-session><locked-time>".data ++ (T.data
          ++ "</locked-time></locks></datastore>".data))))) := by
      simp only [String.data_append, List.append_assoc]
    rw [e]
    have hp : "<locks>".data = '<' :: ['l', 'o', 'c', 'k', 's', '>'] := rfl
    rw [hp]
    have h1 : ∀ y : List Char, count_occurrences ('<' :: ['l', 'o', 'c', 'k', 's', '>'])
        ("<datastore><name>".data ++ y)
        = count_occurrences ('<' :: ['l', 'o', 'c', 'k', 's', '>']) y := by
      intro y
      simp [count_occurrences, List.isPrefixOf]
    have h2 : ∀ y : List Char, count_occurrences ('<' :: ['l', 'o', 'c', 'k', 's', '>'])
        ("</name><locks><locked-by-session>".data ++ y)
        = 1 + count_occurrences ('<' :: ['l', 'o', 'c', 'k', 's', '>']) y := by
      intro y
      simp [count_occurrences, List.isPrefixOf]
    have h3 : ∀ y : List Char, count_occurrences ('<' :: ['l', 'o', 'c', 'k', 's', '>'])
        ("</locked-by-session><locked-time>".data ++ y)
        = count_occurrences ('<' :: ['l', 'o', 'c', 'k', 's', '>']) y := by
      intro y
      simp [count_occurrences, List.isPrefixOf]
    have h4 : count_occurrences ('<' :: ['l', 'o', 'c', 'k', 's', '>'])
        "</locked-time></locks></datastore>".data = 0 := by
      simp [count_occurrences, List.isPrefixOf]
    rw [h1, count_occurrences_skip _ _ _ hdb, h2, count_occurrences_skip _ _ _ hn, h3,
      count_occurrences_skip _ _ _ hTT, h4]

/-- C15, witness: `candidate` locked by session 42 at a time that formats as
`2019-01-02T03:04:05Z`. -/
theorem per_datastore_locked_text_witness :
    per_datastore
      { options := fun _ => none,
        xmldb_islocked := fun db => if db = "candidate" then 42 else 0,
        xmldb_lock_timestamp := fun _ => ⟨1546398245, 0⟩,
        time2str := fun _ => some "2019-01-02T03:04:05Z" } "" "candidate"
    = (0, "<datastore><name>candidate</name><locks><locked-by-session>42" ++
          "</locked-by-session><locked-time>2019-01-02T03:04:05Z</locked-time></locks>" ++
          "</datastore>") := by
  have h := (per_datastore_locked_text
      { options := fun _ => none,
        xmldb_islocked := fun db => if db = "candidate" then 42 else 0,
        xmldb_lock_timestamp := fun _ => ⟨1546398245, 0⟩,
        time2str := fun _ => some "2019-01-02T03:04:05Z" } "" "candidate"
      "2019-01-02T03:04:05Z" (by decide) rfl).1
  rw [h]
  decide

/-! ## The signal handler -/

theorem backend_sig_term_all_cons (a : Int) (sigs : List Int) (s : sig_state Tree) :
    backend_sig_term_all (a :: sigs) s = backend_sig_term_all sigs (backend_sig_term a s) :=
  rfl

/-- Whatever the counter is, the handler leaves the world alone and sets the flag. -/
theorem backend_sig_term_all_frame (sigs : List Int) (s : sig_state Tree) :
    (backend_sig_term_all sigs s).world = s.world ∧
    (sigs ≠ [] → (backend_sig_term_all sigs s).exit_requested = true) ∧
    (s.exit_requested = true → (backend_sig_term_all sigs s).exit_requested = true) := by
  induction sigs generalizing s with
  | nil => exact ⟨rfl, fun h => absurd rfl h, fun h => h⟩
  | cons a sigs ih =>
    rw [backend_sig_term_all_cons]
    obtain ⟨h1, _, h3⟩ := ih (backend_sig_term a s)
    have hw : (backend_sig_term a s).world = s.world := by
      unfold backend_sig_term clicon_exit_set
      dsimp only
      split <;> rfl
    have hf : (backend_sig_term a s).exit_requested = true := rfl
    exact ⟨h1.trans hw, fun _ => h3 hf, fun _ => h3 hf⟩

/-- With the counter at `k`, not 0, and fewer than 2^32 calls to go before it wraps
around, no notice is written. -/
theorem backend_sig_term_all_quiet (sigs : List Int) (s : sig_state Tree) (k : Nat)
    (hk : s.i = k) (hk0 : 0 < k) (hlen : k + sigs.length ≤ 4294967296) :
    (backend_sig_term_all sigs s).notices = s.notices := by
  induction sigs generalizing s k with
  | nil => rfl
  | cons a sigs ih =>
    rw [backend_sig_term_all_cons]
    simp only [List.length_cons] at hlen
    have hne : ¬ s.i = 0 := by omega
    have hn : (backend_sig_term a s).notices = s.notices := by
      unfold backend_sig_term clicon_exit_set
      dsimp only
      rw [if_neg hne]
    by_cases hempty : sigs = []
    · rw [hempty]
      exact hn
    · have hpos : 0 < sigs.length := List.length_pos.mpr hempty
      have hi : (backend_sig_term a s).i = k + 1 := by
        unfold backend_sig_term clicon_exit_set
        dsimp only
        rw [if_neg hne, hk]
        exact Nat.mod_eq_of_lt (by omega)
      rw [ih (backend_sig_term a s) (k + 1) hi (by omega) (by omega), hn]

/-- C18, as the code has it. From the start of the process (counter at 0), for every
sequence of at most 2^32 signals: the handler touches nothing of the world of the process
(databases, pid file, socket, options, plugins), the exit-requested flag is set as soon as
one signal has come, and besides that the handler writes one notice to the log, for the
first signal, and none for the others. -/
theorem backend_sig_term_sets_flag_and_logs_once (sigs : List Int) (s : sig_state Tree)
    (h0 : s.i = 0) (hlen : sigs.length ≤ 4294967296) :
    (backend_sig_term_all sigs s).world = s.world ∧
    (sigs ≠ [] → (backend_sig_term_all sigs s).exit_requested = true) ∧
    (backend_sig_term_all sigs s).notices = s.notices ++ sigs.take 1 := by
  refine ⟨(backend_sig_term_all_frame sigs s).1, (backend_sig_term_all_frame sigs s).2.1, ?_⟩
  cases sigs with
  | nil => simp [backend_sig_term_all]
  | cons a sigs =>
    rw [backend_sig_term_all_cons]
    simp only [List.length_cons] at hlen
    have hn : (backend_sig_term a s).notices = s.notices ++ [a] := by
      unfold backend_sig_term clicon_exit_set
      dsimp only
      rw [if_pos h0]
    have hi : (backend_sig_term a s).i = 1 := by
      unfold backend_sig_term clicon_exit_set
      dsimp only
      rw [if_pos h0, h0]
    rw [backend_sig_term_all_quiet sigs (backend_sig_term a s) 1 hi (by decide) (by omega), hn]
    simp

/-- C18, witness: SIGTERM, then SIGINT, then SIGTERM from the start of the example
process: the flag is set and the log holds one notice, for the first SIGTERM. -/
theorem backend_sig_term_sets_flag_and_logs_once_witness :
    (backend_sig_term_all [15, 2, 15] exSigState).world = exSigState.world ∧
    (([15, 2, 15] : List Int) ≠ [] →
      (backend_sig_term_all [15, 2, 15] exSigState).exit_requested = true) ∧
    (backend_sig_term_all [15, 2, 15] exSigState).notices
      = exSigState.notices ++ List.take 1 [15, 2, 15] :=
  backend_sig_term_sets_flag_and_logs_once [15, 2, 15] exSigState rfl (by decide)

/-- C18, counterexample to the claim as stated. One SIGTERM from the start of the example
process: besides setting the flag, the handler has written a notice to the log and has
moved its counter. -/
theorem backend_sig_term_writes_a_notice :
    (backend_sig_term 15 exSigState).exit_requested = true ∧
    (backend_sig_term 15 exSigState).notices = [15] ∧
    exSigState.notices = [] ∧
    (backend_sig_term 15 exSigState).i = 1 ∧ exSigState.i = 0 := by
  decide

/-! ## The plugin start hook -/

/-- When `plugin_start_useroptions` succeeds, with `optind` at least 1 and inside the
argument vector: the hooks have got the program name followed by the arguments from
`optind` on, and the argument vector is as it was. -/
theorem plugin_start_useroptions_ok (env : Env Tree) (argv0 : String) (optind : Nat)
    (w : World Tree) (h1 : 1 ≤ optind) (h2 : optind ≤ w.argv.length)
    (hok : ¬ (plugin_start_useroptions env argv0 optind w).1 < 0) :
    (plugin_start_useroptions env argv0 optind w).2.argv = w.argv ∧
    (plugin_start_useroptions env argv0 optind w).2.log
      = ⟨.clixon_plugin_start (argv0 :: w.argv.drop optind), true, w.dbs⟩ :: w.log := by
  have hdrop : List.drop (optind - 1) (w.argv.set (optind - 1) argv0)
      = argv0 :: w.argv.drop optind := by
    have hlt : optind - 1 < (w.argv.set (optind - 1) argv0).length := by
      rw [List.length_set]; omega
    rw [List.drop_eq_getElem_cons hlt, List.getElem_set_self, List.drop_set]
    have : optind - 1 + 1 = optind := by omega
    rw [this, if_pos (by omega)]
  unfold plugin_start_useroptions at hok ⊢
  dsimp only at hok ⊢
  split at hok
  · simp at hok
  rename_i hp
  rw [if_neg hp]
  have hp1 : ¬ (perform env
      (.clixon_plugin_start (List.drop (optind - 1) (w.argv.set (optind - 1) argv0))) EACCES
      (fun d => some d) ({ w with argv := w.argv.set (optind - 1) argv0 } : World Tree)).1 < 0 :=
    hp
  obtain ⟨_, hlog⟩ := perform_ok_world _ _ _ _ _ hp1
  have hargv : (clixon_plugin_start env
      (List.drop (optind - 1) (w.argv.set (optind - 1) argv0))
      ({ w with argv := w.argv.set (optind - 1) argv0 } : World Tree)).2.argv
      = w.argv.set (optind - 1) argv0 := by
    unfold clixon_plugin_start perform
    split
    · rfl
    · rfl
  constructor
  · show ((clixon_plugin_start env _ _).2.argv).set (optind - 1) (w.argv.getD (optind - 1) "")
      = w.argv
    rw [hargv, List.set_set]
    apply List.ext_getElem
    · simp
    · intro n hn1 hn2
      by_cases hn : n = optind - 1
      · subst hn
        simp [List.getD_eq_getElem?_getD, List.getElem?_eq_getElem hn2]
      · rw [List.getElem_set_ne (fun hc => hn hc.symm)]
  · show (clixon_plugin_start env _ _).2.log = _
    rw [← hdrop]
    exact hlog

/-- C19, failing input. The command line `clixon_backend -f cfg.xml a -s none b` with the
plugin start hooks failing: the hooks are called with the program name followed by the
residual arguments `a`, `b`, `main` returns -1, and the argument vector is left with the
program name in the place of `none` (the argument before the residual ones): it is not
put back on the failure path. -/
theorem plugin_start_failure_leaves_argv_changed :
    (main (exEnvFail (.clixon_plugin_start ["clixon_backend", "a", "b"]) EACCES)
      ["clixon_backend", "-f", "cfg.xml", "a", "-s", "none", "b"] 1 exWorld).map
      (fun r => (r.1, r.2.argv,
        (r.2.log.filter (fun e => decide (e.op.kind = .start))).map (fun e => (e.op, e.ok))))
    = some (-1, ["clixon_backend", "-f", "cfg.xml", "-s", "clixon_backend", "a", "b"],
        [(.clixon_plugin_start ["clixon_backend", "a", "b"], false)]) ∧
    (main exEnv ["clixon_backend", "-f", "cfg.xml", "a", "-s", "none", "b"] 1 exWorld).map
      (fun r => (r.1, r.2.argv,
        (r.2.log.filter (fun e => decide (e.op.kind = .start))).map (fun e => (e.op, e.ok))))
    = some (0, ["clixon_backend", "-f", "cfg.xml", "-s", "none", "a", "b"],
        [(.clixon_plugin_start ["clixon_backend", "a", "b"], true)]) := by
  decide

/-! ## Failures before the wipe of `running` -/

theorem perform_dbs_cases (env : Env Tree) (op : Op) (e0 : Nat)
    (eff : Dbs Tree → Option (Dbs Tree)) (w : World Tree) :
    (perform env op e0 eff w).2.dbs = w.dbs ∨
      eff w.dbs = some (perform env op e0 eff w).2.dbs := by
  by_cases h : (perform env op e0 eff w).1 < 0
  · exact Or.inl (perform_fail_world _ _ _ _ _ h).1
  · exact Or.inr (perform_ok_world _ _ _ _ _ h).1

theorem xmldb_copy_other (env : Env Tree) (src dst : String) (w : World Tree) (m : String)
    (hm : m ≠ dst) : (xmldb_copy env src dst w).2.dbs m = w.dbs m := by
  by_cases hc : (xmldb_copy env src dst w).1 < 0
  · unfold xmldb_copy at hc ⊢
    rw [(perform_fail_world _ _ _ _ _ hc).1]
  · obtain ⟨⟨t, _, hd⟩, _⟩ := xmldb_copy_ok _ _ _ _ hc
    rw [hd, Dbs.set_other _ _ _ _ hm]

theorem xmldb_create_other (env : Env Tree) (db : String) (w : World Tree) (m : String)
    (hm : m ≠ db) : (xmldb_create env db w).2.dbs m = w.dbs m := by
  by_cases hp : (xmldb_create env db w).1 < 0
  · unfold xmldb_create at hp ⊢
    rw [(perform_fail_world _ _ _ _ _ hp).1]
  · rw [(xmldb_create_ok _ _ _ hp).2.1, Dbs.set_other _ _ _ _ hm]

theorem xmldb_create_if_absent_other (env : Env Tree) (db : String) (w : World Tree)
    (m : String) (hm : m ≠ db) : (xmldb_create_if_absent env db w).2.dbs m = w.dbs m := by
  unfold xmldb_create_if_absent
  split
  · exact xmldb_create_other env db w m hm
  · rfl

theorem clixon_plugin_reset_other (env : Env Tree) (db : String) (w : World Tree)
    (m : String) (hm : m ≠ db) : (clixon_plugin_reset env db w).2.dbs m = w.dbs m := by
  by_cases hp : (clixon_plugin_reset env db w).1 < 0
  · unfold clixon_plugin_reset at hp ⊢
    rw [(perform_fail_world _ _ _ _ _ hp).1]
  · obtain ⟨t, _, hd⟩ := clixon_plugin_reset_ok _ _ _ hp
    rw [hd, Dbs.set_other _ _ _ _ hm]

theorem xmldb_put_merge_other (env : Env Tree) (db : String) (xt : Tree) (w : World Tree)
    (m : String) (hm : m ≠ db) :
    (xmldb_put env db .OP_MERGE xt w).2.dbs m = w.dbs m := by
  by_cases hp : (xmldb_put env db .OP_MERGE xt w).1 < 0
  · unfold xmldb_put at hp ⊢
    rw [(perform_fail_world _ _ _ _ _ hp).1]
  · obtain ⟨⟨t, _, hd⟩, _⟩ := xmldb_put_merge_ok _ _ _ _ hp
    rw [hd, Dbs.set_other _ _ _ _ hm]

/-- Whatever the loading of the extra xml file does, it touches no other database than the
one it is given. -/
theorem load_extraxml_other (env : Env Tree) (filename : Option String) (db : String)
    (w : World Tree) (m : String) (hm : m ≠ db) :
    (load_extraxml env filename db w).2.dbs m = w.dbs m := by
  cases filename with
  | none => rfl
  | some f =>
    have ho : (perform env (.open_file f) ENOENT
        (fun d => (env.xmlfile f).map (fun _ => d)) w).2.dbs = w.dbs := by
      rcases perform_dbs_cases env (.open_file f) ENOENT
        (fun d => (env.xmlfile f).map (fun _ => d)) w with h | h
      · exact h
      · by_cases hx : env.xmlfile f = none
        · simp [hx] at h
        · obtain ⟨x, hx⟩ := Option.ne_none_iff_exists'.mp hx
          have : some w.dbs = some (perform env (.open_file f) ENOENT
              (fun d => (env.xmlfile f).map (fun _ => d)) w).2.dbs := by
            simpa [hx] using h
          exact (Option.some.inj this).symm
    unfold load_extraxml
    dsimp only
    split_ifs
    · rw [ho]
    · rw [extcall_dbs, ho]
    · rw [extcall_dbs, extcall_dbs, ho]
    · split
      · rw [extcall_dbs, extcall_dbs, ho]
      · split_ifs <;>
          rw [xmldb_put_merge_other _ _ _ _ _ hm, extcall_dbs, extcall_dbs, ho]

theorem xmldb_delete_nofault (env : Env Tree) (db : String) (w : World Tree)
    (h : ∀ n, env.fault (.xmldb_delete db) n = none) : ¬ (xmldb_delete env db w).1 < 0 := by
  unfold xmldb_delete perform
  rw [h]
  simp

/-- With a delete of `tmp` that works, the `done` label of mode `running` is left on the
first pass. -/
theorem startup_mode_running_done_returns (env : Env Tree) (fuel : Nat) (rv : Int)
    (w : World Tree) (h : ∀ n, env.fault (.xmldb_delete "tmp") n = none) :
    ∃ w1, startup_mode_running_done env (fuel + 1) rv w = some (rv, w1) := by
  unfold startup_mode_running_done
  dsimp only
  rw [if_neg (xmldb_delete_nofault env "tmp" w h)]
  exact ⟨_, rfl⟩

/-- With deletes of `backup` and `tmp` that work, the `done` label of mode `startup` is left
on the first pass. -/
theorem startup_mode_startup_done_returns (env : Env Tree) (fuel : Nat) (rv : Int)
    (w : World Tree) (hb : ∀ n, env.fault (.xmldb_delete "backup") n = none)
    (ht : ∀ n, env.fault (.xmldb_delete "tmp") n = none) :
    ∃ w1, startup_mode_startup_done env (fuel + 1) rv w = some (rv, w1) := by
  unfold startup_mode_startup_done
  dsimp only
  rw [if_neg (xmldb_delete_nofault env "backup" w hb),
    if_neg (xmldb_delete_nofault env "tmp" _ ht)]
  exact ⟨_, rfl⟩

/-- Mode `running` returns when the delete of `tmp` works. -/
theorem startup_mode_running_returns (env : Env Tree) (extraxml_file : Option String)
    (fuel : Nat) (w : World Tree) (h : ∀ n, env.fault (.xmldb_delete "tmp") n = none) :
    ∃ rv w1, startup_mode_running env extraxml_file (fuel + 1) w = some (rv, w1) := by
  have key : ∀ (r : Int) (v : World Tree),
      ∃ rv w1, startup_mode_running_done env (fuel + 1) r v = some (rv, w1) := fun r v =>
    ⟨r, startup_mode_running_done_returns env fuel r v h⟩
  unfold startup_mode_running
  lift_lets
  extract_lets c p t a x r k b m
  split_ifs <;> exact key _ _

/-- Mode `startup` returns when the deletes of `backup` and `tmp` work. -/
theorem startup_mode_startup_returns (env : Env Tree) (extraxml_file : Option String)
    (fuel : Nat) (w : World Tree) (hb : ∀ n, env.fault (.xmldb_delete "backup") n = none)
    (ht : ∀ n, env.fault (.xmldb_delete "tmp") n = none) :
    ∃ rv w1, startup_mode_startup env extraxml_file (fuel + 1) w = some (rv, w1) := by
  have key : ∀ (r : Int) (v : World Tree),
      ∃ rv w1, startup_mode_startup_done env (fuel + 1) r v = some (rv, w1) := fun r v =>
    ⟨r, startup_mode_startup_done_returns env fuel r v hb ht⟩
  unfold startup_mode_startup
  lift_lets
  extract_lets c s p t a x r k b m
  by_cases hc : c.1 < 0
  · rw [if_pos hc]; exact key _ _
  rw [if_neg hc]
  by_cases hs : s.1 < 0
  · rw [if_pos hs]; exact ⟨_, _, rfl⟩
  rw [if_neg hs]
  split_ifs <;> exact key _ _

/-- Mode `running`: when a step before the wipe of `running` fails, a run that returns
gives -1 and leaves `running` as it was. -/
theorem startup_mode_running_prewipe (env : Env Tree) (extraxml_file : Option String)
    (fuel : Nat) (w : World Tree) (rv : Int) (w1 : World Tree)
    (hfail : (xmldb_copy env "running" "candidate" w).1 < 0 ∨
      (backend_plugin_initiate env (xmldb_copy env "running" "candidate" w).2).1 ≠ 0 ∨
      (db_reset env "tmp"
        (backend_plugin_initiate env (xmldb_copy env "running" "candidate" w).2).2).1 < 0 ∨
      (clixon_plugin_reset env "tmp" (db_reset env "tmp"
        (backend_plugin_initiate env (xmldb_copy env "running" "candidate" w).2).2).2).1 < 0 ∨
      (load_extraxml env extraxml_file "tmp" (clixon_plugin_reset env "tmp" (db_reset env "tmp"
        (backend_plugin_initiate env
          (xmldb_copy env "running" "candidate" w).2).2).2).2).1 < 0)
    (h : startup_mode_running env extraxml_file fuel w = some (rv, w1)) :
    rv = -1 ∧ w1.dbs "running" = w.dbs "running" := by
  unfold startup_mode_running at h
  lift_lets at h
  extract_lets c p t a x r k b m at h
  have fc : c.2.dbs "running" = w.dbs "running" :=
    xmldb_copy_other env _ _ w _ (by decide)
  have fp : p.2.dbs "running" = w.dbs "running" :=
    (congrFun (backend_plugin_initiate_dbs env c.2) "running").trans fc
  have ft : t.2.dbs "running" = w.dbs "running" :=
    (db_reset_other env "tmp" p.2 "running" (by decide)).trans fp
  have fa : a.2.dbs "running" = w.dbs "running" :=
    (clixon_plugin_reset_other env "tmp" t.2 "running" (by decide)).trans ft
  have fx : x.2.dbs "running" = w.dbs "running" :=
    (load_extraxml_other env extraxml_file "tmp" a.2 "running" (by decide)).trans fa
  have pre : ∀ v : World Tree, v.dbs "running" = w.dbs "running" →
      startup_mode_running_done env fuel (-1) v = some (rv, w1) →
      rv = -1 ∧ w1.dbs "running" = w.dbs "running" := by
    intro v fv hv
    obtain ⟨hrv, hd, _⟩ := startup_mode_running_done_spec _ _ _ _ _ _ hv
    exact ⟨hrv, by rw [hd, Dbs.set_other _ _ _ _ (by decide), fv]⟩
  have hfail2 : c.1 < 0 ∨ p.1 ≠ 0 ∨ t.1 < 0 ∨ a.1 < 0 ∨ x.1 < 0 := hfail
  by_cases hc : c.1 < 0
  · rw [if_pos hc] at h; exact pre _ fc h
  rw [if_neg hc] at h
  by_cases hp : p.1 ≠ 0
  · rw [if_pos hp] at h; exact pre _ fp h
  rw [if_neg hp] at h
  by_cases ht : t.1 < 0
  · rw [if_pos ht] at h; exact pre _ ft h
  rw [if_neg ht] at h
  by_cases ha : a.1 < 0
  · rw [if_pos ha] at h; exact pre _ fa h
  rw [if_neg ha] at h
  by_cases hx : x.1 < 0
  · rw [if_pos hx] at h; exact pre _ fx h
  exact absurd hfail2 (by tauto)

/-- Mode `startup`: when a step before the wipe of `running` fails, a run that returns
gives -1 and leaves `running` as it was. -/
theorem startup_mode_startup_prewipe (env : Env Tree) (extraxml_file : Option String)
    (fuel : Nat) (w : World Tree) (rv : Int) (w1 : World Tree)
    (hfail : (xmldb_copy env "running" "backup" w).1 < 0 ∨
      (xmldb_create_if_absent env "startup" (xmldb_copy env "running" "backup" w).2).1 < 0 ∨
      (backend_plugin_initiate env (xmldb_create_if_absent env "startup"
        (xmldb_copy env "running" "backup" w).2).2).1 ≠ 0 ∨
      (db_reset env "tmp" (backend_plugin_initiate env (xmldb_create_if_absent env "startup"
        (xmldb_copy env "running" "backup" w).2).2).2).1 < 0 ∨
      (clixon_plugin_reset env "tmp" (db_reset env "tmp" (backend_plugin_initiate env
        (xmldb_create_if_absent env "startup"
          (xmldb_copy env "running" "backup" w).2).2).2).2).1 < 0 ∨
      (load_extraxml env extraxml_file "tmp" (clixon_plugin_reset env "tmp" (db_reset env "tmp"
        (backend_plugin_initiate env (xmldb_create_if_absent env "startup"
          (xmldb_copy env "running" "backup" w).2).2).2).2).2).1 < 0)
    (h : startup_mode_startup env extraxml_file fuel w = some (rv, w1)) :
    rv = -1 ∧ w1.dbs "running" = w.dbs "running" := by
  unfold startup_mode_startup at h
  lift_lets at h
  extract_lets c s p t a x r k b m at h
  have fc : c.2.dbs "running" = w.dbs "running" :=
    xmldb_copy_other env _ _ w _ (by decide)
  have fs : s.2.dbs "running" = w.dbs "running" :=
    (xmldb_create_if_absent_other env "startup" c.2 "running" (by decide)).trans fc
  have fp : p.2.dbs "running" = w.dbs "running" :=
    (congrFun (backend_plugin_initiate_dbs env s.2) "running").trans fs
  have ft : t.2.dbs "running" = w.dbs "running" :=
    (db_reset_other env "tmp" p.2 "running" (by decide)).trans fp
  have fa : a.2.dbs "running" = w.dbs "running" :=
    (clixon_plugin_reset_other env "tmp" t.2 "running" (by decide)).trans ft
  have fx : x.2.dbs "running" = w.dbs "running" :=
    (load_extraxml_other env extraxml_file "tmp" a.2 "running" (by decide)).trans fa
  have pre : ∀ v : World Tree, v.dbs "running" = w.dbs "running" →
      startup_mode_startup_done env fuel (-1) v = some (rv, w1) →
      rv = -1 ∧ w1.dbs "running" = w.dbs "running" := by
    intro v fv hv
    obtain ⟨hrv, hd⟩ := startup_mode_startup_done_spec _ _ _ _ _ _ hv
    exact ⟨hrv, by
      rw [hd, Dbs.set_other _ _ _ _ (by decide), Dbs.set_other _ _ _ _ (by decide), fv]⟩
  have hfail2 : c.1 < 0 ∨ s.1 < 0 ∨ p.1 ≠ 0 ∨ t.1 < 0 ∨ a.1 < 0 ∨ x.1 < 0 := hfail
  by_cases hc : c.1 < 0
  · rw [if_pos hc] at h; exact pre _ fc h
  rw [if_neg hc] at h
  by_cases hs : s.1 < 0
  · rw [if_pos hs] at h
    simp only [Option.some.injEq, Prod.mk.injEq] at h
    obtain ⟨hrv, hw⟩ := h
    subst hw
    exact ⟨hrv.symm, fs⟩
  rw [if_neg hs] at h
  by_cases hp : p.1 ≠ 0
  · rw [if_pos hp] at h; exact pre _ fp h
  rw [if_neg hp] at h
  by_cases ht : t.1 < 0
  · rw [if_pos ht] at h; exact pre _ ft h
  rw [if_neg ht] at h
  by_cases ha : a.1 < 0
  · rw [if_pos ha] at h; exact pre _ fa h
  rw [if_neg ha] at h
  by_cases hx : x.1 < 0
  · rw [if_pos hx] at h; exact pre _ fx h
  exact absurd hfail2 (by tauto)

theorem load_extraxml_cannot_open (env : Env Tree) (f db : String) (w : World Tree)
    (hx : env.xmlfile f = none) : (load_extraxml env (some f) db w).1 < 0 := by
  have ho : (perform env (.open_file f) ENOENT
      (fun d => (env.xmlfile f).map (fun _ => d)) w).1 < 0 := by
    unfold perform
    split
    · exact (by decide : (-1 : Int) < 0)
    · simp [hx]
  unfold load_extraxml
  dsimp only
  rw [if_pos ho]
  exact (by decide : (-1 : Int) < 0)

/-- C20: in the startup modes `running` and `startup`, when a step that precedes the wipe of
`running` fails (the stash copy, the creation of a missing `startup`, the plugin
initialisation, the reset of `tmp`, the plugin reset hook, or the loading of the extra XML
file), every run that returns gives -1 with `running` holding what it held before the call;
the run does return, on the first pass through `done`, when the deletes of the cleanup work;
and the loading of an extra XML file that cannot be opened is such a failure. -/
theorem startup_modes_failure_before_wipe_keeps_running (env : Env Tree)
    (extraxml_file : Option String) (fuel : Nat) (w : World Tree) :
    (let c := xmldb_copy env "running" "candidate" w
     let p := backend_plugin_initiate env c.2
     let t := db_reset env "tmp" p.2
     let a := clixon_plugin_reset env "tmp" t.2
     let x := load_extraxml env extraxml_file "tmp" a.2
     c.1 < 0 ∨ p.1 ≠ 0 ∨ t.1 < 0 ∨ a.1 < 0 ∨ x.1 < 0 →
       (∀ rv w1, startup_mode_running env extraxml_file fuel w = some (rv, w1) →
          rv = -1 ∧ w1.dbs "running" = w.dbs "running") ∧
       ((∀ n, env.fault (.xmldb_delete "tmp") n = none) →
          ∃ w1, startup_mode_running env extraxml_file (fuel + 1) w = some (-1, w1) ∧
            w1.dbs "running" = w.dbs "running")) ∧
    (let c := xmldb_copy env "running" "backup" w
     let s := xmldb_create_if_absent env "startup" c.2
     let p := backend_plugin_initiate env s.2
     let t := db_reset env "tmp" p.2
     let a := clixon_plugin_reset env "tmp" t.2
     let x := load_extraxml env extraxml_file "tmp" a.2
     c.1 < 0 ∨ s.1 < 0 ∨ p.1 ≠ 0 ∨ t.1 < 0 ∨ a.1 < 0 ∨ x.1 < 0 →
       (∀ rv w1, startup_mode_startup env extraxml_file fuel w = some (rv, w1) →
          rv = -1 ∧ w1.dbs "running" = w.dbs "running") ∧
       ((∀ n, env.fault (.xmldb_delete "backup") n = none) →
        (∀ n, env.fault (.xmldb_delete "tmp") n = none) →
          ∃ w1, startup_mode_startup env extraxml_file (fuel + 1) w = some (-1, w1) ∧
            w1.dbs "running" = w.dbs "running")) ∧
    (∀ (f db : String) (v : World Tree), env.xmlfile f = none →
      (load_extraxml env (some f) db v).1 < 0) := by
  refine ⟨?_, ?_, fun f db v hx => load_extraxml_cannot_open env f db v hx⟩
  · intro c p t a x hfail
    refine ⟨fun rv w1 h => startup_mode_running_prewipe env _ _ w rv w1 hfail h, ?_⟩
    intro hd
    obtain ⟨rv, w1, h⟩ := startup_mode_running_returns env extraxml_file fuel w hd
    obtain ⟨hrv, hrun⟩ := startup_mode_running_prewipe env _ _ w rv w1 hfail h
    subst hrv
    exact ⟨w1, h, hrun⟩
  · intro c s p t a x hfail
    refine ⟨fun rv w1 h => startup_mode_startup_prewipe env _ _ w rv w1 hfail h, ?_⟩
    intro hb hd
    obtain ⟨rv, w1, h⟩ := startup_mode_startup_returns env extraxml_file fuel w hb hd
    obtain ⟨hrv, hrun⟩ := startup_mode_startup_prewipe env _ _ w rv w1 hfail h
    subst hrv
    exact ⟨w1, h, hrun⟩

/-- Witness of C20: with `-c missing.xml`, a file that cannot be opened, and `running`
holding the leaf `old`, both modes return -1 and `running` still holds `old`. -/
theorem startup_modes_failure_before_wipe_keeps_running_witness :
    (load_extraxml exEnv (some "missing.xml") "tmp"
      (clixon_plugin_reset exEnv "tmp" (db_reset exEnv "tmp" (backend_plugin_initiate exEnv
        (xmldb_copy exEnv "running" "candidate" exWorld).2).2).2).2).1 < 0 ∧
    (∃ w1, startup_mode_running exEnv (some "missing.xml") 1 exWorld = some (-1, w1) ∧
      w1.dbs "running" = some ["old"]) ∧
    (∃ w1, startup_mode_startup exEnv (some "missing.xml") 1 exWorld = some (-1, w1) ∧
      w1.dbs "running" = some ["old"]) :=
  ⟨by decide,
   ((startup_modes_failure_before_wipe_keeps_running exEnv (some "missing.xml") 0 exWorld).1
      (by decide)).2 (fun _ => rfl),
   ((startup_modes_failure_before_wipe_keeps_running exEnv (some "missing.xml") 0 exWorld).2.1
      (by decide)).2 (fun _ => rfl) (fun _ => rfl)⟩

/-! ## The pid file -/

theorem extcall_nofault (env : Env Tree) (op : Op) (w : World Tree)
    (h : ∀ n, env.fault op n = none) : extcall env op w = (0, record op w) := by
  unfold extcall perform record
  rw [h]

theorem unlink_dbs (env : Env Tree) (p : String) (w : World Tree) :
    (unlink env p w).2.dbs = w.dbs := by
  unfold unlink
  split
  · rfl
  · split <;> rfl

theorem unlink_options (env : Env Tree) (p : String) (w : World Tree) :
    (unlink env p w).2.options = w.options := by
  unfold unlink
  split
  · rfl
  · split <;> rfl

theorem unlink_fs_other (env : Env Tree) (p : String) (w : World Tree) (q : String)
    (hq : q ≠ p) : (unlink env p w).2.fs q = w.fs q := by
  unfold unlink
  split
  · rfl
  · split
    · simp [hq]
    · rfl

theorem unlink_fs_same (env : Env Tree) (p : String) (w : World Tree)
    (h : ∀ n, env.fault (.unlink p) n = none) : (unlink env p w).2.fs p = false := by
  unfold unlink
  rw [h]
  dsimp only
  split
  · simp
  · rename_i hfs
    simpa using hfs

theorem backend_terminate_dbs (env : Env Tree) (w : World Tree) :
    (backend_terminate env w).dbs = w.dbs := by
  unfold backend_terminate
  dsimp only
  split <;> split <;> simp [unlink_dbs, record]

/-- With the pid file and the socket path set, and unlinks that work, termination leaves
neither path behind and touches no other path. -/
theorem backend_terminate_fs (env : Env Tree) (w : World Tree) (pidfile sock : String)
    (hp : clicon_option_str w "CLICON_BACKEND_PIDFILE" = some pidfile)
    (hs : clicon_option_str w "CLICON_SOCK" = some sock)
    (hf : ∀ p n, env.fault (.unlink p) n = none) (q : String) :
    (backend_terminate env w).fs q = if q = pidfile ∨ q = sock then false else w.fs q := by
  have hp1 : clicon_option_str (record .clixon_plugin_exit w) "CLICON_BACKEND_PIDFILE"
      = some pidfile := hp
  have hs1 : clicon_option_str (unlink env pidfile (record .clixon_plugin_exit w)).2
      "CLICON_SOCK" = some sock := by
    unfold clicon_option_str at hs ⊢
    rw [unlink_options]
    exact hs
  unfold backend_terminate
  simp only [hp1, hs1]
  by_cases h2 : q = sock
  · subst h2
    simp [unlink_fs_same env q _ (hf q)]
  · rw [unlink_fs_other _ _ _ _ h2]
    by_cases h1 : q = pidfile
    · subst h1
      simp [unlink_fs_same env q _ (hf q)]
    · rw [unlink_fs_other _ _ _ _ h1]
      simp [h1, h2, record]

/-- With `-z`, the pid file and the socket path set, and the calls on the pid file, the
kill and the unlinks working: the world in which the process exits. -/
theorem main_pidfile_zap_world (env : Env Tree) (l : main_locals) (argv0 : String)
    (optind fuel : Nat) (w : World Tree) (pidfile sock : String)
    (hp : clicon_option_str w "CLICON_BACKEND_PIDFILE" = some pidfile)
    (hs : clicon_option_str w "CLICON_SOCK" = some sock)
    (hz : l.zap ≠ 0)
    (hg : ∀ n, env.fault (.pidfile_get pidfile) n = none)
    (hk : ∀ pid n, env.fault (.pidfile_zapold pid) n = none) :
    ∃ u2 l2, main_pidfile env l argv0 optind fuel w
        = some (0, record (.exit 0) (backend_terminate env u2)) ∧
      u2.dbs = w.dbs ∧ u2.options = w.options ∧ (∀ q, q ≠ pidfile → q ≠ sock → u2.fs q = w.fs q) ∧
      u2.log = l2 ++ ((if w.fs pidfile = true ∧ env.oldpid ≠ 0
            then [(⟨.pidfile_zapold env.oldpid, true, w.dbs⟩ : Event Tree)] else []) ++
          ⟨.pidfile_get pidfile, true, w.dbs⟩ :: w.log) ∧
      ∀ e ∈ l2, e.op.kind = .term := by
  have hT : ∀ e : Event Tree, e.op.kind = .term → (fun e : Event Tree => e.op.kind = .term) e :=
    fun _ h => h
  unfold main_pidfile
  simp -zeta only [hp, hs]
  lift_lets
  extract_lets sockfamily pg pid z u1 u2 v1 v2
  have hpg : pg = (0, (if w.fs pidfile then env.oldpid else 0), record (.pidfile_get pidfile) w) := by
    show pidfile_get env pidfile w = _
    unfold pidfile_get
    rw [extcall_nofault env _ w hg]
  have hpid : pid = if w.fs pidfile then env.oldpid else 0 := by
    show pg.2.1 = _
    rw [hpg]
  have hz1 : z.1 = 0 := by
    show (if pid ≠ 0 then extcall env (.pidfile_zapold pid) pg.2.2 else (0, pg.2.2)).1 = 0
    split
    · rw [extcall_nofault env _ _ (hk pid)]
    · rfl
  have hz2 : z.2.dbs = w.dbs ∧ z.2.options = w.options ∧ z.2.fs = w.fs ∧
      z.2.log = (if w.fs pidfile = true ∧ env.oldpid ≠ 0
            then [(⟨.pidfile_zapold env.oldpid, true, w.dbs⟩ : Event Tree)] else []) ++
          ⟨.pidfile_get pidfile, true, w.dbs⟩ :: w.log := by
    show (if pid ≠ 0 then extcall env (.pidfile_zapold pid) pg.2.2 else (0, pg.2.2)).2.dbs = _ ∧
      (if pid ≠ 0 then extcall env (.pidfile_zapold pid) pg.2.2 else (0, pg.2.2)).2.options = _ ∧
      (if pid ≠ 0 then extcall env (.pidfile_zapold pid) pg.2.2 else (0, pg.2.2)).2.fs = _ ∧
      (if pid ≠ 0 then extcall env (.pidfile_zapold pid) pg.2.2 else (0, pg.2.2)).2.log = _
    rw [extcall_nofault env _ _ (hk pid), hpid, hpg]
    by_cases hfs : w.fs pidfile = true
    · by_cases ho : env.oldpid = 0
      · simp [hfs, ho, record]
      · simp [hfs, ho, record]
    · simp [hfs, record]
  obtain ⟨hzd, hzo, hzf, hzl⟩ := hz2
  have hu : ∀ (v : World Tree) (path : String) (c : Prop) [Decidable c],
      Extends (fun e => e.op.kind = .term) z.2 v →
      Extends (fun e => e.op.kind = .term) z.2 (if c then (unlink env path v).2 else v) := by
    intro v path c _ hv
    split
    · exact extends_unlink env path hT hv
    · exact hv
  have hud : ∀ (v : World Tree) (path : String) (c : Prop) [Decidable c],
      (if c then (unlink env path v).2 else v).dbs = v.dbs := by
    intro v path c _
    split
    · exact unlink_dbs _ _ _
    · rfl
  have huf : ∀ (v : World Tree) (path : String) (c : Prop) [Decidable c] (q : String),
      q ≠ path → (if c then (unlink env path v).2 else v).fs q = v.fs q := by
    intro v path c _ q hq
    split
    · exact unlink_fs_other _ _ _ _ hq
    · rfl
  have e1 : Extends (fun e => e.op.kind = .term) z.2 u1 := hu _ _ _ (Extends.erefl _ _)
  have e2 : Extends (fun e => e.op.kind = .term) z.2 u2 := hu _ _ _ e1
  obtain ⟨ho2, l2, hl2, hl2t⟩ := e2
  rw [if_neg (by rw [hpg]; exact (by decide : ¬ (0 : Int) < 0)), if_pos hz,
    if_neg (by rw [hz1]; exact (by decide : ¬ (0 : Int) < 0))]
  refine ⟨u2, l2, rfl, ?_, ho2.trans hzo, ?_, ?_, hl2t⟩
  · exact ((hud _ _ _).trans (hud _ _ _)).trans hzd
  · intro q hq1 hq2
    exact ((huf _ _ _ q hq2).trans (huf _ _ _ q hq1)).trans (congrFun hzf q)
  · rw [hl2, hzl]

/-! ## The loops over the options -/

/-- A `-s` argument names a startup mode exactly when it is one of the four words. -/
theorem clicon_startup_mode_set (a : String) (w : World Tree) :
    (clicon_startup_mode (clicon_option_str_set "CLICON_STARTUP_MODE" a w)).isNone = true ↔
      a ∉ ["none", "startup", "running", "init"] := by
  unfold clicon_startup_mode clicon_option_str_set
  simp only [if_true]
  split <;> simp_all

/-- One pass of the second loop over the options: it ends in `usage`, or it goes on with
the rest of the options, the handle changed in its options only, `help` kept, `zap`
counted; it goes on only for a letter of the table, and for `-s` only with one of the four
words. -/
theorem main_args2_step (c : Char) (a : String) (rest : List (Char × String))
    (l : main_locals) (w : World Tree) :
    (∃ v : World Tree, main_args2 ((c, a) :: rest) l w = .error (usage v) ∧
        v.dbs = w.dbs ∧ v.fs = w.fs ∧ v.log = w.log) ∨
    (∃ (l1 : main_locals) (w1 : World Tree),
        main_args2 ((c, a) :: rest) l w = main_args2 rest l1 w1 ∧
        l1.help = l.help ∧ l.zap ≤ l1.zap ∧ (c = 'z' → l.zap < l1.zap) ∧
        w1.dbs = w.dbs ∧ w1.fs = w.fs ∧ w1.log = w.log ∧
        c ∈ ['h', 'D', 'f', 'l', 'd', 'b', 'F', 'z', 'a', 'u', 'P', '1', 's', 'c', 'g', 'y', 'x'] ∧
        (c = 's' → a ∈ ["none", "startup", "running", "init"])) := by
  have hne : ∀ x : Char, x ≠ 'z' → x ≠ 's' → c = x →
      (c = 'z' → l.zap < l.zap) ∧ (c = 's' → a ∈ ["none", "startup", "running", "init"]) := by
    intro x hz hs hx
    subst hx
    exact ⟨fun h => absurd h hz, fun h => absurd h hs⟩
  rw [main_args2]
  by_cases h1 : c = 'h' ∨ c = 'D' ∨ c = 'f' ∨ c = 'l'
  · rw [if_pos h1]
    refine Or.inr ⟨l, w, rfl, rfl, le_refl _, ?_, rfl, rfl, rfl, ?_, ?_⟩
    · rcases h1 with h | h | h | h <;> exact (hne _ (by decide) (by decide) h).1
    · rcases h1 with h | h | h | h <;> simp [h]
    · rcases h1 with h | h | h | h <;> exact (hne _ (by decide) (by decide) h).2
  rw [if_neg h1]
  by_cases h2 : c = 'd'
  · rw [if_pos h2]
    split
    · exact Or.inl ⟨w, rfl, rfl, rfl, rfl⟩
    · exact Or.inr ⟨l, _, rfl, rfl, le_refl _, (hne _ (by decide) (by decide) h2).1, rfl, rfl,
        rfl, by simp [h2], (hne _ (by decide) (by decide) h2).2⟩
  rw [if_neg h2]
  by_cases h3 : c = 'b'
  · rw [if_pos h3]
    split
    · exact Or.inl ⟨w, rfl, rfl, rfl, rfl⟩
    · exact Or.inr ⟨l, _, rfl, rfl, le_refl _, (hne _ (by decide) (by decide) h3).1, rfl, rfl,
        rfl, by simp [h3], (hne _ (by decide) (by decide) h3).2⟩
  rw [if_neg h3]
  by_cases h4 : c = 'F'
  · rw [if_pos h4]
    exact Or.inr ⟨_, w, rfl, rfl, le_refl _, (hne _ (by decide) (by decide) h4).1, rfl, rfl,
      rfl, by simp [h4], (hne _ (by decide) (by decide) h4).2⟩
  rw [if_neg h4]
  by_cases h5 : c = 'z'
  · rw [if_pos h5]
    exact Or.inr ⟨_, w, rfl, rfl, Nat.le_succ _, fun _ => Nat.lt_succ_self _, rfl, rfl,
      rfl, by simp [h5], fun h => absurd (h5.symm.trans h) (by decide)⟩
  rw [if_neg h5]
  by_cases h6 : c = 'a'
  · rw [if_pos h6]
    exact Or.inr ⟨l, _, rfl, rfl, le_refl _, (hne _ (by decide) (by decide) h6).1, rfl, rfl,
      rfl, by simp [h6], (hne _ (by decide) (by decide) h6).2⟩
  rw [if_neg h6]
  by_cases h7 : c = 'u'
  · rw [if_pos h7]
    split
    · exact Or.inl ⟨w, rfl, rfl, rfl, rfl⟩
    · exact Or.inr ⟨l, _, rfl, rfl, le_refl _, (hne _ (by decide) (by decide) h7).1, rfl, rfl,
        rfl, by simp [h7], (hne _ (by decide) (by decide) h7).2⟩
  rw [if_neg h7]
  by_cases h8 : c = 'P'
  · rw [if_pos h8]
    exact Or.inr ⟨l, _, rfl, rfl, le_refl _, (hne _ (by decide) (by decide) h8).1, rfl, rfl,
      rfl, by simp [h8], (hne _ (by decide) (by decide) h8).2⟩
  rw [if_neg h8]
  by_cases h9 : c = '1'
  · rw [if_pos h9]
    exact Or.inr ⟨_, w, rfl, rfl, le_refl _, (hne _ (by decide) (by decide) h9).1, rfl, rfl,
      rfl, by simp [h9], (hne _ (by decide) (by decide) h9).2⟩
  rw [if_neg h9]
  by_cases h10 : c = 's'
  · rw [if_pos h10]
    dsimp only
    by_cases hm : (clicon_startup_mode
        (clicon_option_str_set "CLICON_STARTUP_MODE" a w)).isNone = true
    · rw [if_pos hm]
      exact Or.inl ⟨_, rfl, rfl, rfl, rfl⟩
    · rw [if_neg hm]
      refine Or.inr ⟨l, _, rfl, rfl, le_refl _, fun h => absurd (h10.symm.trans h) (by decide),
        rfl, rfl, rfl, by simp [h10], fun _ => ?_⟩
      by_contra hc
      exact hm ((clicon_startup_mode_set a w).mpr hc)
  rw [if_neg h10]
  by_cases h11 : c = 'c'
  · rw [if_pos h11]
    exact Or.inr ⟨_, w, rfl, rfl, le_refl _, (hne _ (by decide) (by decide) h11).1, rfl, rfl,
      rfl, by simp [h11], (hne _ (by decide) (by decide) h11).2⟩
  rw [if_neg h11]
  by_cases h12 : c = 'g'
  · rw [if_pos h12]
    exact Or.inr ⟨l, _, rfl, rfl, le_refl _, (hne _ (by decide) (by decide) h12).1, rfl, rfl,
      rfl, by simp [h12], (hne _ (by decide) (by decide) h12).2⟩
  rw [if_neg h12]
  by_cases h13 : c = 'y'
  · rw [if_pos h13]
    exact Or.inr ⟨l, _, rfl, rfl, le_refl _, (hne _ (by decide) (by decide) h13).1, rfl, rfl,
      rfl, by simp [h13], (hne _ (by decide) (by decide) h13).2⟩
  rw [if_neg h13]
  by_cases h14 : c = 'x'
  · rw [if_pos h14]
    exact Or.inr ⟨l, _, rfl, rfl, le_refl _, (hne _ (by decide) (by decide) h14).1, rfl, rfl,
      rfl, by simp [h14], (hne _ (by decide) (by decide) h14).2⟩
  rw [if_neg h14]
  exact Or.inl ⟨w, rfl, rfl, rfl, rfl⟩

/-- A run of the second loop that goes on to the pid file: `help` is kept, every `-z` is
counted, the handle is changed in its options only, and every option has a letter of the
table, `-s` with one of the four words. -/
theorem main_args2_ok (opts : List (Char × String)) (l : main_locals) (w : World Tree)
    (l2 : main_locals) (w2 : World Tree) (h : main_args2 opts l w = .ok (l2, w2)) :
    l2.help = l.help ∧ l.zap ≤ l2.zap ∧ ((∃ a, ('z', a) ∈ opts) → l.zap < l2.zap) ∧
    w2.dbs = w.dbs ∧ w2.fs = w.fs ∧ w2.log = w.log ∧
    ∀ c a, (c, a) ∈ opts →
      c ∈ ['h', 'D', 'f', 'l', 'd', 'b', 'F', 'z', 'a', 'u', 'P', '1', 's', 'c', 'g', 'y', 'x'] ∧
      (c = 's' → a ∈ ["none", "startup", "running", "init"]) := by
  induction opts generalizing l w with
  | nil =>
    rw [main_args2] at h
    simp only [Except.ok.injEq, Prod.mk.injEq] at h
    obtain ⟨rfl, rfl⟩ := h
    exact ⟨rfl, le_refl _, fun ⟨_, ha⟩ => absurd ha (List.not_mem_nil _), rfl, rfl, rfl,
      fun _ _ ha => absurd ha (List.not_mem_nil _)⟩
  | cons o rest ih =>
    obtain ⟨c, a⟩ := o
    rcases main_args2_step c a rest l w with ⟨v, hv, _⟩ | ⟨l1, w1, hs, hh, hz, hzz, hd, hf, hl, hc, hm⟩
    · rw [hv] at h
      cases h
    · rw [hs] at h
      obtain ⟨ih1, ih2, ih3, ih4, ih5, ih6, ih7⟩ := ih l1 w1 h
      refine ⟨ih1.trans hh, le_trans hz ih2, ?_, ih4.trans hd, ih5.trans hf, ih6.trans hl, ?_⟩
      · rintro ⟨x, hx⟩
        rcases List.mem_cons.mp hx with hx | hx
        · exact lt_of_lt_of_le (hzz (congrArg Prod.fst hx).symm) ih2
        · exact lt_of_le_of_lt hz (ih3 ⟨x, hx⟩)
      · intro c1 a1 hx
        rcases List.mem_cons.mp hx with hx | hx
        · obtain ⟨rfl, rfl⟩ := Prod.mk.inj hx
          exact ⟨hc, hm⟩
        · exact ih7 c1 a1 hx

/-- A run of the second loop that does not go on ends in `usage`, with the datastore, the
file system and the trace as they were. -/
theorem main_args2_error (opts : List (Char × String)) (l : main_locals) (w : World Tree)
    (e : Int × World Tree) (h : main_args2 opts l w = .error e) :
    ∃ v : World Tree, e = usage v ∧ v.dbs = w.dbs ∧ v.fs = w.fs ∧ v.log = w.log := by
  induction opts generalizing l w with
  | nil =>
    rw [main_args2] at h
    cases h
  | cons o rest ih =>
    obtain ⟨c, a⟩ := o
    rcases main_args2_step c a rest l w with ⟨v, hv, hd, hf, hl⟩ | ⟨l1, w1, hs, _, _, _, hd, hf, hl, _, _⟩
    · rw [hv] at h
      simp only [Except.error.injEq] at h
      exact ⟨v, h.symm, hd, hf, hl⟩
    · rw [hs] at h
      obtain ⟨v, hv, h1, h2, h3⟩ := ih l1 w1 h
      exact ⟨v, hv, h1.trans hd, h2.trans hf, h3.trans hl⟩

/-- A command line with an option that is not in the table, or with `-s` and a word that
names no startup mode, ends in `usage` in the second loop. -/
theorem main_args2_rejects (opts : List (Char × String)) (l : main_locals) (w : World Tree)
    (c : Char) (a : String) (hin : (c, a) ∈ opts)
    (hbad : c ∉ ['h', 'D', 'f', 'l', 'd', 'b', 'F', 'z', 'a', 'u', 'P', '1', 's', 'c', 'g', 'y', 'x']
      ∨ (c = 's' ∧ a ∉ ["none", "startup", "running", "init"])) :
    ∃ v : World Tree, main_args2 opts l w = .error (usage v) ∧
      v.dbs = w.dbs ∧ v.fs = w.fs ∧ v.log = w.log := by
  cases hr : main_args2 opts l w with
  | error e =>
    obtain ⟨v, hv, h1, h2, h3⟩ := main_args2_error opts l w e hr
    exact ⟨v, by rw [hv], h1, h2, h3⟩
  | ok r =>
    obtain ⟨l2, w2⟩ := r
    have h := (main_args2_ok opts l w l2 w2 hr).2.2.2.2.2.2 c a hin
    rcases hbad with hb | ⟨hb1, hb2⟩
    · exact absurd h.1 hb
    · exact absurd (h.2 hb1) hb2

/-- C11: a run with `-z` that has passed the option loops, with the pid file and the socket
path set by the configuration, and with a pid file that can be read, a kill and unlinks that
work. Whatever the pid file holds (`w.fs pidfile`, `env.oldpid`): the process exits with
status 0; the daemon named by the pid file, if there is one, has been killed, right after
the reading of the pid file; the pid file and the socket path are gone and no other path
is touched; the datastore is as it was; and what follows on the trace is of the
terminating kind only (unlinks, plugin exit, exit), so no startup mode and no datastore
call. -/
theorem main_zap_kills_unlinks_and_exits_zero (env : Env Tree)
    (opts : List (Char × String)) (l0 l : main_locals) (w0 w : World Tree)
    (argv0 : String) (optind fuel : Nat) (pidfile sock : String)
    (hargs : main_args2 opts l0 w0 = .ok (l, w))
    (hzap : ∃ a, ('z', a) ∈ opts)
    (hp : clicon_option_str w "CLICON_BACKEND_PIDFILE" = some pidfile)
    (hs : clicon_option_str w "CLICON_SOCK" = some sock)
    (hg : ∀ n, env.fault (.pidfile_get pidfile) n = none)
    (hk : ∀ pid n, env.fault (.pidfile_zapold pid) n = none)
    (hu : ∀ p n, env.fault (.unlink p) n = none) :
    ∃ w1 lg, main_pidfile env l argv0 optind fuel w = some (0, w1) ∧
      w1.fs pidfile = false ∧ w1.fs sock = false ∧
      (∀ q, q ≠ pidfile → q ≠ sock → w1.fs q = w.fs q) ∧
      w1.dbs = w.dbs ∧
      w1.log = ⟨.exit 0, true, w.dbs⟩ :: lg ++
        ((if w.fs pidfile = true ∧ env.oldpid ≠ 0
            then [(⟨.pidfile_zapold env.oldpid, true, w.dbs⟩ : Event Tree)] else []) ++
          ⟨.pidfile_get pidfile, true, w.dbs⟩ :: w.log) ∧
      ∀ e ∈ lg, e.op.kind = .term := by
  have hz : l.zap ≠ 0 :=
    Nat.pos_iff_ne_zero.mp (lt_of_le_of_lt (Nat.zero_le _)
      ((main_args2_ok opts l0 w0 l w hargs).2.2.1 hzap))
  obtain ⟨u2, l2, hres, hd, ho, hf, hl, hl2⟩ :=
    main_pidfile_zap_world env l argv0 optind fuel w pidfile sock hp hs hz hg hk
  have hp2 : clicon_option_str u2 "CLICON_BACKEND_PIDFILE" = some pidfile := by
    unfold clicon_option_str at hp ⊢
    rw [ho]
    exact hp
  have hs2 : clicon_option_str u2 "CLICON_SOCK" = some sock := by
    unfold clicon_option_str at hs ⊢
    rw [ho]
    exact hs
  have hfs := backend_terminate_fs env u2 pidfile sock hp2 hs2 hu
  obtain ⟨_, l3, hl3, hl3t⟩ := extends_backend_terminate env
    (fun (e : Event Tree) (h : e.op.kind = .term) => h) (Extends.erefl _ u2)
  refine ⟨_, l3 ++ l2, hres, ?_, ?_, ?_, ?_, ?_, ?_⟩
  · show (backend_terminate env u2).fs pidfile = false
    rw [hfs]
    simp
  · show (backend_terminate env u2).fs sock = false
    rw [hfs]
    simp
  · intro q hq1 hq2
    show (backend_terminate env u2).fs q = w.fs q
    rw [hfs, if_neg (by simp [hq1, hq2])]
    exact hf q hq1 hq2
  · show (backend_terminate env u2).dbs = w.dbs
    rw [backend_terminate_dbs, hd]
  · show (⟨.exit 0, true, (backend_terminate env u2).dbs⟩ : Event Tree) ::
      (backend_terminate env u2).log = _
    rw [backend_terminate_dbs, hd, hl3, hl]
    simp [List.append_assoc]
  · intro e he
    rcases List.mem_append.mp he with h | h
    · exact hl3t e h
    · exact hl2 e h

/-- Witness of C11: `-z` with the pid file `/pid` of the live daemon 77 and the socket path
`/sock` both there: exit status 0, the daemon killed, both paths gone, `running` as it
was. -/
theorem main_zap_kills_unlinks_and_exits_zero_witness :
    ∃ w1 : World (List String),
      main_pidfile { exEnv with oldpid := 77 }
        { help := false, debug := 0, logdst := 3, foreground := false, once := false,
          zap := 1, extraxml_file := none } "clixon_backend" 2 5
        { exWorld with
          options := fun n => if n = "CLICON_BACKEND_PIDFILE" then some "/pid"
            else if n = "CLICON_SOCK" then some "/sock" else none,
          fs := fun p => p = "/pid" ∨ p = "/sock" } = some (0, w1) ∧
      w1.fs "/pid" = false ∧ w1.fs "/sock" = false ∧
      w1.dbs "running" = some ["old"] ∧
      (⟨.pidfile_zapold 77, true, exWorld.dbs⟩ : Event (List String)) ∈ w1.log := by
  obtain ⟨w1, lg, h1, h2, h3, _, h5, h6, _⟩ :=
    main_zap_kills_unlinks_and_exits_zero { exEnv with oldpid := 77 } [('z', "")]
      { help := false, debug := 0, logdst := 3, foreground := false, once := false,
        zap := 0, extraxml_file := none }
      { help := false, debug := 0, logdst := 3, foreground := false, once := false,
        zap := 1, extraxml_file := none }
      { exWorld with
        options := fun n => if n = "CLICON_BACKEND_PIDFILE" then some "/pid"
          else if n = "CLICON_SOCK" then some "/sock" else none,
        fs := fun p => p = "/pid" ∨ p = "/sock" }
      { exWorld with
        options := fun n => if n = "CLICON_BACKEND_PIDFILE" then some "/pid"
          else if n = "CLICON_SOCK" then some "/sock" else none,
        fs := fun p => p = "/pid" ∨ p = "/sock" }
      "clixon_backend" 2 5 "/pid" "/sock" rfl ⟨"", List.mem_singleton.mpr rfl⟩ rfl rfl
      (fun _ => rfl) (fun _ _ => rfl) (fun _ _ => rfl)
  refine ⟨w1, h1, h2, h3, ?_, ?_⟩
  · rw [h5]
    rfl
  · rw [h6]
    simp [exEnv]

/-- An outside call that acts on no database leaves the datastore, the file system and the
options alone and puts one entry on the trace. -/
theorem extcall_frame (env : Env Tree) (op : Op) (w : World Tree) :
    (extcall env op w).2.dbs = w.dbs ∧ (extcall env op w).2.fs = w.fs ∧
    (extcall env op w).2.options = w.options ∧
    ∃ ok, (extcall env op w).2.log = ⟨op, ok, w.dbs⟩ :: w.log := by
  unfold extcall perform
  split
  · exact ⟨rfl, rfl, rfl, false, rfl⟩
  · exact ⟨rfl, rfl, rfl, true, rfl⟩

/-- The check of the pid file, reached without `-z` when the pid file names a live daemon:
`main` returns -1 right after the reading of the pid file (whether the reading works or
not), having unlinked nothing and touched no database. -/
theorem main_pidfile_live_daemon (env : Env Tree) (l : main_locals) (argv0 : String)
    (optind fuel : Nat) (w : World Tree) (pidfile sock : String)
    (hp : clicon_option_str w "CLICON_BACKEND_PIDFILE" = some pidfile)
    (hs : clicon_option_str w "CLICON_SOCK" = some sock)
    (hz : l.zap = 0) (hfs : w.fs pidfile = true) (ho : env.oldpid ≠ 0) :
    ∃ w1 ok, main_pidfile env l argv0 optind fuel w = some (-1, w1) ∧
      w1.fs = w.fs ∧ w1.dbs = w.dbs ∧
      w1.log = ⟨.pidfile_get pidfile, ok, w.dbs⟩ :: w.log := by
  obtain ⟨hd, hf, _, ok, hl⟩ := extcall_frame env (.pidfile_get pidfile) w
  unfold main_pidfile
  simp -zeta only [hp, hs]
  lift_lets
  extract_lets sockfamily pg pid z u1 u2 v1 v2
  have hpid : pid ≠ 0 := by
    show (if w.fs pidfile then env.oldpid else 0) ≠ 0
    rw [if_pos hfs]
    exact ho
  refine ⟨(extcall env (.pidfile_get pidfile) w).2, ok, ?_, hf, hd, hl⟩
  by_cases hlt : pg.1 < 0
  · rw [if_pos hlt]
    rfl
  · rw [if_neg hlt, if_neg (not_not.mpr hz), if_pos hpid]
    rfl

/-- C12, failing input. At the check of the pid file itself the claim holds: without `-z`,
with the pid file of a live daemon, `main` returns -1 having unlinked nothing and touched
no database. But a failure that comes before the check leaves through the `done` label,
and `backend_terminate` unlinks the pid file and the socket path there without having
looked at the pid file. First run: the configuration asks for an external NACM file and
the loading of it fails; the pid file `/pid` of the live daemon 77 and its socket `/sock`
are both unlinked, and `main` returns -1. Second run: the configuration sets no
`CLICON_SOCK`; the pid file of the live daemon is unlinked. Third run, for comparison:
nothing fails, and both paths are still there. -/
theorem main_failure_before_pid_check_unlinks_pid_file :
    (∀ (T : Type) (env : Env T) (l : main_locals) (argv0 : String) (optind fuel : Nat)
      (w : World T) (pidfile sock : String),
      clicon_option_str w "CLICON_BACKEND_PIDFILE" = some pidfile →
      clicon_option_str w "CLICON_SOCK" = some sock →
      l.zap = 0 → w.fs pidfile = true → env.oldpid ≠ 0 →
      ∃ w1 ok, main_pidfile env l argv0 optind fuel w = some (-1, w1) ∧
        w1.fs = w.fs ∧ w1.dbs = w.dbs ∧
        w1.log = ⟨.pidfile_get pidfile, ok, w.dbs⟩ :: w.log) ∧
    (main
      { exEnv with
        configfile := fun f =>
          if f = "cfg.xml" then
            some [("CLICON_BACKEND_PIDFILE", "/pid"), ("CLICON_SOCK", "/sock"),
                  ("CLICON_NACM_MODE", "external")]
          else none,
        fault := fun o _ => if o = .nacm_load_external then some ENOENT else none,
        oldpid := 77 }
      ["clixon_backend", "-f", "cfg.xml"] 1
      { exWorld with fs := fun p => p = "/pid" ∨ p = "/sock" }).map
      (fun r => (r.1, r.2.fs "/pid", r.2.fs "/sock",
        r.2.log.reverse.map (fun e => (e.op, e.ok))))
    = some (-1, false, false,
       [(.backend_handle_init, true),
        (.clicon_options_main, true),
        (.nacm_load_external, false),
        (.clixon_plugin_exit, true),
        (.unlink "/pid", true),
        (.unlink "/sock", true)]) ∧
    (main
      { exEnv with
        configfile := fun f =>
          if f = "cfg.xml" then some [("CLICON_BACKEND_PIDFILE", "/pid")] else none,
        oldpid := 77 }
      ["clixon_backend", "-f", "cfg.xml"] 1
      { exWorld with fs := fun p => p = "/pid" ∨ p = "/sock" }).map
      (fun r => (r.1, r.2.fs "/pid", r.2.fs "/sock",
        r.2.log.reverse.map (fun e => (e.op, e.ok))))
    = some (-1, false, true,
       [(.backend_handle_init, true),
        (.clicon_options_main, true),
        (.clixon_plugin_exit, true),
        (.unlink "/pid", true)]) ∧
    (main { exEnv with oldpid := 77 } ["clixon_backend", "-f", "cfg.xml"] 1
      { exWorld with fs := fun p => p = "/pid" ∨ p = "/sock" }).map
      (fun r => (r.1, r.2.fs "/pid", r.2.fs "/sock",
        r.2.log.reverse.map (fun e => (e.op, e.ok))))
    = some (-1, true, true,
       [(.backend_handle_init, true),
        (.clicon_options_main, true),
        (.pidfile_get "/pid", true)]) :=
  ⟨fun _ env l argv0 optind fuel w pidfile sock hp hs hz hfs ho =>
      main_pidfile_live_daemon env l argv0 optind fuel w pidfile sock hp hs hz hfs ho,
    by decide, by decide, by decide⟩

/-- The first loop over the options, when a log file named by `-l f<file>` can be opened
and `-h` is among the options (or `help` is set already): it ends in `usage`, or it goes
on with `help` set. It touches no database and no path, and puts nothing on the trace but
the openings of log files. -/
theorem main_args1_help (env : Env Tree)
    (hl : ∀ p n, env.fault (.clicon_log_file p) n = none)
    (opts : List (Char × String)) (l : main_locals) (w : World Tree)
    (hh : l.help = true ∨ ∃ a, ('h', a) ∈ opts) :
    (∃ v : World Tree, main_args1 env opts l w = .error (usage v) ∧
        v.dbs = w.dbs ∧ v.fs = w.fs ∧ Adds OptionEvent w v) ∨
    (∃ (l1 : main_locals) (w1 : World Tree), main_args1 env opts l w = .ok (l1, w1) ∧
        l1.help = true ∧ w1.dbs = w.dbs ∧ w1.fs = w.fs ∧ Adds OptionEvent w w1) := by
  induction opts generalizing l w with
  | nil =>
    rcases hh with hh | ⟨_, hh⟩
    · exact Or.inr ⟨l, w, rfl, hh, rfl, rfl, Adds.refl _ w⟩
    · exact absurd hh (List.not_mem_nil _)
  | cons o rest ih =>
    obtain ⟨c, a⟩ := o
    have lift : ∀ (l1 : main_locals) (w1 : World Tree), l1.help = l.help ∨ l1.help = true →
        c ≠ 'h' ∨ l1.help = true →
        w1.dbs = w.dbs → w1.fs = w.fs → Adds OptionEvent w w1 →
        (∃ v : World Tree, main_args1 env rest l1 w1 = .error (usage v) ∧
            v.dbs = w.dbs ∧ v.fs = w.fs ∧ Adds OptionEvent w v) ∨
        (∃ (l2 : main_locals) (w2 : World Tree), main_args1 env rest l1 w1 = .ok (l2, w2) ∧
            l2.help = true ∧ w2.dbs = w.dbs ∧ w2.fs = w.fs ∧ Adds OptionEvent w w2) := by
      intro l1 w1 hl1 hc hd hf ha
      have hh1 : l1.help = true ∨ ∃ a, ('h', a) ∈ rest := by
        rcases hc with hc | hc
        · rcases hh with hh | ⟨x, hx⟩
          · rcases hl1 with h | h
            · exact Or.inl (h.trans hh)
            · exact Or.inl h
          · rcases List.mem_cons.mp hx with hx | hx
            · exact absurd (congrArg Prod.fst hx).symm hc
            · exact Or.inr ⟨x, hx⟩
        · exact Or.inl hc
      rcases ih l1 w1 hh1 with ⟨v, hv, h1, h2, h3⟩ | ⟨l2, w2, hv, hlp, h1, h2, h3⟩
      · exact Or.inl ⟨v, hv, h1.trans hd, h2.trans hf, ha.trans h3⟩
      · exact Or.inr ⟨l2, w2, hv, hlp, h1.trans hd, h2.trans hf, ha.trans h3⟩
    rw [main_args1]
    by_cases h1 : c = 'h'
    · rw [if_pos h1]
      exact lift _ w (Or.inr rfl) (Or.inr rfl) rfl rfl (Adds.refl _ w)
    rw [if_neg h1]
    by_cases h2 : c = 'D'
    · rw [if_pos h2]
      split
      · exact Or.inl ⟨w, rfl, rfl, rfl, Adds.refl _ w⟩
      · exact lift _ w (Or.inl rfl) (Or.inl h1) rfl rfl (Adds.refl _ w)
    rw [if_neg h2]
    by_cases h3 : c = 'f'
    · rw [if_pos h3]
      split
      · exact Or.inl ⟨w, rfl, rfl, rfl, Adds.refl _ w⟩
      · exact lift l _ (Or.inl rfl) (Or.inl h1) rfl rfl ((Adds.refl _ w).of_eq rfl)
    rw [if_neg h3]
    by_cases h4 : c = 'l'
    · rw [if_pos h4]
      dsimp only
      split
      · exact Or.inl ⟨w, rfl, rfl, rfl, Adds.refl _ w⟩
      · split
        · rw [extcall_nofault env _ w (hl _)]
          rw [if_neg (by exact (by decide : ¬ (0 : Int) < 0))]
          refine lift _ _ (Or.inl rfl) (Or.inl h1) rfl rfl ?_
          exact ⟨[⟨.clicon_log_file (a.drop 1), true, w.dbs⟩], rfl, fun e he => by
            rw [List.mem_singleton.mp he]
            exact Or.inr (Or.inl ⟨_, rfl⟩)⟩
        · exact lift _ w (Or.inl rfl) (Or.inl h1) rfl rfl (Adds.refl _ w)
    rw [if_neg h4]
    exact lift l w (Or.inl rfl) (Or.inl h1) rfl rfl (Adds.refl _ w)

/-- The reading of the configuration file touches no database and no path, and puts one
entry on the trace. -/
theorem clicon_options_main_frame (env : Env Tree) (w : World Tree) :
    (clicon_options_main env w).2.dbs = w.dbs ∧ (clicon_options_main env w).2.fs = w.fs ∧
    Adds OptionEvent w (clicon_options_main env w).2 := by
  have ev : ∀ ok, ∀ e ∈ [(⟨.clicon_options_main, ok, w.dbs⟩ : Event Tree)], OptionEvent e := by
    intro ok e he
    rw [List.mem_singleton.mp he]
    exact Or.inr (Or.inr (Or.inl rfl))
  unfold clicon_options_main
  split
  · exact ⟨rfl, rfl, _, rfl, ev false⟩
  · split
    · exact ⟨rfl, rfl, _, rfl, ev false⟩
    · exact ⟨rfl, rfl, _, rfl, ev true⟩

/-- Printing the usage text and exiting: status -1, two entries on the trace. -/
theorem usage_eq (v : World Tree) :
    usage v = (-1, record (.exit (-1)) (record .usage v)) ∧
    (usage v).2.dbs = v.dbs ∧ (usage v).2.fs = v.fs ∧
    (usage v).2.log = ⟨.exit (-1), true, v.dbs⟩ :: ⟨.usage, true, v.dbs⟩ :: v.log :=
  ⟨rfl, rfl, rfl, rfl⟩

/-- C13: a command line in which getopt finds `-h`, whatever else it holds, when the handle
can be created, a log file named by `-l f<file>` can be opened and an external NACM file,
if the configuration asks for one, can be loaded. `main` prints the usage text and ends
the process with `exit(-1)`, a non-zero status. Before that it has touched no database
and no path, and the trace holds nothing but the calls of the reading of the options
(handle, log file, configuration file, NACM file): no reading of the pid file, no kill,
no unlink, no startup mode, no datastore call. -/
theorem main_help_prints_usage_and_exits (env : Env Tree) (argv : List String) (fuel : Nat)
    (w : World Tree)
    (hh : ∃ a, ('h', a) ∈ (getopt_all BACKEND_OPTS argv).opts)
    (hi : ∀ n, env.fault .backend_handle_init n = none)
    (hl : ∀ p n, env.fault (.clicon_log_file p) n = none)
    (hn : ∀ n, env.fault .nacm_load_external n = none) :
    ∃ w1 lg, main env argv fuel w = some (-1, w1) ∧
      w1.dbs = w.dbs ∧ w1.fs = w.fs ∧
      w1.log = ⟨.exit (-1), true, w.dbs⟩ :: ⟨.usage, true, w.dbs⟩ :: lg ++ w.log ∧
      ∀ e ∈ lg, OptionEvent e := by
  have fin : ∀ v : World Tree, v.dbs = w.dbs → v.fs = w.fs → Adds OptionEvent w v →
      ∃ w1 lg, some (usage v) = some (-1, w1) ∧
        w1.dbs = w.dbs ∧ w1.fs = w.fs ∧
        w1.log = ⟨.exit (-1), true, w.dbs⟩ :: ⟨.usage, true, w.dbs⟩ :: lg ++ w.log ∧
        ∀ e ∈ lg, OptionEvent e := by
    intro v hd hf ⟨lg, hlg, hp⟩
    refine ⟨(usage v).2, lg, rfl, hd, hf, ?_, hp⟩
    rw [(usage_eq v).2.2.2, hd, hlg]
    rfl
  unfold main
  lift_lets
  extract_lets argv0 hi0 g hi2 wa l0
  have hhi : hi0 = (0, record .backend_handle_init { w with argv := argv }) :=
    extcall_nofault env _ _ hi
  have hwa : wa.dbs = w.dbs ∧ wa.fs = w.fs ∧ Adds OptionEvent w wa := by
    refine ⟨?_, ?_, [⟨.backend_handle_init, true, w.dbs⟩], ?_, ?_⟩
    · show hi0.2.dbs = w.dbs
      rw [hhi]
      rfl
    · show hi0.2.fs = w.fs
      rw [hhi]
      rfl
    · show hi0.2.log = _
      rw [hhi]
      rfl
    · intro e he
      rw [List.mem_singleton.mp he]
      exact Or.inl rfl
  obtain ⟨hwad, hwaf, hwaa⟩ := hwa
  rw [if_neg (by rw [hhi]; exact (by decide : ¬ (0 : Int) < 0))]
  rcases main_args1_help env hl g.opts l0 wa (Or.inr hh) with
    ⟨v, hv, h1, h2, h3⟩ | ⟨l1, wb, hv, hlp, h1, h2, h3⟩
  · rw [hv]
    exact fin v (h1.trans hwad) (h2.trans hwaf) (hwaa.trans h3)
  rw [hv]
  dsimp only
  obtain ⟨c1, c2, c3⟩ := clicon_options_main_frame env wb
  have hcd := c1.trans (h1.trans hwad)
  have hcf := c2.trans (h2.trans hwaf)
  have hca := (hwaa.trans h3).trans c3
  generalize clicon_options_main env wb = cf at hcd hcf hca ⊢
  by_cases hlt : cf.1 < 0
  · rw [if_pos hlt, if_pos hlp]
    exact fin _ hcd hcf hca
  rw [if_neg hlt]
  have hnm : ∀ nm : Int × World Tree,
      nm = (if clicon_option_str cf.2 "CLICON_NACM_MODE" = some "external"
        then extcall env .nacm_load_external cf.2 else (0, cf.2)) →
      ¬ nm.1 < 0 ∧ nm.2.dbs = w.dbs ∧ nm.2.fs = w.fs ∧ Adds OptionEvent w nm.2 := by
    intro nm hnm
    rw [hnm]
    split
    · rw [extcall_nofault env _ _ hn]
      refine ⟨(by decide : ¬ (0 : Int) < 0), hcd, hcf, hca.trans ⟨[⟨.nacm_load_external, true, cf.2.dbs⟩], rfl, ?_⟩⟩
      intro e he
      rw [List.mem_singleton.mp he]
      exact Or.inr (Or.inr (Or.inr rfl))
    · exact ⟨(by decide : ¬ (0 : Int) < 0), hcd, hcf, hca⟩
  obtain ⟨n0, n1, n2, n3⟩ := hnm _ rfl
  generalize (if clicon_option_str cf.2 "CLICON_NACM_MODE" = some "external"
        then extcall env .nacm_load_external cf.2 else (0, cf.2)) = nm at n0 n1 n2 n3 ⊢
  rw [if_neg n0]
  cases hr : main_args2 g.opts l1 nm.2 with
  | error e =>
    obtain ⟨v, hve, e1, e2, e3⟩ := main_args2_error g.opts l1 nm.2 e hr
    dsimp only
    rw [hve]
    exact fin v (e1.trans n1) (e2.trans n2) (n3.of_eq e3)
  | ok r =>
    obtain ⟨l2, wc⟩ := r
    obtain ⟨o1, _, _, o4, o5, o6, _⟩ := main_args2_ok g.opts l1 nm.2 l2 wc hr
    dsimp only
    rw [if_pos (o1.trans hlp)]
    exact fin wc (o4.trans n1) (o5.trans n2) (n3.of_eq o6)

/-- Witness of C13: `-z -h -f cfg.xml` beside the live daemon 77: usage and `exit(-1)`,
the pid file and the socket of the daemon are still there. -/
theorem main_help_prints_usage_and_exits_witness :
    ∃ w1 : World (List String),
      main { exEnv with oldpid := 77 } ["clixon_backend", "-z", "-h", "-f", "cfg.xml"] 1
        { exWorld with fs := fun p => p = "/pid" ∨ p = "/sock" } = some (-1, w1) ∧
      w1.fs "/pid" = true ∧ w1.fs "/sock" = true ∧ w1.dbs "running" = some ["old"] ∧
      (⟨.usage, true, exWorld.dbs⟩ : Event (List String)) ∈ w1.log := by
  obtain ⟨w1, lg, h1, h2, h3, h4, _⟩ :=
    main_help_prints_usage_and_exits { exEnv with oldpid := 77 }
      ["clixon_backend", "-z", "-h", "-f", "cfg.xml"] 1
      { exWorld with fs := fun p => p = "/pid" ∨ p = "/sock" }
      ⟨"", by decide⟩ (fun _ => rfl) (fun _ _ => rfl) (fun _ => rfl)
  refine ⟨w1, h1, ?_, ?_, ?_, ?_⟩
  · rw [h3]
    decide
  · rw [h3]
    decide
  · rw [h2]
    rfl
  · rw [h4]
    simp

theorem backend_opts_list :
    BACKEND_OPTS.toList = ['h', 'D', ':', 'f', ':', 'l', ':', 'd', ':', 'b', ':', 'F', 'z',
      'a', ':', 'u', ':', 'P', ':', '1', 's', ':', 'c', ':', 'g', ':', 'y', ':', 'x', ':'] := by
  decide

/-- The table of `BACKEND_OPTS` as getopt reads it: the letters that take an argument, the
letters that take none, and no other character. -/
theorem optlookup_backend (c : Char) :
    optlookup BACKEND_OPTS.toList c =
      if c ∈ ['D', 'f', 'l', 'd', 'b', 'a', 'u', 'P', 's', 'c', 'g', 'y', 'x'] then some true
      else if c ∈ ['h', 'F', 'z', '1'] then some false
      else none := by
  rw [backend_opts_list]
  by_cases h : c ∈ ['h', 'D', 'f', 'l', 'd', 'b', 'F', 'z', 'a', 'u', 'P', '1', 's', 'c', 'g',
      'y', 'x']
  · simp only [List.mem_cons, List.mem_singleton, List.not_mem_nil, or_false] at h
    rcases h with h | h | h | h | h | h | h | h | h | h | h | h | h | h | h | h | h <;>
      (subst h; decide)
  · simp only [List.mem_cons, List.mem_singleton, List.not_mem_nil, or_false, not_or] at h
    obtain ⟨h1, h2, h3, h4, h5, h6, h7, h8, h9, h10, h11, h12, h13, h14, h15, h16, h17⟩ := h
    have e : ∀ x : Char, c ≠ x → ¬ (x = c ∧ c ≠ ':') := fun x hx hc => hx hc.1.symm
    have e0 : ¬ (':' = c ∧ c ≠ ':') := fun hc => hc.2 hc.1.symm
    simp only [optlookup, if_neg (e _ h1), if_neg (e _ h2), if_neg (e _ h3), if_neg (e _ h4),
      if_neg (e _ h5), if_neg (e _ h6), if_neg (e _ h7), if_neg (e _ h8), if_neg (e _ h9),
      if_neg (e _ h10), if_neg (e _ h11), if_neg (e _ h12), if_neg (e _ h13), if_neg (e _ h14),
      if_neg (e _ h15), if_neg (e _ h16), if_neg (e _ h17), if_neg e0]
    simp [h1, h2, h3, h4, h5, h6, h7, h8, h9, h10, h11, h12, h13, h14, h15, h16, h17]

/-- An option of the table, with a non-empty argument for `-d`, `-b` and `-u` and one of
the four words for `-s`, passes the second loop. -/
theorem main_args2_accepts (l : main_locals) (w : World Tree) (c : Char) (a : String)
    (hc : c ∈ ['h', 'D', 'f', 'l', 'd', 'b', 'F', 'z', 'a', 'u', 'P', '1', 's', 'c', 'g', 'y', 'x'])
    (hlen : c ∈ ['d', 'b', 'u'] → a.length ≠ 0)
    (hmode : c = 's' → a ∈ ["none", "startup", "running", "init"]) :
    ∃ (l1 : main_locals) (w1 : World Tree), main_args2 [(c, a)] l w = .ok (l1, w1) := by
  rcases main_args2_step c a [] l w with ⟨v, hv, _⟩ | ⟨l1, w1, hs, _⟩
  · exfalso
    rw [main_args2] at hv
    simp only [List.mem_cons, List.mem_singleton, List.not_mem_nil, or_false] at hc hlen hmode
    by_cases h1 : c = 'h' ∨ c = 'D' ∨ c = 'f' ∨ c = 'l'
    · rw [if_pos h1, main_args2] at hv
      cases hv
    rw [if_neg h1] at hv
    by_cases h2 : c = 'd'
    · rw [if_pos h2, if_neg (hlen (Or.inl h2)), main_args2] at hv
      cases hv
    rw [if_neg h2] at hv
    by_cases h3 : c = 'b'
    · rw [if_pos h3, if_neg (hlen (Or.inr (Or.inl h3))), main_args2] at hv
      cases hv
    rw [if_neg h3] at hv
    by_cases h4 : c = 'F'
    · rw [if_pos h4, main_args2] at hv
      cases hv
    rw [if_neg h4] at hv
    by_cases h5 : c = 'z'
    · rw [if_pos h5, main_args2] at hv
      cases hv
    rw [if_neg h5] at hv
    by_cases h6 : c = 'a'
    · rw [if_pos h6, main_args2] at hv
      cases hv
    rw [if_neg h6] at hv
    by_cases h7 : c = 'u'
    · rw [if_pos h7, if_neg (hlen (Or.inr (Or.inr h7))), main_args2] at hv
      cases hv
    rw [if_neg h7] at hv
    by_cases h8 : c = 'P'
    · rw [if_pos h8, main_args2] at hv
      cases hv
    rw [if_neg h8] at hv
    by_cases h9 : c = '1'
    · rw [if_pos h9, main_args2] at hv
      cases hv
    rw [if_neg h9] at hv
    by_cases h10 : c = 's'
    · rw [if_pos h10] at hv
      dsimp only at hv
      have hm : ¬ (clicon_startup_mode
          (clicon_option_str_set "CLICON_STARTUP_MODE" a w)).isNone = true := by
        intro hcon
        have := (clicon_startup_mode_set a w).mp hcon
        simp only [List.mem_cons, List.mem_singleton, List.not_mem_nil, or_false] at this
        exact this (hmode h10)
      rw [if_neg hm, main_args2] at hv
      cases hv
    rw [if_neg h10] at hv
    by_cases h11 : c = 'c'
    · rw [if_pos h11, main_args2] at hv
      cases hv
    rw [if_neg h11] at hv
    by_cases h12 : c = 'g'
    · rw [if_pos h12, main_args2] at hv
      cases hv
    rw [if_neg h12] at hv
    by_cases h13 : c = 'y'
    · rw [if_pos h13, main_args2] at hv
      cases hv
    rw [if_neg h13] at hv
    by_cases h14 : c = 'x'
    · rw [if_pos h14, main_args2] at hv
      cases hv
    tauto
  · rw [main_args2] at hs
    exact ⟨l1, w1, hs⟩

/-- One letter of an argument `-abc` as getopt reads it. -/
theorem getopt_cluster_cons (o : List Char) (c : Char) (cs : List Char) (rest : List String) :
    getopt_cluster o (c :: cs) rest =
      match optlookup o c with
      | none => (('?', "") :: (getopt_cluster o cs rest).1, (getopt_cluster o cs rest).2)
      | some false => ((c, "") :: (getopt_cluster o cs rest).1, (getopt_cluster o cs rest).2)
      | some true =>
        match cs, rest with
        | _ :: _, _ => ([(c, String.mk cs)], false, rest)
        | [], [] => ([('?', "")], false, [])
        | [], a :: rest1 => ([(c, a)], true, rest1) := by
  rfl

/-- C14: the option letters of the backend. getopt, with the option string `BACKEND_OPTS`,
knows exactly the letters D, f, l, d, b, a, u, P, s, c, g, y, x, with an argument, and
h, F, z, 1, without one, and gives `?` for any other letter. The second loop over the
options ends in `usage`, which exits with -1, when one of the options is not one of these
letters, or is `-s` with a word other than none, startup, running, init; and it lets every
one of these letters pass (for `-d`, `-b`, `-u` with a non-empty argument, for `-s` with
one of the four words). -/
theorem backend_option_letters_and_usage :
    (∀ c : Char, optlookup BACKEND_OPTS.toList c =
        if c ∈ ['D', 'f', 'l', 'd', 'b', 'a', 'u', 'P', 's', 'c', 'g', 'y', 'x'] then some true
        else if c ∈ ['h', 'F', 'z', '1'] then some false
        else none) ∧
    (∀ (c : Char) (cs : List Char) (rest : List String),
        optlookup BACKEND_OPTS.toList c = none →
        (getopt_cluster BACKEND_OPTS.toList (c :: cs) rest).1.head? = some ('?', "")) ∧
    (∀ (T : Type) (opts : List (Char × String)) (l : main_locals) (w : World T)
        (c : Char) (a : String), (c, a) ∈ opts →
        (c ∉ ['h', 'D', 'f', 'l', 'd', 'b', 'F', 'z', 'a', 'u', 'P', '1', 's', 'c', 'g', 'y', 'x']
          ∨ (c = 's' ∧ a ∉ ["none", "startup", "running", "init"])) →
        ∃ v : World T, main_args2 opts l w = .error (usage v) ∧ (usage v).1 = -1 ∧
          (usage v).2.log = ⟨.exit (-1), true, w.dbs⟩ :: ⟨.usage, true, w.dbs⟩ :: w.log) ∧
    (∀ (T : Type) (l : main_locals) (w : World T) (c : Char) (a : String),
        c ∈ ['h', 'D', 'f', 'l', 'd', 'b', 'F', 'z', 'a', 'u', 'P', '1', 's', 'c', 'g', 'y', 'x'] →
        (c ∈ ['d', 'b', 'u'] → a.length ≠ 0) →
        (c = 's' → a ∈ ["none", "startup", "running", "init"]) →
        ∃ (l1 : main_locals) (w1 : World T), main_args2 [(c, a)] l w = .ok (l1, w1)) := by
  refine ⟨optlookup_backend, ?_, ?_, ?_⟩
  · intro c cs rest h
    rw [getopt_cluster_cons, h]
    rfl
  · intro T opts l w c a hin hbad
    obtain ⟨v, hv, h1, _, h3⟩ := main_args2_rejects opts l w c a hin hbad
    refine ⟨v, hv, rfl, ?_⟩
    rw [(usage_eq v).2.2.2, h1, h3]
  · intro T l w c a hc hlen hmode
    exact main_args2_accepts l w c a hc hlen hmode

/-- C14, example: `-q` is not in the table, getopt gives `?` for it, and the run ends in
`usage` with -1; so does a run with `-s bogus`. -/
theorem backend_option_letters_and_usage_witness :
    (∃ v : World (List String),
      main_args2 (getopt_all BACKEND_OPTS ["clixon_backend", "-f", "cfg.xml", "-q"]).opts
        { help := false, debug := 0, logdst := 3, foreground := false, once := false,
          zap := 0, extraxml_file := none } exWorld = .error (usage v)) ∧
    (main exEnv ["clixon_backend", "-f", "cfg.xml", "-q"] 1 exWorld).map
      (fun r => (r.1, r.2.log.reverse.map (fun e => (e.op, e.ok))))
    = some (-1,
       [(.backend_handle_init, true), (.clicon_options_main, true), (.usage, true),
        (.exit (-1), true)]) ∧
    (main exEnv ["clixon_backend", "-f", "cfg.xml", "-s", "bogus"] 1 exWorld).map
      (fun r => (r.1, r.2.log.reverse.map (fun e => (e.op, e.ok))))
    = some (-1,
       [(.backend_handle_init, true), (.clicon_options_main, true), (.usage, true),
        (.exit (-1), true)]) := by
  refine ⟨?_, by decide, by decide⟩
  obtain ⟨v, hv, _⟩ := backend_option_letters_and_usage.2.2.1 (List String)
    (getopt_all BACKEND_OPTS ["clixon_backend", "-f", "cfg.xml", "-q"]).opts
    { help := false, debug := 0, logdst := 3, foreground := false, once := false,
      zap := 0, extraxml_file := none } exWorld '?' "" (by decide) (Or.inl (by decide))
  exact ⟨v, hv⟩

/-! ## The `done` labels of the startup modes -/

theorem xmldb_delete_fault (env : Env Tree) (db : String) (w : World Tree)
    (h : ∀ n, (env.fault (.xmldb_delete db) n).isSome = true) :
    (xmldb_delete env db w).1 < 0 := by
  unfold xmldb_delete perform
  obtain ⟨e, he⟩ := Option.isSome_iff_exists.mp (h (w.calls (.xmldb_delete db)))
  rw [he]
  exact (by decide : (-1 : Int) < 0)

/-- With a delete of `tmp` that fails every time, no number of passes through the `done`
label of mode `running` is enough. -/
theorem startup_mode_running_done_loops (env : Env Tree) (fuel : Nat) (rv : Int)
    (w : World Tree) (h : ∀ n, (env.fault (.xmldb_delete "tmp") n).isSome = true) :
    startup_mode_running_done env fuel rv w = none := by
  induction fuel generalizing w with
  | zero => rfl
  | succ n ih =>
    unfold startup_mode_running_done
    dsimp only
    rw [if_pos (xmldb_delete_fault env "tmp" w h)]
    exact ih _

/-- With a delete of `backup` or of `tmp` that fails every time, no number of passes
through the `done` label of mode `startup` is enough. -/
theorem startup_mode_startup_done_loops (env : Env Tree) (fuel : Nat) (rv : Int)
    (w : World Tree)
    (h : (∀ n, (env.fault (.xmldb_delete "backup") n).isSome = true) ∨
      (∀ n, (env.fault (.xmldb_delete "tmp") n).isSome = true)) :
    startup_mode_startup_done env fuel rv w = none := by
  induction fuel generalizing w with
  | zero => rfl
  | succ n ih =>
    unfold startup_mode_startup_done
    dsimp only
    split
    · exact ih _
    · rcases h with h | h
      · rename_i hb
        exact absurd (xmldb_delete_fault env "backup" w h) hb
      · rw [if_pos (xmldb_delete_fault env "tmp" _ h)]
        exact ih _

/-- A delete of `tmp` that fails `k` times and then works: the `done` label of mode
`running` is passed `k + 1` times, with one call of the delete each time, and no smaller
number of passes is enough. -/
theorem startup_mode_running_done_passes (env : Env Tree) (k : Nat) (rv : Int)
    (w : World Tree)
    (hfail : ∀ i, i < k →
      (env.fault (.xmldb_delete "tmp") (w.calls (.xmldb_delete "tmp") + i)).isSome = true)
    (hok : env.fault (.xmldb_delete "tmp") (w.calls (.xmldb_delete "tmp") + k) = none) :
    (∃ w1, startup_mode_running_done env (k + 1) rv w = some (rv, w1) ∧
      w1.calls (.xmldb_delete "tmp") = w.calls (.xmldb_delete "tmp") + (k + 1)) ∧
    ∀ fuel, fuel ≤ k → startup_mode_running_done env fuel rv w = none := by
  induction k generalizing w with
  | zero =>
    refine ⟨?_, fun fuel hf => by rw [Nat.le_zero.mp hf]; rfl⟩
    have h0 : ¬ (xmldb_delete env "tmp" w).1 < 0 := by
      unfold xmldb_delete perform
      rw [show env.fault (.xmldb_delete "tmp") (w.calls (.xmldb_delete "tmp")) = none from hok]
      exact (by decide : ¬ (0 : Int) < 0)
    unfold startup_mode_running_done
    dsimp only
    rw [if_neg h0]
    refine ⟨_, rfl, ?_⟩
    unfold xmldb_delete
    rw [perform_calls]
    simp [bump]
  | succ k ih =>
    have h0 : (xmldb_delete env "tmp" w).1 < 0 := by
      unfold xmldb_delete perform
      obtain ⟨e, he⟩ := Option.isSome_iff_exists.mp (hfail 0 (Nat.succ_pos k))
      rw [show env.fault (.xmldb_delete "tmp") (w.calls (.xmldb_delete "tmp")) = some e from he]
      exact (by decide : (-1 : Int) < 0)
    have hc : (xmldb_delete env "tmp" w).2.calls (.xmldb_delete "tmp")
        = w.calls (.xmldb_delete "tmp") + 1 := by
      unfold xmldb_delete
      rw [perform_calls]
      simp [bump]
    obtain ⟨⟨w1, hw1, hcalls⟩, hnone⟩ := ih (xmldb_delete env "tmp" w).2
      (fun i hi => by
        rw [hc, Nat.add_assoc, Nat.add_comm 1 i]
        exact hfail (i + 1) (Nat.succ_lt_succ hi))
      (by rw [hc, Nat.add_assoc, Nat.add_comm 1 k]; exact hok)
    refine ⟨⟨w1, ?_, ?_⟩, ?_⟩
    · rw [startup_mode_running_done, if_pos h0]
      exact hw1
    · rw [hcalls, hc]
      omega
    · intro fuel hf
      cases fuel with
      | zero => rfl
      | succ f =>
        rw [startup_mode_running_done, if_pos h0]
        exact hnone f (Nat.le_of_succ_le_succ hf)

/-- Mode `running` with a delete of `tmp` that fails every time: no bound on the passes
through `done` is enough for the function to return. -/
theorem startup_mode_running_never_returns (env : Env Tree) (extraxml_file : Option String)
    (fuel : Nat) (w : World Tree)
    (h : ∀ n, (env.fault (.xmldb_delete "tmp") n).isSome = true) :
    startup_mode_running env extraxml_file fuel w = none := by
  have key : ∀ (r : Int) (v : World Tree), startup_mode_running_done env fuel r v = none :=
    fun r v => startup_mode_running_done_loops env fuel r v h
  unfold startup_mode_running
  lift_lets
  extract_lets c p t a x r k b m
  split_ifs <;> exact key _ _

/-- Mode `startup` with a delete of `backup` or of `tmp` that fails every time: the only
run that returns is the one that leaves by the early `return -1`, before `done`. -/
theorem startup_mode_startup_never_returns (env : Env Tree) (extraxml_file : Option String)
    (fuel : Nat) (w : World Tree)
    (h : (∀ n, (env.fault (.xmldb_delete "backup") n).isSome = true) ∨
      (∀ n, (env.fault (.xmldb_delete "tmp") n).isSome = true))
    (hs : ¬ (xmldb_create_if_absent env "startup"
      (xmldb_copy env "running" "backup" w).2).1 < 0) :
    startup_mode_startup env extraxml_file fuel w = none := by
  have key : ∀ (r : Int) (v : World Tree), startup_mode_startup_done env fuel r v = none :=
    fun r v => startup_mode_startup_done_loops env fuel r v h
  unfold startup_mode_startup
  lift_lets
  extract_lets c s p t a x r k b m
  by_cases hc : c.1 < 0
  · rw [if_pos hc]; exact key _ _
  rw [if_neg hc, if_neg hs]
  split_ifs <;> exact key _ _

/-- C21, failing input. The `done` labels go back to themselves for as long as a delete
fails. With a delete of `tmp` that fails every time, mode `running` does not return within
any number of passes; the same for mode `startup` with a failing delete of `backup` or of
`tmp` (unless it has left by the early return). And among the runs that do return there is
no bound either: when the delete fails `k` times before it works, the label is passed
`k + 1` times, the delete is called `k + 1` times, and `k` passes are not enough. The
last two parts are the example: `running` holds the leaf `old`, the delete of `tmp` fails
every time with EACCES, and 25 passes give no return; with a delete that works mode
`running` returns 0 in one pass. -/
theorem startup_modes_cleanup_is_not_bounded :
    (∀ (T : Type) (env : Env T) (extraxml_file : Option String) (w : World T),
      (∀ n, (env.fault (.xmldb_delete "tmp") n).isSome = true) →
      ∀ fuel, startup_mode_running env extraxml_file fuel w = none) ∧
    (∀ (T : Type) (env : Env T) (extraxml_file : Option String) (w : World T),
      ((∀ n, (env.fault (.xmldb_delete "backup") n).isSome = true) ∨
        (∀ n, (env.fault (.xmldb_delete "tmp") n).isSome = true)) →
      ¬ (xmldb_create_if_absent env "startup" (xmldb_copy env "running" "backup" w).2).1 < 0 →
      ∀ fuel, startup_mode_startup env extraxml_file fuel w = none) ∧
    (∀ (T : Type) (env : Env T) (k : Nat) (rv : Int) (w : World T),
      (∀ i, i < k →
        (env.fault (.xmldb_delete "tmp") (w.calls (.xmldb_delete "tmp") + i)).isSome = true) →
      env.fault (.xmldb_delete "tmp") (w.calls (.xmldb_delete "tmp") + k) = none →
      (∃ w1, startup_mode_running_done env (k + 1) rv w = some (rv, w1) ∧
        w1.calls (.xmldb_delete "tmp") = w.calls (.xmldb_delete "tmp") + (k + 1)) ∧
      ∀ fuel, fuel ≤ k → startup_mode_running_done env fuel rv w = none) ∧
    (startup_mode_running
      { exEnv with fault := fun o _ => if o = .xmldb_delete "tmp" then some EACCES else none }
      none 25 exWorld).map (fun r => r.1) = none ∧
    (startup_mode_running exEnv none 1 exWorld).map (fun r => r.1) = some 0 :=
  ⟨fun _ env f w h fuel => startup_mode_running_never_returns env f fuel w h,
   fun _ env f w h hs fuel => startup_mode_startup_never_returns env f fuel w h hs,
   fun _ env k rv w hfail hok => startup_mode_running_done_passes env k rv w hfail hok,
   by decide, by decide⟩

/-! ## The parameters of a RESTCONF request -/

theorem toupper_of_islower (c : Char) (h : islower c = true) :
    islower (toupper c) = false ∧ toupper c ≠ '-' := by
  unfold toupper
  rw [if_pos h]
  unfold islower at h ⊢
  simp only [decide_eq_true_eq] at h
  obtain ⟨h1, h2⟩ := h
  generalize c.toNat = n at h1 h2
  interval_cases n <;> exact ⟨by decide, by decide⟩

/-- What `convert_fcgi` makes of one character of a key. -/
theorem convert_fcgi_key_eq (l : List Char) (cb : String) :
    convert_fcgi_key l cb
      = cb ++ String.mk (l.map (fun c =>
          if islower c then toupper c else if c = '-' then '_' else c)) := by
  induction l generalizing cb with
  | nil =>
    apply String.ext
    simp [convert_fcgi_key, String.data_append]
  | cons c rest ih =>
    unfold convert_fcgi_key
    by_cases h1 : islower c = true
    · rw [if_pos h1, ih]
      apply String.ext
      simp [h1, String.data_append]
    · rw [if_neg h1]
      by_cases h2 : c = '-'
      · rw [if_pos h2, ih]
        apply String.ext
        simp [h1, h2, String.data_append]
        decide
      · rw [if_neg h2, ih]
        apply String.ext
        simp [h1, h2, String.data_append]

theorem convert_fcgi_char (c : Char) :
    islower (if islower c then toupper c else if c = '-' then '_' else c) = false ∧
    (if islower c then toupper c else if c = '-' then '_' else c) ≠ '-' := by
  by_cases h1 : islower c = true
  · rw [if_pos h1]
    exact toupper_of_islower c h1
  · rw [if_neg h1]
    by_cases h2 : c = '-'
    · rw [if_pos h2]
      exact ⟨by decide, by decide⟩
    · rw [if_neg h2]
      exact ⟨by simpa using h1, h2⟩

/-- C30: for every header, when the buffer can be allocated and the parameter can be set,
`convert_fcgi` returns 0 and sets to the value of the header the parameter named `HTTP_`
followed by the key with each lowercase letter `a` to `z` made uppercase, each `-` made
`_`, and every other character as it is. That name has five characters more than the key,
holds no lowercase letter and no `-` after the prefix, and the translation of an already
translated key is that key. -/
theorem convert_fcgi_name (env : evhtp_env) (p : restconf_params) (hdr : evhtp_header_t)
    (hcb : env.cbuf_new_fails = false)
    (hset : env.param_set_fails ("HTTP_" ++ String.mk (hdr.key.data.map (fun c =>
        if islower c then toupper c else if c = '-' then '_' else c))) = false) :
    convert_fcgi env p hdr
      = (0, fun n => if n = "HTTP_" ++ String.mk (hdr.key.data.map (fun c =>
          if islower c then toupper c else if c = '-' then '_' else c))
          then some hdr.val else p n) ∧
    ("HTTP_" ++ String.mk (hdr.key.data.map (fun c =>
        if islower c then toupper c else if c = '-' then '_' else c))).length
      = hdr.key.length + 5 ∧
    (∀ c ∈ hdr.key.data.map (fun c =>
        if islower c then toupper c else if c = '-' then '_' else c),
      islower c = false ∧ c ≠ '-') ∧
    convert_fcgi_key (hdr.key.data.map (fun c =>
        if islower c then toupper c else if c = '-' then '_' else c)) "HTTP_"
      = convert_fcgi_key hdr.key.data "HTTP_" := by
  refine ⟨?_, ?_, ?_, ?_⟩
  · unfold convert_fcgi
    rw [hcb]
    simp only [Bool.false_eq_true, if_false]
    rw [convert_fcgi_key_eq]
    unfold restconf_param_set
    rw [hset]
    simp
  · rw [String.length_append]
    show 5 + (List.map _ hdr.key.data).length = hdr.key.data.length + 5
    rw [List.length_map, Nat.add_comm]
  · intro c hc
    obtain ⟨a, _, rfl⟩ := List.mem_map.mp hc
    exact convert_fcgi_char a
  · rw [convert_fcgi_key_eq, convert_fcgi_key_eq, List.map_map]
    congr 2
    apply List.map_congr_left
    intro a _
    have h := convert_fcgi_char a
    simp only [Function.comp]
    generalize (if islower a then toupper a else if a = '-' then '_' else a) = b at h
    rw [if_neg (by simp [h.1]), if_neg h.2]

/-- C30, example: `Host` gives `HTTP_HOST`, `Content-Type` gives `HTTP_CONTENT_TYPE`. -/
theorem convert_fcgi_name_witness :
    (convert_fcgi exEvhtpEnv (fun _ => none) ⟨"Host", "example.org"⟩).1 = 0 ∧
    (convert_fcgi exEvhtpEnv (fun _ => none) ⟨"Host", "example.org"⟩).2 "HTTP_HOST"
      = some "example.org" ∧
    convert_fcgi_key "Content-Type".data "HTTP_" = "HTTP_CONTENT_TYPE" := by
  have h := (convert_fcgi_name exEvhtpEnv (fun _ => none) ⟨"Host", "example.org"⟩ rfl rfl).1
  refine ⟨by rw [h], ?_, by decide⟩
  rw [h]
  decide

/-- The two callbacks clear the parameters when nothing before the clearing has failed. -/
theorem cx_path_restconf_clears (env : evhtp_env) (p : restconf_params)
    (req : evhtp_request_t) (hcv : env.cvec_new_fails = false)
    (hset : ¬ (evhtp_params_set env p req true).1 < 0)
    (hapi : (evhtp_params_set env p req true).1 = 1 → ¬ env.api_root_restconf < 0)
    (hdel : env.param_del_all_fails = false) :
    cx_path_restconf env p req = fun _ => none := by
  unfold cx_path_restconf
  rw [hcv]
  simp only [Bool.false_eq_true, if_false]
  rw [if_neg hset, if_neg (fun h => hapi h.1 h.2)]
  unfold restconf_param_del_all
  rw [hdel]
  rfl

theorem cx_path_wellknown_clears (env : evhtp_env) (p : restconf_params)
    (req : evhtp_request_t)
    (hset : ¬ (evhtp_params_set env p req false).1 < 0)
    (hapi : (evhtp_params_set env p req false).1 = 1 → ¬ env.api_well_known < 0)
    (hdel : env.param_del_all_fails = false) :
    cx_path_wellknown env p req = fun _ => none := by
  unfold cx_path_wellknown
  simp only
  rw [if_neg hset, if_neg (fun h => hapi h.1 h.2)]
  unfold restconf_param_del_all
  rw [hdel]
  rfl

/-- When the setting of the parameters or the API handler fails, the callbacks return
with the parameters as `evhtp_params_set` left them. -/
theorem cx_path_restconf_keeps (env : evhtp_env) (p : restconf_params)
    (req : evhtp_request_t) (hcv : env.cvec_new_fails = false)
    (hfail : (evhtp_params_set env p req true).1 < 0 ∨
      ((evhtp_params_set env p req true).1 = 1 ∧ env.api_root_restconf < 0)) :
    cx_path_restconf env p req = (evhtp_params_set env p req true).2 := by
  unfold cx_path_restconf
  rw [hcv]
  simp only [Bool.false_eq_true, if_false]
  rcases hfail with h | h
  · rw [if_pos h]
  · by_cases h0 : (evhtp_params_set env p req true).1 < 0
    · rw [if_pos h0]
    · rw [if_neg h0, if_pos h]

theorem cx_path_wellknown_keeps (env : evhtp_env) (p : restconf_params)
    (req : evhtp_request_t)
    (hfail : (evhtp_params_set env p req false).1 < 0 ∨
      ((evhtp_params_set env p req false).1 = 1 ∧ env.api_well_known < 0)) :
    cx_path_wellknown env p req = (evhtp_params_set env p req false).2 := by
  unfold cx_path_wellknown
  simp only
  rcases hfail with h | h
  · rw [if_pos h]
  · by_cases h0 : (evhtp_params_set env p req false).1 < 0
    · rw [if_pos h0]
    · rw [if_neg h0, if_pos h]

/-- C23, failing input. The clearing of the parameters comes after two `goto done`: when
`evhtp_params_set` or the API handler returns a negative value the callbacks return
without clearing, and the handle keeps what was set for the request. First part, in
general: the parameters are cleared when nothing fails, and are left as they were set
otherwise. Then the runs: a request `GET /restconf/data` with the header
`Authorization: Basic c2VjcmV0` whose handler returns -1 leaves `REQUEST_METHOD`,
`REQUEST_URI` and `HTTP_AUTHORIZATION` in the handle; a following request without that
header is handled with `HTTP_AUTHORIZATION` of the first one still set; a request on TLS
whose certificate subject cannot be parsed leaves `REQUEST_METHOD` and `HTTPS`; and the
same first request with a handler that returns 0 leaves nothing. -/
theorem cx_path_failure_leaves_parameters :
    (∀ (env : evhtp_env) (p : restconf_params) (req : evhtp_request_t),
      env.cvec_new_fails = false →
      (¬ (evhtp_params_set env p req true).1 < 0 →
        ((evhtp_params_set env p req true).1 = 1 → ¬ env.api_root_restconf < 0) →
        env.param_del_all_fails = false → cx_path_restconf env p req = fun _ => none) ∧
      ((evhtp_params_set env p req true).1 < 0 ∨
        ((evhtp_params_set env p req true).1 = 1 ∧ env.api_root_restconf < 0) →
        cx_path_restconf env p req = (evhtp_params_set env p req true).2)) ∧
    (∀ (env : evhtp_env) (p : restconf_params) (req : evhtp_request_t),
      (¬ (evhtp_params_set env p req false).1 < 0 →
        ((evhtp_params_set env p req false).1 = 1 → ¬ env.api_well_known < 0) →
        env.param_del_all_fails = false → cx_path_wellknown env p req = fun _ => none) ∧
      ((evhtp_params_set env p req false).1 < 0 ∨
        ((evhtp_params_set env p req false).1 = 1 ∧ env.api_well_known < 0) →
        cx_path_wellknown env p req = (evhtp_params_set env p req false).2)) ∧
    ["REQUEST_METHOD", "REQUEST_URI", "HTTP_AUTHORIZATION"].map
      (cx_path_restconf { exEvhtpEnv with api_root_restconf := -1 } (fun _ => none)
        { uri := some ⟨some ⟨"/restconf/data"⟩, none⟩, method := "GET",
          proto := .EVHTP_PROTO_11, ssl := none,
          headers_in := [⟨"Authorization", "Basic c2VjcmV0"⟩] })
      = [some "GET", some "/restconf/data", some "Basic c2VjcmV0"] ∧
    ["REQUEST_METHOD", "REQUEST_URI", "HTTP_AUTHORIZATION"].map
      (evhtp_params_set exEvhtpEnv
        (cx_path_restconf { exEvhtpEnv with api_root_restconf := -1 } (fun _ => none)
          { uri := some ⟨some ⟨"/restconf/data"⟩, none⟩, method := "GET",
            proto := .EVHTP_PROTO_11, ssl := none,
            headers_in := [⟨"Authorization", "Basic c2VjcmV0"⟩] })
        { uri := some ⟨some ⟨"/restconf/data/x"⟩, none⟩, method := "DELETE",
          proto := .EVHTP_PROTO_11, ssl := none, headers_in := [⟨"Host", "h"⟩] } true).2
      = [some "DELETE", some "/restconf/data/x", some "Basic c2VjcmV0"] ∧
    ["REQUEST_METHOD", "HTTPS"].map
      (cx_path_wellknown { exEvhtpEnv with str2cvec := fun _ => none } (fun _ => none)
        { uri := some ⟨some ⟨"/.well-known/host-meta"⟩, none⟩, method := "GET",
          proto := .EVHTP_PROTO_11, ssl := some (some "/CN=x"), headers_in := [] })
      = [some "GET", some "https"] ∧
    ["REQUEST_METHOD", "REQUEST_URI", "HTTP_AUTHORIZATION"].map
      (cx_path_restconf exEvhtpEnv (fun _ => none)
        { uri := some ⟨some ⟨"/restconf/data"⟩, none⟩, method := "GET",
          proto := .EVHTP_PROTO_11, ssl := none,
          headers_in := [⟨"Authorization", "Basic c2VjcmV0"⟩] })
      = [none, none, none] :=
  ⟨fun env p req hcv =>
      ⟨fun h1 h2 h3 => cx_path_restconf_clears env p req hcv h1 h2 h3,
       fun h => cx_path_restconf_keeps env p req hcv h⟩,
   fun env p req =>
      ⟨fun h1 h2 h3 => cx_path_wellknown_clears env p req h1 h2 h3,
       fun h => cx_path_wellknown_keeps env p req h⟩,
   by decide, by decide, by decide, by decide⟩

/-! ## The output pipes of the CLI -/

/-- The argument list with which `pipe_arg_fn` runs a command that is a regular file: the
array is `cmd, option, value, NULL`, and execv reads it up to the first NULL. -/
theorem pipe_arg_fn_args (env : pipe_env) (cmd : String) (option value : Option String)
    (hlen : cmd.length ≠ 0) (hstat : env.stat cmd = some true)
    (hcalloc : env.calloc_fails = false) (hexec : env.execv_fails = false) :
    pipe_arg_fn env (some cmd) option value
      = .executed cmd (cmd :: (match option with
          | none => []
          | some o => o :: (match value with
            | none => []
            | some v => [v]))) := by
  unfold pipe_arg_fn
  simp only [hlen, if_false, hstat, hcalloc, Bool.false_eq_true, not_true_eq_false]
  unfold execv
  rw [hexec]
  cases option <;> cases value <;> rfl

/-- C24, failing input. `pipe_arg_fn` fills the array with `cmd`, `option`, `value`, NULL
whatever is NULL, and execv reads an argument list up to the first NULL pointer: with
`option` NULL the list is `cmd` alone and a `value` that is not NULL is not passed.
First part, for every command that is a regular file; then `pipe_grep_fn` with an empty
option string and the pattern `foo`: grep is run without a pattern; with the option `-e`
the pattern is passed. -/
theorem pipe_arg_fn_drops_value_without_option :
    (∀ (env : pipe_env) (cmd v : String), cmd.length ≠ 0 → env.stat cmd = some true →
      env.calloc_fails = false → env.execv_fails = false →
      pipe_arg_fn env (some cmd) none (some v) = .executed cmd [cmd]) ∧
    (∀ (env : pipe_env) (cmd : String) (option value : Option String),
      cmd.length ≠ 0 → env.stat cmd = some true →
      env.calloc_fails = false → env.execv_fails = false →
      pipe_arg_fn env (some cmd) option value
        = .executed cmd (cmd :: (match option with
            | none => []
            | some o => o :: (match value with
              | none => []
              | some v => [v])))) ∧
    pipe_grep_fn exPipeEnv [⟨"pattern", some "foo"⟩] [⟨"", some ""⟩, ⟨"", some "pattern"⟩]
      = .executed "/usr/bin/grep" ["/usr/bin/grep"] ∧
    pipe_grep_fn exPipeEnv [⟨"pattern", some "foo"⟩] [⟨"", some "-e"⟩, ⟨"", some "pattern"⟩]
      = .executed "/usr/bin/grep" ["/usr/bin/grep", "-e", "foo"] :=
  ⟨fun env cmd v h1 h2 h3 h4 => pipe_arg_fn_args env cmd none (some v) h1 h2 h3 h4,
   fun env cmd option value h1 h2 h3 h4 => pipe_arg_fn_args env cmd option value h1 h2 h3 h4,
   by decide, by decide⟩

/-! ## The hooks set by `cli_syntax_load` -/

/-- The loop over the plugins, when the setting of a hook works: it returns 0, it leaves
the interrupt hook of CLIgen as it was, and the suspend hook is the first suspend callback
met (`fns` when it is set already). -/
theorem cli_syntax_load_hooks_spec (ps : List clixon_plugin) (fns fni : Option Nat)
    (ch : cligen_hooks) (hinv : ∀ s, fns = some s → ch.susp_hook = some s) :
    (cli_syntax_load_hooks false ps fns fni ch).1 = 0 ∧
    (cli_syntax_load_hooks false ps fns fni ch).2.interrupt_hook = ch.interrupt_hook ∧
    ∀ s, (fns <|> ps.findSome? (fun cp => cp.ca_suspend)) = some s →
      (cli_syntax_load_hooks false ps fns fni ch).2.susp_hook = some s := by
  induction ps generalizing fns fni ch with
  | nil =>
    refine ⟨rfl, rfl, fun s hs => ?_⟩
    simp only [List.findSome?_nil, Option.orElse_none, Option.or_none] at hs
    cases fns with
    | none => simp at hs
    | some a => exact hinv s (by simpa using hs)
  | cons cp rest ih =>
    unfold cli_syntax_load_hooks
    lift_lets
    extract_lets fns1 r1 fni1 r2
    have hr1 : r1.1 = 0 ∧ r1.2.interrupt_hook = ch.interrupt_hook ∧
        ∀ s, fns1 = some s → r1.2.susp_hook = some s := by
      show (if fns = none ∧ fns1 ≠ none then cli_susp_hook false ch fns1 else (0, ch)).1 = 0 ∧
        (if fns = none ∧ fns1 ≠ none then cli_susp_hook false ch fns1
          else (0, ch)).2.interrupt_hook = ch.interrupt_hook ∧
        ∀ s, fns1 = some s →
          (if fns = none ∧ fns1 ≠ none then cli_susp_hook false ch fns1
            else (0, ch)).2.susp_hook = some s
      split
      · exact ⟨rfl, rfl, fun s hs => hs⟩
      · rename_i hc
        refine ⟨rfl, rfl, fun s hs => ?_⟩
        by_cases hf : fns = none
        · exact absurd ⟨hf, by rw [hs]; exact Option.some_ne_none s⟩ hc
        · have : fns1 = fns := if_neg hf
          exact hinv s (this ▸ hs)
    obtain ⟨h10, h1i, h1s⟩ := hr1
    have hr2 : r2.1 = 0 ∧ r2.2.interrupt_hook = ch.interrupt_hook ∧
        ∀ s, fns1 = some s → r2.2.susp_hook = some s := by
      show (if fni = none ∧ fni1 ≠ none then cli_susp_hook false r1.2 fns1 else (0, r1.2)).1 = 0 ∧
        (if fni = none ∧ fni1 ≠ none then cli_susp_hook false r1.2 fns1
          else (0, r1.2)).2.interrupt_hook = ch.interrupt_hook ∧
        ∀ s, fns1 = some s →
          (if fni = none ∧ fni1 ≠ none then cli_susp_hook false r1.2 fns1
            else (0, r1.2)).2.susp_hook = some s
      split
      · exact ⟨rfl, h1i, fun s hs => hs⟩
      · exact ⟨rfl, h1i, h1s⟩
    obtain ⟨h20, h2i, h2s⟩ := hr2
    rw [if_neg (by rw [h10]; exact (by decide : ¬ (0 : Int) < 0)),
      if_neg (by rw [h20]; exact (by decide : ¬ (0 : Int) < 0))]
    obtain ⟨i1, i2, i3⟩ := ih fns1 fni1 r2.2 h2s
    refine ⟨i1, i2.trans h2i, fun s hs => i3 s ?_⟩
    rw [← hs]
    show ((if fns = none then cp.ca_suspend else fns) <|> _) = _
    cases fns with
    | some a => simp
    | none =>
      cases hcs : cp.ca_suspend with
      | none => simp [List.findSome?, hcs]
      | some b => simp [List.findSome?, hcs]

/-- C25, failing input. For the interrupt callback the loop calls `cli_susp_hook(h, fns)`
again, with the suspend callback, where the interrupt hook should be set with `fni`. So a
successful `cli_syntax_load` that has loaded a mode leaves the interrupt hook of CLIgen as
it was, whatever the plugins provide; the suspend hook is the suspend callback of the
first plugin that provides one, as claimed. Then the runs: one plugin with the interrupt
callback 7 and no suspend callback: both hooks are NULL after the load; two plugins, the
first with the callbacks 3 and 7: the suspend hook is 3, the interrupt hook is NULL. -/
theorem cli_syntax_load_leaves_interrupt_hook :
    (∀ (env : cli_load_env) (h : cli_handle) (stx : cli_syntax_t),
      h.stx = none → env.hook_fails = false →
      (cli_syntax_load env h).1 = 0 → (cli_syntax_load env h).2.stx = some stx →
      stx.stx_nmodes > 0 →
      (cli_syntax_load env h).2.cligen.interrupt_hook = h.cligen.interrupt_hook ∧
      ∀ s, (cli_syntax_load env h).2.plugins.findSome? (fun cp => cp.ca_suspend) = some s →
        (cli_syntax_load env h).2.cligen.susp_hook = some s) ∧
    (cli_syntax_load
      { malloc_fails := false, plugins_load := some [⟨"p", none, some 7⟩],
        load_syntax := fun stx => some (syntax_mode_find exConsts stx "base" true (some 1)).2,
        hook_fails := false }
      { stx := none, cligen := ⟨none, none⟩, plugins := [] })
    = (0, { stx := some ⟨1, none, [⟨1, "base", "cli> "⟩]⟩, cligen := ⟨none, none⟩,
            plugins := [⟨"p", none, some 7⟩] }) ∧
    (cli_syntax_load
      { malloc_fails := false,
        plugins_load := some [⟨"p", some 3, some 7⟩, ⟨"q", some 4, some 8⟩],
        load_syntax := fun stx => some (syntax_mode_find exConsts stx "base" true (some 1)).2,
        hook_fails := false }
      { stx := none, cligen := ⟨none, none⟩, plugins := [] })
    = (0, { stx := some ⟨1, none, [⟨1, "base", "cli> "⟩]⟩, cligen := ⟨some 3, none⟩,
            plugins := [⟨"p", some 3, some 7⟩, ⟨"q", some 4, some 8⟩] }) := by
  refine ⟨?_, by decide, by decide⟩
  intro env h stx hstx hhook
  unfold cli_syntax_load
  rw [hstx, hhook]
  simp only [Option.isSome_none, Bool.false_eq_true, if_false]
  by_cases hm : env.malloc_fails = true
  · rw [if_pos hm]
    intro h1
    exact absurd h1 (show ¬ ((-1 : Int) = 0) by decide)
  rw [if_neg hm]
  cases env.plugins_load with
  | none =>
    intro h1
    exact absurd h1 (show ¬ ((-1 : Int) = 0) by decide)
  | some plugins =>
    cases env.load_syntax stx_zero with
    | none =>
      intro h1
      exact absurd h1 (show ¬ ((-1 : Int) = 0) by decide)
    | some stx1 =>
      simp only
      by_cases hn : stx1.stx_nmodes ≤ 0
      · rw [if_pos hn]
        intro _ h2 h3
        simp only [Option.some.injEq] at h2
        rw [h2] at hn
        omega
      · rw [if_neg hn]
        obtain ⟨s1, s2, s3⟩ := cli_syntax_load_hooks_spec plugins none none h.cligen
          (fun _ hc => by cases hc)
        rw [if_neg (by rw [s1]; exact (by decide : ¬ (0 : Int) < 0))]
        intro _ _ _
        exact ⟨s2, fun s hs => s3 s (by simpa using hs)⟩

/-! ## The syntax modes -/

theorem strncpy_short (n : Nat) (s : String) (h : s.length < n) : strncpy n s = s := by
  unfold strncpy
  rw [List.take_of_length_le (by
    have : s.data.length = s.length := rfl
    omega)]

theorem strncpy_long (n : Nat) (s : String) (hn : 0 < n) (h : n ≤ s.length) :
    strncpy n s ≠ s := by
  intro hc
  have h1 : (strncpy n s).data.length = s.data.length := by rw [hc]
  have h2 : (strncpy n s).data = s.data.take (n - 1) := rfl
  have h3 : s.data.length = s.length := rfl
  have h4 := List.length_take_le (n - 1) s.data
  rw [h2] at h1
  omega

/-- In a list of modes with distinct addresses, following a pointer to a mode of the list
gives that mode. -/
theorem find_addr_of_mem (l : List cli_syntaxmode_t) (m : cli_syntaxmode_t) (hm : m ∈ l)
    (hnd : (l.map (fun x => x.addr)).Nodup) :
    l.find? (fun x => x.addr = m.addr) = some m := by
  induction l with
  | nil => exact absurd hm (List.not_mem_nil _)
  | cons x rest ih =>
    rw [List.map_cons, List.nodup_cons] at hnd
    by_cases hx : x.addr = m.addr
    · rcases List.mem_cons.mp hm with h | h
      · rw [h]
        simp
      · exfalso
        apply hnd.1
        rw [hx]
        exact List.mem_map.mpr ⟨m, h, rfl⟩
    · rcases List.mem_cons.mp hm with h | h
      · exact absurd (by rw [h]) hx
      · rw [List.find?_cons_of_neg _ (by simpa using hx)]
        exact ih h hnd.2

/-- What `syntax_mode_find` does to the syntax: nothing, or, when no mode has the name,
`create` is set and malloc gives a block, one more mode at the head, counted. -/
theorem syntax_mode_find_cases (k : cli_consts) (stx : cli_syntax_t) (mode : String)
    (create : Bool) (malloc : Option Nat) :
    ((syntax_mode_find k stx mode create malloc).2 = stx ∧
      ((syntax_mode_find k stx mode create malloc).1
          = stx.stx_modes.find? (fun m => m.csm_name = mode) ∨
        (syntax_mode_find k stx mode create malloc).1 = none)) ∨
    (∃ a, stx.stx_modes.find? (fun m => m.csm_name = mode) = none ∧ create = true ∧
      malloc = some a ∧
      (syntax_mode_find k stx mode create malloc).1
        = some ⟨a, strncpy k.csm_name_size mode,
            strncpy k.CLI_PROMPT_LEN k.CLI_DEFAULT_PROMPT⟩ ∧
      (syntax_mode_find k stx mode create malloc).2
        = { stx with
            stx_modes := ⟨a, strncpy k.csm_name_size mode,
              strncpy k.CLI_PROMPT_LEN k.CLI_DEFAULT_PROMPT⟩ :: stx.stx_modes,
            stx_nmodes := stx.stx_nmodes + 1 }) := by
  unfold syntax_mode_find
  cases hf : stx.stx_modes.find? (fun m => m.csm_name = mode) with
  | some m => exact Or.inl ⟨rfl, Or.inl rfl⟩
  | none =>
    cases create with
    | false => exact Or.inl ⟨rfl, Or.inl rfl⟩
    | true =>
      cases malloc with
      | none => exact Or.inl ⟨rfl, Or.inl rfl⟩
      | some a => exact Or.inr ⟨a, rfl, rfl, rfl, rfl, rfl⟩

/-- A find without create never changes the syntax. -/
theorem syntax_mode_find_nocreate (k : cli_consts) (stx : cli_syntax_t) (mode : String)
    (malloc : Option Nat) : (syntax_mode_find k stx mode false malloc).2 = stx := by
  rcases syntax_mode_find_cases k stx mode false malloc with h | ⟨_, _, hc, _⟩
  · exact h.1
  · cases hc

/-- The function `syntax_mode_find` keeps the invariant when the name fits the array of
the name. -/
theorem syntax_mode_find_invariant (k : cli_consts) (stx : cli_syntax_t) (mode : String)
    (create : Bool) (malloc : Option Nat) (hinv : spec_stx_invariant stx)
    (hlen : mode.length < k.csm_name_size) :
    spec_stx_invariant (syntax_mode_find k stx mode create malloc).2 := by
  rcases syntax_mode_find_cases k stx mode create malloc with h | ⟨a, hf, _, _, _, h2⟩
  · rw [h.1]
    exact hinv
  · rw [h2, strncpy_short _ _ hlen]
    refine ⟨?_, ?_⟩
    · show stx.stx_nmodes + 1 = ((_ :: stx.stx_modes : List cli_syntaxmode_t).length : Int)
      rw [hinv.1]
      simp
    · show ((_ :: stx.stx_modes : List cli_syntaxmode_t).map (fun m => m.csm_name)).Nodup
      rw [List.map_cons, List.nodup_cons]
      refine ⟨?_, hinv.2⟩
      intro hc
      obtain ⟨m, hm, hname⟩ := List.mem_map.mp hc
      have := List.find?_eq_none.mp hf m hm
      simp only [decide_eq_true_eq] at this
      exact this hname

/-- C26, counterexample to the claim as stated. With a name array of 8 bytes, the name
`configure` (9 characters) is stored as `configu`: `cli_set_syntax_mode` returns 1 and
`cli_syntax_mode` returns `configu`; a second call does not find a mode named `configure`
and adds a second mode named `configu`. -/
theorem cli_set_syntax_mode_truncates_long_name :
    (cli_set_syntax_mode exConsts stx_zero "configure" (some 1)).1 = 1 ∧
    cli_syntax_mode (cli_set_syntax_mode exConsts stx_zero "configure" (some 1)).2
      = some "configu" ∧
    cli_set_syntax_mode exConsts
        (cli_set_syntax_mode exConsts stx_zero "configure" (some 1)).2 "configure" (some 2)
      = (1, ⟨2, some 2, [⟨2, "configu", "cli> "⟩, ⟨1, "configu", "cli> "⟩]⟩) := by
  decide

/-- C26: for every name that fits the array of the name (shorter than its size), whether
or not a mode of that name exists, in a list of modes at distinct addresses: when
`cli_set_syntax_mode` returns 1, `cli_syntax_mode` returns that name, and a second call,
whatever malloc would give, returns 1 and leaves the syntax exactly as the first call has
left it: the same mode is active and no mode is added. -/
theorem cli_set_syntax_mode_selects_name (k : cli_consts) (stx : cli_syntax_t)
    (name : String) (malloc : Option Nat)
    (hlen : name.length < k.csm_name_size)
    (haddr : (stx.stx_modes.map (fun x => x.addr)).Nodup)
    (h1 : (cli_set_syntax_mode k stx name malloc).1 = 1) :
    cli_syntax_mode (cli_set_syntax_mode k stx name malloc).2 = some name ∧
    ∀ malloc2, cli_set_syntax_mode k (cli_set_syntax_mode k stx name malloc).2 name malloc2
      = (1, (cli_set_syntax_mode k stx name malloc).2) := by
  unfold cli_set_syntax_mode syntax_mode_find at h1 ⊢
  cases hf : stx.stx_modes.find? (fun m => m.csm_name = name) with
  | some m =>
    have hm := List.mem_of_find?_eq_some hf
    have hn : m.csm_name = name := by simpa using List.find?_some hf
    simp only [hf]
    refine ⟨?_, fun _ => trivial⟩
    unfold cli_syntax_mode
    simp only
    rw [find_addr_of_mem _ m hm haddr]
    simp [hn]
  | none =>
    rw [hf] at h1
    cases malloc with
    | none => simp at h1
    | some a =>
      simp only [hf, strncpy_short _ _ hlen]
      refine ⟨?_, fun _ => ?_⟩
      · simp [cli_syntax_mode]
      · simp

/-- C26, example: in the empty syntax, `base` is selected and its name is returned. -/
theorem cli_set_syntax_mode_selects_name_witness :
    cli_syntax_mode (cli_set_syntax_mode exConsts stx_zero "base" (some 1)).2 = some "base" ∧
    cli_set_syntax_mode exConsts (cli_set_syntax_mode exConsts stx_zero "base" (some 1)).2
        "base" (some 2)
      = (1, (cli_set_syntax_mode exConsts stx_zero "base" (some 1)).2) :=
  ⟨(cli_set_syntax_mode_selects_name exConsts stx_zero "base" (some 1)
      (by decide) (by decide) (by decide)).1,
   (cli_set_syntax_mode_selects_name exConsts stx_zero "base" (some 1)
      (by decide) (by decide) (by decide)).2 (some 2)⟩

theorem cli_set_syntax_mode_invariant (k : cli_consts) (stx : cli_syntax_t) (name : String)
    (malloc : Option Nat) (hinv : spec_stx_invariant stx)
    (hlen : name.length < k.csm_name_size) :
    spec_stx_invariant (cli_set_syntax_mode k stx name malloc).2 := by
  have h := syntax_mode_find_invariant k stx name true malloc hinv hlen
  unfold cli_set_syntax_mode
  split
  · rename_i heq
    rw [heq] at h
    exact h
  · rename_i heq
    rw [heq] at h
    exact h

theorem cli_set_prompt_invariant (k : cli_consts) (stx : cli_syntax_t) (name prompt : String)
    (malloc : Option Nat) (hinv : spec_stx_invariant stx)
    (hlen : name.length < k.csm_name_size) :
    spec_stx_invariant (cli_set_prompt k stx name prompt malloc).2 := by
  have h := syntax_mode_find_invariant k stx name true malloc hinv hlen
  unfold cli_set_prompt
  split
  · rename_i heq
    rw [heq] at h
    exact h
  · rename_i m stx1 heq
    rw [heq] at h
    obtain ⟨h1, h2⟩ := h
    refine ⟨?_, ?_⟩
    · show stx1.stx_nmodes = ((stx1.stx_modes.map _).length : Int)
      rw [List.length_map]
      exact h1
    · show ((stx1.stx_modes.map _).map (fun x : cli_syntaxmode_t => x.csm_name)).Nodup
      rw [List.map_map]
      have : ((fun m : cli_syntaxmode_t => m.csm_name) ∘ fun x =>
          if x.addr = m.addr then { x with csm_prompt := strncpy k.CLI_PROMPT_LEN prompt }
          else x) = fun m => m.csm_name := by
        funext x
        simp only [Function.comp]
        split <;> rfl
      rw [this]
      exact h2

/-- The loop of `cli_syntax_unload`, with a count that is the number of the modes: it ends
with no mode and a count of 0. -/
theorem cli_syntax_unload_loop_spec (l : List cli_syntaxmode_t) (a : Option Nat) :
    cli_syntax_unload_loop l.length ⟨l.length, a, l⟩ = some ⟨0, a, []⟩ := by
  induction l with
  | nil => rfl
  | cons m rest ih =>
    have hpos : ((m :: rest).length : Int) > 0 := by
      simp only [List.length_cons]
      omega
    show cli_syntax_unload_loop (rest.length + 1) ⟨((m :: rest).length : Int), a, m :: rest⟩ = _
    rw [cli_syntax_unload_loop]
    dsimp only
    rw [if_pos hpos]
    have : ((m :: rest).length : Int) - 1 = (rest.length : Int) := by
      simp only [List.length_cons]
      omega
    rw [this]
    exact ih

/-- After `cli_syntax_unload`, in a syntax whose count is the number of its modes, the
list is empty and the count is 0. -/
theorem cli_syntax_unload_spec (stx : cli_syntax_t)
    (h : stx.stx_nmodes = stx.stx_modes.length) :
    cli_syntax_unload stx = some ⟨0, stx.stx_active_mode, []⟩ := by
  unfold cli_syntax_unload
  obtain ⟨n, a, l⟩ := stx
  simp only at h
  subst h
  simp only [Int.toNat_ofNat]
  exact cli_syntax_unload_loop_spec l a

/-- Every call keeps the invariant, and reads through no NULL pointer, when its name fits
the array of the name. -/
theorem stx_step_invariant (k : cli_consts) (stx : cli_syntax_t) (c : stx_call)
    (hinv : spec_stx_invariant stx) (hlen : ∀ n ∈ c.names, n.length < k.csm_name_size) :
    ∃ stx1, stx_step k stx c = some stx1 ∧ spec_stx_invariant stx1 := by
  cases c with
  | find mode create malloc =>
    exact ⟨_, rfl, syntax_mode_find_invariant k stx mode create malloc hinv
      (hlen mode (List.mem_singleton.mpr rfl))⟩
  | set_syntax_mode name malloc =>
    exact ⟨_, rfl, cli_set_syntax_mode_invariant k stx name malloc hinv
      (hlen name (List.mem_singleton.mpr rfl))⟩
  | set_prompt name prompt malloc =>
    exact ⟨_, rfl, cli_set_prompt_invariant k stx name prompt malloc hinv
      (hlen name (List.mem_singleton.mpr rfl))⟩
  | unload =>
    refine ⟨_, cli_syntax_unload_spec stx hinv.1, rfl, ?_⟩
    exact List.nodup_nil

theorem stx_run_invariant (k : cli_consts) (calls : List stx_call) (stx : cli_syntax_t)
    (hinv : spec_stx_invariant stx)
    (hlen : ∀ c ∈ calls, ∀ n ∈ c.names, n.length < k.csm_name_size) :
    ∃ stx1, stx_run k calls stx = some stx1 ∧ spec_stx_invariant stx1 := by
  induction calls generalizing stx with
  | nil => exact ⟨stx, rfl, hinv⟩
  | cons c rest ih =>
    obtain ⟨s1, hs1, hi1⟩ := stx_step_invariant k stx c hinv (hlen c (List.mem_cons_self _ _))
    obtain ⟨s2, hs2, hi2⟩ := ih s1 hi1 (fun c1 hc1 => hlen c1 (List.mem_cons_of_mem _ hc1))
    refine ⟨s2, ?_, hi2⟩
    unfold stx_run
    rw [hs1]
    exact hs2

/-- Every call keeps the count equal to the number of the modes, whatever the length of
the names. -/
theorem stx_step_count (k : cli_consts) (stx : cli_syntax_t) (c : stx_call)
    (hcount : stx.stx_nmodes = stx.stx_modes.length) :
    ∃ stx1, stx_step k stx c = some stx1 ∧ stx1.stx_nmodes = stx1.stx_modes.length := by
  have hfind : ∀ (mode : String) (create : Bool) (malloc : Option Nat),
      (syntax_mode_find k stx mode create malloc).2.stx_nmodes
        = (syntax_mode_find k stx mode create malloc).2.stx_modes.length := by
    intro mode create malloc
    rcases syntax_mode_find_cases k stx mode create malloc with h | ⟨a, _, _, _, _, h2⟩
    · rw [h.1]
      exact hcount
    · rw [h2]
      show stx.stx_nmodes + 1 = ((_ :: stx.stx_modes : List cli_syntaxmode_t).length : Int)
      rw [hcount]
      simp
  cases c with
  | find mode create malloc => exact ⟨_, rfl, hfind mode create malloc⟩
  | set_syntax_mode name malloc =>
    refine ⟨_, rfl, ?_⟩
    have h := hfind name true malloc
    unfold cli_set_syntax_mode
    split
    · rename_i heq
      rw [heq] at h
      exact h
    · rename_i heq
      rw [heq] at h
      exact h
  | set_prompt name prompt malloc =>
    refine ⟨_, rfl, ?_⟩
    have h := hfind name true malloc
    unfold cli_set_prompt
    split
    · rename_i heq
      rw [heq] at h
      exact h
    · rename_i m stx1 heq
      rw [heq] at h
      show stx1.stx_nmodes = ((stx1.stx_modes.map _).length : Int)
      rw [List.length_map]
      exact h
  | unload => exact ⟨_, cli_syntax_unload_spec stx hcount, rfl⟩

theorem stx_run_count (k : cli_consts) (calls : List stx_call) (stx : cli_syntax_t)
    (hcount : stx.stx_nmodes = stx.stx_modes.length) :
    ∃ stx1, stx_run k calls stx = some stx1 ∧ stx1.stx_nmodes = stx1.stx_modes.length := by
  induction calls generalizing stx with
  | nil => exact ⟨stx, rfl, hcount⟩
  | cons c rest ih =>
    obtain ⟨s1, hs1, hi1⟩ := stx_step_count k stx c hcount
    obtain ⟨s2, hs2, hi2⟩ := ih s1 hi1
    refine ⟨s2, ?_, hi2⟩
    unfold stx_run
    rw [hs1]
    exact hs2

/-- C27, counterexample to the claim as stated. With a name array of 8 bytes, two finds
with create of the name `configure`, or of `configure` and then `configuration`, leave two
modes named `configu` in the list. -/
theorem stx_long_names_give_two_modes_of_one_name :
    (stx_run exConsts [.find "configure" true (some 1), .find "configure" true (some 2)]
        stx_zero).map (fun stx => (stx.stx_nmodes, stx.stx_modes.map (fun m => m.csm_name)))
      = some (2, ["configu", "configu"]) ∧
    (stx_run exConsts [.find "configure" true (some 1), .find "configuration" true (some 2)]
        stx_zero).map (fun stx => (stx.stx_nmodes, stx.stx_modes.map (fun m => m.csm_name)))
      = some (2, ["configu", "configu"]) := by
  decide

/-- C27: from a syntax in which the count is the number of the modes and no two modes have
the same name, every sequence of calls of `syntax_mode_find` (with or without create),
`cli_set_syntax_mode`, `cli_set_prompt` and `cli_syntax_unload`, whatever malloc gives, in
which every name fits the array of the name, runs without reading through a NULL pointer
and ends in a syntax with the same two properties. The count is the number of the modes
also when the names are longer. A find without create leaves the syntax as it is, and
`cli_syntax_unload` leaves no mode and a count of 0. -/
theorem stx_calls_keep_invariant (k : cli_consts) (calls : List stx_call)
    (stx : cli_syntax_t) (hinv : spec_stx_invariant stx)
    (hlen : ∀ c ∈ calls, ∀ n ∈ c.names, n.length < k.csm_name_size) :
    (∃ stx1, stx_run k calls stx = some stx1 ∧ spec_stx_invariant stx1) ∧
    (∀ calls1 : List stx_call,
      ∃ stx1, stx_run k calls1 stx = some stx1 ∧ stx1.stx_nmodes = stx1.stx_modes.length) ∧
    (∀ (mode : String) (malloc : Option Nat),
      (syntax_mode_find k stx mode false malloc).2 = stx) ∧
    cli_syntax_unload stx = some ⟨0, stx.stx_active_mode, []⟩ :=
  ⟨stx_run_invariant k calls stx hinv hlen,
   fun calls1 => stx_run_count k calls1 stx hinv.1,
   fun mode malloc => syntax_mode_find_nocreate k stx mode malloc,
   cli_syntax_unload_spec stx hinv.1⟩

/-- C27, example: a sequence of calls on the empty syntax, with names that fit. -/
theorem stx_calls_keep_invariant_witness :
    ∃ stx1, stx_run exConsts
        [.find "base" true (some 1), .set_syntax_mode "conf" (some 2),
         .set_prompt "base" "b> " none, .find "x" false none, .find "conf" true (some 3)]
        stx_zero = some stx1 ∧ spec_stx_invariant stx1 :=
  (stx_calls_keep_invariant exConsts
    [.find "base" true (some 1), .set_syntax_mode "conf" (some 2),
     .set_prompt "base" "b> " none, .find "x" false none, .find "conf" true (some 3)]
    stx_zero ⟨rfl, List.nodup_nil⟩ (by decide)).1

/-! ## The log callback -/

theorem set_at_length (pre : List Char) (x : Char) (rest : List Char) (c : Char) :
    (pre ++ x :: rest).set pre.length c = pre ++ c :: rest := by
  induction pre with
  | nil => rfl
  | cons a pre ih => simp [ih]

theorem backend_log_cb_count_eq (msg : List Char) (n : Nat) :
    backend_log_cb_count msg n = n + msg.count '%' := by
  induction msg generalizing n with
  | nil => rfl
  | cons c rest ih =>
    unfold backend_log_cb_count
    rw [ih]
    by_cases h : c = '%'
    · rw [if_pos h, h, List.count_cons_self]
      omega
    · rw [if_neg h, List.count_cons_of_ne (fun hc => h hc.symm)]

theorem spec_escape_percent_length (msg : List Char) :
    (spec_escape_percent msg).length = msg.length + msg.count '%' := by
  induction msg with
  | nil => rfl
  | cons c rest ih =>
    unfold spec_escape_percent
    rw [List.length_append, ih]
    by_cases h : c = '%'
    · rw [if_pos h, h, List.count_cons_self]
      simp only [List.length_cons, List.length_nil]
      omega
    · rw [if_neg h, List.count_cons_of_ne (fun hc => h hc.symm)]
      simp only [List.length_cons, List.length_nil]
      omega

/-- The second loop writes the message with its `%` doubled over the bytes of the block
from `nptr` on, and nothing else: the bytes before and the bytes after are as they
were. -/
theorem backend_log_cb_copy_eq (msg : List Char) (pre post : List Char)
    (h : (spec_escape_percent msg).length ≤ post.length) :
    backend_log_cb_copy msg pre.length (pre ++ post)
      = pre ++ spec_escape_percent msg ++ post.drop (spec_escape_percent msg).length := by
  induction msg generalizing pre post with
  | nil => simp [backend_log_cb_copy, spec_escape_percent]
  | cons c rest ih =>
    unfold backend_log_cb_copy
    unfold spec_escape_percent at h ⊢
    by_cases hc : c = '%'
    · simp only [hc, if_true] at h ⊢
      match post, h with
      | x :: y :: post2, h =>
        rw [set_at_length]
        have e1 : (pre ++ '%' :: y :: post2).set (pre.length + 1) '%'
            = (pre ++ ['%']) ++ '%' :: post2 := by
          simp
        rw [e1]
        have e2 : pre.length + 2 = (pre ++ ['%', '%']).length := by simp
        have e3 : (pre ++ ['%']) ++ '%' :: post2 = (pre ++ ['%', '%']) ++ post2 := by simp
        rw [e2, e3, ih (pre ++ ['%', '%']) post2 (by
          simp only [List.length_append, List.length_cons, List.length_nil] at h
          omega)]
        simp
    · simp only [hc, if_false] at h ⊢
      match post, h with
      | x :: post1, h =>
        rw [set_at_length]
        have e2 : pre.length + 1 = (pre ++ [c]).length := by simp
        have e3 : pre ++ c :: post1 = (pre ++ [c]) ++ post1 := by simp
        rw [e2, e3, ih (pre ++ [c]) post1 (by
          simp only [List.length_append, List.length_cons, List.length_nil] at h
          omega)]
        simp

theorem malloc_block_drop (junk : Nat → Char) (m : Nat) :
    (malloc_block junk (m + 1)).drop m = [junk m] := by
  unfold malloc_block
  rw [List.range_succ, List.map_append]
  have : ((List.range m).map junk).length = m := by simp
  rw [List.drop_append_of_le_length (by omega), List.drop_of_length_le (by omega)]
  rfl

theorem spec_collapse_escape (msg : List Char) :
    spec_collapse_percent (spec_escape_percent msg) = msg := by
  induction msg with
  | nil => rfl
  | cons c rest ih =>
    unfold spec_escape_percent
    by_cases hc : c = '%'
    · rw [if_pos hc, hc]
      show spec_collapse_percent ('%' :: '%' :: spec_escape_percent rest) = _
      rw [spec_collapse_percent]
      simp [ih]
    · rw [if_neg hc]
      show spec_collapse_percent (c :: spec_escape_percent rest) = _
      cases he : spec_escape_percent rest with
      | nil =>
        rw [he] at ih
        rw [← ih]
        rfl
      | cons d r =>
        rw [spec_collapse_percent, if_neg (fun h => hc h.1), ← he, ih]

/-- The block that `backend_log_cb` hands to `backend_notify`: the message with its `%`
doubled, and then one byte that the function has not written. -/
theorem backend_log_cb_block (env : log_env) (level : Int) (msg : List Char)
    (hm : env.malloc_fails = false) :
    backend_log_cb env level msg
      = (env.backend_notify, some ("CLICON", level,
          spec_escape_percent msg ++ [env.junk (msg.length + msg.count '%')])) := by
  unfold backend_log_cb
  rw [hm]
  simp only [Bool.false_eq_true, if_false]
  rw [backend_log_cb_count_eq, Nat.zero_add]
  have h := backend_log_cb_copy_eq msg [] (malloc_block env.junk (msg.length + msg.count '%' + 1))
    (by
      rw [spec_escape_percent_length]
      unfold malloc_block
      simp)
  simp only [List.length_nil, List.nil_append] at h
  rw [h, spec_escape_percent_length, malloc_block_drop]

theorem spec_escape_percent_mem (msg : List Char) (c : Char)
    (h : c ∈ spec_escape_percent msg) : c ∈ msg := by
  induction msg with
  | nil => exact h
  | cons a rest ih =>
    unfold spec_escape_percent at h
    rcases List.mem_append.mp h with h1 | h1
    · by_cases ha : a = '%'
      · rw [if_pos ha] at h1
        simp only [List.mem_cons, List.mem_singleton, List.not_mem_nil, or_false, or_self] at h1
        rw [h1, ← ha]
        exact List.mem_cons_self _ _
      · rw [if_neg ha] at h1
        rw [List.mem_singleton.mp h1]
        exact List.mem_cons_self _ _
    · exact List.mem_cons_of_mem _ (ih h1)

theorem c_string_unterminated (l : List Char) (x : Char) (hl : NUL ∉ l) (hx : x ≠ NUL) :
    c_string (l ++ [x]) = none := by
  unfold c_string
  rw [if_neg]
  intro h
  rcases List.mem_append.mp h with h1 | h1
  · exact hl h1
  · exact hx (List.mem_singleton.mp h1).symm

theorem c_string_terminated (l : List Char) (hl : NUL ∉ l) :
    c_string (l ++ [NUL]) = some l := by
  unfold c_string
  rw [if_pos (List.mem_append_right _ (List.mem_singleton.mpr rfl))]
  congr 1
  induction l with
  | nil => simp [List.takeWhile]
  | cons a rest ih =>
    have ha : a ≠ NUL := fun h => hl (h ▸ List.mem_cons_self _ _)
    simp only [List.cons_append, List.takeWhile_cons, ha, ne_eq, not_false_eq_true,
      decide_True, if_true]
    rw [ih (fun h => hl (List.mem_cons_of_mem _ h))]

/-- C22, failing input. `backend_log_cb` allocates `len(msg) + n + 1` bytes and writes
`len(msg) + n` of them: the message with its `%` doubled. It does not write the
terminating NUL, and malloc does not clear the block, so the last byte is what the memory
held. The first `len(msg) + n` bytes are as claimed (and collapsing `%%` gives back the
message); but when that last byte is not NUL the block holds no NUL at all and the C
string that `backend_notify` reads runs out of the block. Only when the last byte happens
to be NUL is the string the one of the claim. Last part, the run: the message `50% done`
in a block of junk `X`: the block is `50%% doneX`, with no NUL. -/
theorem backend_log_cb_does_not_terminate_string :
    (∀ (env : log_env) (level : Int) (msg : List Char), env.malloc_fails = false →
      backend_log_cb env level msg
        = (env.backend_notify, some ("CLICON", level,
            spec_escape_percent msg ++ [env.junk (msg.length + msg.count '%')])) ∧
      (spec_escape_percent msg).length = msg.length + msg.count '%' ∧
      spec_collapse_percent (spec_escape_percent msg) = msg) ∧
    (∀ (env : log_env) (msg : List Char), NUL ∉ msg →
      env.junk (msg.length + msg.count '%') ≠ NUL →
      c_string (spec_escape_percent msg ++ [env.junk (msg.length + msg.count '%')]) = none) ∧
    (∀ (env : log_env) (msg : List Char), NUL ∉ msg →
      env.junk (msg.length + msg.count '%') = NUL →
      c_string (spec_escape_percent msg ++ [env.junk (msg.length + msg.count '%')])
        = some (spec_escape_percent msg)) ∧
    (backend_log_cb ⟨false, fun _ => 'X', 0⟩ 5 "50% done".data).2
      = some ("CLICON", 5, "50%% doneX".data) ∧
    c_string "50%% doneX".data = none := by
  refine ⟨fun env level msg hm => ⟨backend_log_cb_block env level msg hm,
      spec_escape_percent_length msg, spec_collapse_escape msg⟩, ?_, ?_, by decide, by decide⟩
  · intro env msg hnul hj
    exact c_string_unterminated _ _ (fun h => hnul (spec_escape_percent_mem msg NUL h)) hj
  · intro env msg hnul hj
    rw [hj]
    exact c_string_terminated _ (fun h => hnul (spec_escape_percent_mem msg NUL h))

/-! ## The prompt -/

/-- One pass of the loop over a character that is not NUL, `%` or a backslash: the
character is copied and the scan moves one position forward. -/
theorem prompt_fmt_loop_plain_step (env : prompt_env) (mem : Nat → Char) (fuel s : Nat)
    (cb : List Char) (h0 : mem s ≠ NUL) (h1 : mem s ≠ '%') (h2 : mem s ≠ '\\') :
    prompt_fmt_loop env mem (fuel + 1) s cb = prompt_fmt_loop env mem fuel (s + 1) (cb ++ [mem s]) := by
  rw [prompt_fmt_loop]
  rw [if_neg h0, if_neg (fun h => h1 h.1)]
  simp only [if_neg h1]
  rw [if_neg (fun h => h2 h.1)]
  simp only [if_neg h2]

/-- The loop over characters that are not NUL, `%` or a backslash copies them. -/
theorem prompt_fmt_loop_plain (env : prompt_env) (mem : Nat → Char) (p : List Char)
    (fuel s : Nat) (cb : List Char)
    (hmem : ∀ i, i < p.length → mem (s + i) = p.getD i NUL)
    (hp : ∀ c ∈ p, c ≠ NUL ∧ c ≠ '%' ∧ c ≠ '\\') :
    prompt_fmt_loop env mem (fuel + p.length) s cb
      = prompt_fmt_loop env mem fuel (s + p.length) (cb ++ p) := by
  induction p generalizing s cb with
  | nil => simp
  | cons c rest ih =>
    have hc : mem s = c := by
      have := hmem 0 (by simp)
      simpa using this
    obtain ⟨c0, c1, c2⟩ := hp c (List.mem_cons_self _ _)
    have e : fuel + (c :: rest).length = (fuel + rest.length) + 1 := by
      simp only [List.length_cons]
      omega
    rw [e, prompt_fmt_loop_plain_step env mem _ s cb (hc ▸ c0) (hc ▸ c1) (hc ▸ c2), hc,
      ih (s + 1) (cb ++ [c]) (fun i hi => by
        have := hmem (i + 1) (by simp only [List.length_cons]; omega)
        rw [show s + 1 + i = s + (i + 1) by omega, this]
        rfl) (fun x hx => hp x (List.mem_cons_of_mem _ hx))]
    simp only [List.length_cons, List.append_assoc, List.singleton_append]
    rw [show s + 1 + rest.length = s + (rest.length + 1) by omega]

/-- One pass of the loop over a `%` or a backslash that is followed by the terminator:
a NUL is put in the buffer and the scan moves two positions forward, over the
terminator. -/
theorem prompt_fmt_loop_last_step (env : prompt_env) (mem : Nat → Char) (fuel s : Nat)
    (cb : List Char) (h1 : mem s = '%' ∨ mem s = '\\') (h2 : mem (s + 1) = NUL) :
    prompt_fmt_loop env mem (fuel + 1) s cb
      = prompt_fmt_loop env mem fuel (s + 2) (cb ++ [NUL]) := by
  have hn : mem s ≠ NUL := by
    rcases h1 with h | h <;> rw [h] <;> decide
  have hnb : NUL ≠ '\\' := by decide
  rw [prompt_fmt_loop]
  rw [if_neg hn, if_neg (fun h => h.2 h2)]
  rcases h1 with h | h
  · have hb : mem s ≠ '\\' := by rw [h]; decide
    simp only [h, if_true, h2]
    rw [if_neg (fun hc => hnb hc.1)]
    simp only [if_neg hnb]
    rw [h2]
  · have hb : mem s ≠ '%' := by rw [h]; decide
    simp only [if_neg hb]
    rw [if_neg (fun hc => hc.2 h2)]
    simp only [h, if_true, h2]

/-- One pass of the loop at a character that is not NUL goes on at a later position, at
most two positions further. -/
theorem prompt_fmt_loop_step (env : prompt_env) (mem : Nat → Char) (s : Nat)
    (cb : List Char) (h0 : mem s ≠ NUL) :
    ∃ s1 cb1, s < s1 ∧ s1 ≤ s + 2 ∧ ∀ fuel,
      prompt_fmt_loop env mem (fuel + 1) s cb = prompt_fmt_loop env mem fuel s1 cb1 := by
  by_cases hA : mem s = '%' ∧ mem (s + 1) ≠ NUL
  · refine ⟨s + 2, ?_, by omega, by omega, fun fuel => ?_⟩
    rotate_left
    · rw [prompt_fmt_loop, if_neg h0, if_pos hA]
      exact rfl
  by_cases hB : mem (if mem s = '%' then s + 1 else s) = '\\' ∧
      mem ((if mem s = '%' then s + 1 else s) + 1) ≠ NUL
  · refine ⟨(if mem s = '%' then s + 1 else s) + 2, ?_, ?_, ?_, fun fuel => ?_⟩
    rotate_left
    · split <;> omega
    · split
      · rename_i hp
        exfalso
        rw [if_pos hp] at hB
        exact hA ⟨hp, fun hn => by rw [hn] at hB; exact absurd hB.1 (by decide)⟩
      · omega
    · rw [prompt_fmt_loop, if_neg h0, if_neg hA]
      dsimp only
      rw [if_pos hB]
      exact rfl
  · refine ⟨(if mem (if mem s = '%' then s + 1 else s) = '\\'
      then (if mem s = '%' then s + 1 else s) + 1
      else (if mem s = '%' then s + 1 else s)) + 1, ?_, ?_, ?_, fun fuel => ?_⟩
    rotate_left
    · split <;> split <;> omega
    · by_cases hp : mem s = '%'
      · simp only [hp, if_true]
        have hn : mem (s + 1) = NUL := by
          by_contra hc
          exact hA ⟨hp, hc⟩
        rw [hn, if_neg (by decide)]
      · simp only [hp, if_false]
        split <;> omega
    · rw [prompt_fmt_loop, if_neg h0, if_neg hA]
      dsimp only
      rw [if_neg hB]
      exact rfl

/-- The position at which the loop ends is not before the position at which it starts. -/
theorem prompt_fmt_loop_ge (env : prompt_env) (mem : Nat → Char) (fuel s : Nat)
    (cb : List Char) (s1 : Nat) (cb1 : List Char)
    (h : prompt_fmt_loop env mem fuel s cb = some (s1, cb1)) : s ≤ s1 := by
  induction fuel generalizing s cb with
  | zero => simp [prompt_fmt_loop] at h
  | succ n ih =>
    by_cases h0 : mem s = NUL
    · rw [prompt_fmt_loop, if_pos h0] at h
      simp only [Option.some.injEq, Prod.mk.injEq] at h
      omega
    · obtain ⟨s2, cb2, hlt, _, heq⟩ := prompt_fmt_loop_step env mem s cb h0
      rw [heq] at h
      have := ih _ _ h
      omega

/-- In a memory that holds no NUL from the position `s` on, the loop does not end. -/
theorem prompt_fmt_loop_no_nul (env : prompt_env) (mem : Nat → Char) (fuel s : Nat)
    (cb : List Char) (h : ∀ i, s ≤ i → mem i ≠ NUL) :
    prompt_fmt_loop env mem fuel s cb = none := by
  induction fuel generalizing s cb with
  | zero => rfl
  | succ n ih =>
    obtain ⟨s2, cb2, hlt, _, heq⟩ := prompt_fmt_loop_step env mem s cb (h s (Nat.le_refl _))
    rw [heq]
    exact ih _ _ (fun i hi => h i (by omega))

/-- More passes do not change what the loop returns. -/
theorem prompt_fmt_loop_mono (env : prompt_env) (mem : Nat → Char) (fuel k s : Nat)
    (cb : List Char) (r : Nat × List Char)
    (h : prompt_fmt_loop env mem fuel s cb = some r) :
    prompt_fmt_loop env mem (fuel + k) s cb = some r := by
  induction fuel generalizing s cb with
  | zero => simp [prompt_fmt_loop] at h
  | succ n ih =>
    by_cases h0 : mem s = NUL
    · rw [prompt_fmt_loop, if_pos h0] at h
      rw [show n + 1 + k = (n + k) + 1 by omega, prompt_fmt_loop, if_pos h0]
      exact h
    · obtain ⟨s2, cb2, _, _, heq⟩ := prompt_fmt_loop_step env mem s cb h0
      rw [heq] at h
      rw [show n + 1 + k = (n + k) + 1 by omega, heq]
      exact ih _ _ h

theorem c_mem_lt (s : List Char) (beyond : Nat → Char) (i : Nat) (h : i < s.length) :
    c_mem s beyond i = s.getD i NUL := by
  unfold c_mem
  rw [if_pos h]

theorem c_mem_end (s : List Char) (beyond : Nat → Char) :
    c_mem s beyond s.length = NUL := by
  unfold c_mem
  rw [if_neg (Nat.lt_irrefl _), if_pos rfl]

theorem c_mem_beyond (s : List Char) (beyond : Nat → Char) (i : Nat) (h : s.length < i) :
    c_mem s beyond i = beyond (i - s.length - 1) := by
  unfold c_mem
  rw [if_neg (by omega), if_neg (by omega)]

/-- The scan of a format made of characters that are not `%` or a backslash, followed by
one `%` or one backslash: after the passes over these characters, the scan is one
position after the terminator, with a NUL put in the buffer. -/
theorem prompt_fmt_loop_trailing (env : prompt_env) (p : List Char) (x : Char)
    (beyond : Nat → Char) (fuel : Nat)
    (hp : ∀ c ∈ p, c ≠ NUL ∧ c ≠ '%' ∧ c ≠ '\\') (hx : x = '%' ∨ x = '\\') :
    prompt_fmt_loop env (c_mem (p ++ [x]) beyond) (fuel + 1 + p.length) 0 []
      = prompt_fmt_loop env (c_mem (p ++ [x]) beyond) fuel ((p ++ [x]).length + 1)
          (p ++ [NUL]) := by
  have hlen : (p ++ [x]).length = p.length + 1 := by simp
  rw [prompt_fmt_loop_plain env _ p (fuel + 1) 0 [] (fun i hi => by
      rw [Nat.zero_add, c_mem_lt _ _ _ (by omega)]
      simp [List.getD, List.getElem?_append_left hi]) hp]
  have h1 : c_mem (p ++ [x]) beyond (0 + p.length) = x := by
    rw [Nat.zero_add, c_mem_lt _ _ _ (by omega)]
    simp [List.getD]
  have h2 : c_mem (p ++ [x]) beyond (0 + p.length + 1) = NUL := by
    rw [Nat.zero_add, ← hlen]
    exact c_mem_end _ _
  rw [prompt_fmt_loop_last_step env _ fuel (0 + p.length) _ (by rw [h1]; exact hx) h2, hlen]
  simp

/-- The scan of a format made of characters that are not `%` or a backslash ends at the
terminator, with the characters in the buffer. -/
theorem prompt_fmt_loop_plain_format (env : prompt_env) (p : List Char)
    (beyond : Nat → Char) (fuel : Nat) (hp : ∀ c ∈ p, c ≠ NUL ∧ c ≠ '%' ∧ c ≠ '\\') :
    prompt_fmt_loop env (c_mem p beyond) (fuel + 1 + p.length) 0 [] = some (p.length, p) := by
  rw [prompt_fmt_loop_plain env _ p (fuel + 1) 0 [] (fun i hi => by
      rw [Nat.zero_add, c_mem_lt _ _ _ hi]) hp]
  rw [prompt_fmt_loop, Nat.zero_add, if_pos (c_mem_end p beyond)]
  simp

/-- C28, failing input. When the format ends in `%` or in a backslash, the test
`*s == '%' && *++s` (or the one on the backslash) moves the scan onto the terminator and
fails, the last branch of the loop puts that NUL in the buffer, and `s++` moves the scan
one position after the terminator: the loop goes on in the memory that follows the
string. For every format made of plain characters followed by one `%` or backslash:
the scan is at the position `len + 1`; when it ends, it ends after the terminator; and
when the memory that follows holds no NUL it does not end within any number of passes. A
format without `%` and backslash is scanned up to its terminator. Then the runs: `cli%`
followed in memory by `XY` and a NUL: the loop ends at position 7, the terminator being
at 4, with `cli`, a NUL and `XY` in the buffer; `%` followed by `X` for ever: no end
within 40 passes. -/
theorem prompt_fmt_scan_passes_terminator :
    (∀ (env : prompt_env) (p : List Char) (x : Char) (beyond : Nat → Char),
      (∀ c ∈ p, c ≠ NUL ∧ c ≠ '%' ∧ c ≠ '\\') → x = '%' ∨ x = '\\' →
      (∀ fuel, prompt_fmt_loop env (c_mem (p ++ [x]) beyond) (fuel + 1 + p.length) 0 []
        = prompt_fmt_loop env (c_mem (p ++ [x]) beyond) fuel ((p ++ [x]).length + 1)
            (p ++ [NUL])) ∧
      (∀ fuel s cb, prompt_fmt_loop env (c_mem (p ++ [x]) beyond) fuel 0 [] = some (s, cb) →
        (p ++ [x]).length < s) ∧
      ((∀ i, beyond i ≠ NUL) →
        ∀ fuel, prompt_fmt_loop env (c_mem (p ++ [x]) beyond) fuel 0 [] = none)) ∧
    (∀ (env : prompt_env) (p : List Char) (beyond : Nat → Char) (fuel : Nat),
      (∀ c ∈ p, c ≠ NUL ∧ c ≠ '%' ∧ c ≠ '\\') →
      prompt_fmt_loop env (c_mem p beyond) (fuel + 1 + p.length) 0 [] = some (p.length, p)) ∧
    prompt_fmt_loop exPromptEnv (c_mem "cli%".data (fun i => "XY".data.getD i NUL)) 20 0 []
      = some (7, "cli".data ++ [NUL] ++ "XY".data) ∧
    prompt_fmt_loop exPromptEnv (c_mem "%".data (fun _ => 'X')) 40 0 [] = none := by
  refine ⟨?_, fun env p beyond fuel hp => prompt_fmt_loop_plain_format env p beyond fuel hp,
    by decide, by decide⟩
  intro env p x beyond hp hx
  have key := fun fuel => prompt_fmt_loop_trailing env p x beyond fuel hp hx
  refine ⟨key, ?_, ?_⟩
  · intro fuel s cb h
    have h1 := prompt_fmt_loop_mono env _ fuel (1 + p.length) 0 [] (s, cb) h
    rw [show fuel + (1 + p.length) = fuel + 1 + p.length by omega, key] at h1
    have := prompt_fmt_loop_ge env _ _ _ _ _ _ h1
    omega
  · intro hb fuel
    cases hr : prompt_fmt_loop env (c_mem (p ++ [x]) beyond) fuel 0 [] with
    | none => rfl
    | some r =>
      have h1 := prompt_fmt_loop_mono env _ fuel (1 + p.length) 0 [] r hr
      rw [show fuel + (1 + p.length) = fuel + 1 + p.length by omega, key,
        prompt_fmt_loop_no_nul env _ fuel _ _ (fun i hi => by
          rw [c_mem_beyond _ _ _ (by omega)]
          exact hb _)] at h1
      cases h1

/-- One pass of the loop over a well-formed piece of the format puts in the buffer what
the specification says, and moves the scan after the piece. -/
theorem prompt_fmt_loop_item (env : prompt_env) (mem : Nat → Char) (it : prompt_item)
    (fuel s : Nat) (cb : List Char) (hwf : it.wf)
    (hmem : ∀ i, i < it.src.length → mem (s + i) = it.src.getD i NUL) :
    prompt_fmt_loop env mem (fuel + 1) s cb
      = prompt_fmt_loop env mem fuel (s + it.src.length) (cb ++ spec_prompt_item env it) := by
  cases it with
  | plain c =>
    have h0 : mem s = c := hmem 0 (Nat.zero_lt_one)
    obtain ⟨w0, w1, w2⟩ := hwf
    rw [prompt_fmt_loop_plain_step env mem fuel s cb (h0 ▸ w0) (h0 ▸ w1) (h0 ▸ w2), h0]
    rfl
  | host =>
    have h0 : mem s = '%' := hmem 0 (by decide)
    have h1 : mem (s + 1) = 'H' := hmem 1 (by decide)
    rw [prompt_fmt_loop, if_neg (by rw [h0]; decide),
      if_pos ⟨h0, by rw [h1]; decide⟩]
    simp only [h1, if_true]
    rfl
  | user =>
    have h0 : mem s = '%' := hmem 0 (by decide)
    have h1 : mem (s + 1) = 'U' := hmem 1 (by decide)
    rw [prompt_fmt_loop, if_neg (by rw [h0]; decide),
      if_pos ⟨h0, by rw [h1]; decide⟩]
    simp only [h1, if_true]
    rw [if_neg (by decide)]
    rfl
  | tty =>
    have h0 : mem s = '%' := hmem 0 (by decide)
    have h1 : mem (s + 1) = 'T' := hmem 1 (by decide)
    rw [prompt_fmt_loop, if_neg (by rw [h0]; decide),
      if_pos ⟨h0, by rw [h1]; decide⟩]
    simp only [h1, if_true]
    rw [if_neg (by decide), if_neg (by decide)]
    rfl
  | newline =>
    have h0 : mem s = '\\' := hmem 0 (by decide)
    have h1 : mem (s + 1) = 'n' := hmem 1 (by decide)
    have hp : mem s ≠ '%' := by rw [h0]; decide
    rw [prompt_fmt_loop, if_neg (by rw [h0]; decide), if_neg (fun h => hp h.1)]
    simp only [if_neg hp]
    rw [if_pos ⟨h0, by rw [h1]; decide⟩]
    simp only [h1, if_true]
    rfl
  | backslash c =>
    have h0 : mem s = '\\' := hmem 0 (Nat.zero_lt_two)
    have h1 : mem (s + 1) = c := hmem 1 (Nat.one_lt_two)
    have hp : mem s ≠ '%' := by rw [h0]; decide
    obtain ⟨w0, w1⟩ := hwf
    rw [prompt_fmt_loop, if_neg (by rw [h0]; decide), if_neg (fun h => hp h.1)]
    simp only [if_neg hp]
    rw [if_pos ⟨h0, by rw [h1]; exact w0⟩]
    simp only [h1, if_neg w1]
    rfl

/-- The loop over a format made of well-formed pieces puts the prompt of the
specification in the buffer and moves the scan to the end of the format. -/
theorem prompt_fmt_loop_items (env : prompt_env) (mem : Nat → Char)
    (items : List prompt_item) (fuel s : Nat) (cb : List Char)
    (hwf : ∀ it ∈ items, it.wf)
    (hmem : ∀ i, i < (spec_prompt_format items).length →
      mem (s + i) = (spec_prompt_format items).getD i NUL) :
    prompt_fmt_loop env mem (fuel + items.length) s cb
      = prompt_fmt_loop env mem fuel (s + (spec_prompt_format items).length)
          (cb ++ spec_prompt env items) := by
  induction items generalizing s cb with
  | nil => simp [spec_prompt_format, spec_prompt]
  | cons it rest ih =>
    have hlen : (spec_prompt_format (it :: rest)).length
        = it.src.length + (spec_prompt_format rest).length := by
      simp [spec_prompt_format]
    rw [show fuel + (it :: rest).length = (fuel + rest.length) + 1 by
      simp only [List.length_cons]; omega]
    rw [prompt_fmt_loop_item env mem it _ s cb (hwf it (List.mem_cons_self _ _))
      (fun i hi => by
        rw [hmem i (by omega)]
        show (it.src ++ spec_prompt_format rest).getD i NUL = _
        rw [List.getD_append _ _ _ _ hi])]
    rw [ih (s + it.src.length) _ (fun x hx => hwf x (List.mem_cons_of_mem _ hx))
      (fun i hi => by
        rw [show s + it.src.length + i = s + (it.src.length + i) by omega,
          hmem (it.src.length + i) (by omega)]
        show (it.src ++ spec_prompt_format rest).getD (it.src.length + i) NUL = _
        rw [List.getD_append_right _ _ _ _ (by omega)]
        simp)]
    rw [hlen]
    simp only [spec_prompt, List.append_assoc]
    rw [show s + it.src.length + (spec_prompt_format rest).length
      = s + (it.src.length + (spec_prompt_format rest).length) by omega]

theorem format_noargs_plain (l : List Char) (h : '%' ∉ l) : format_noargs l = some l := by
  induction l with
  | nil => rfl
  | cons c rest ih =>
    have hc : c ≠ '%' := fun hc => h (hc ▸ List.mem_cons_self _ _)
    have hr := ih (fun hm => h (List.mem_cons_of_mem _ hm))
    cases rest with
    | nil =>
      rw [format_noargs, if_neg hc]
    | cons d r =>
      rw [format_noargs, if_neg hc, hr]
      rfl

/-- For a format made of well-formed pieces, when what goes into the prompt holds no `%`
and no NUL, `cli_prompt` returns the prompt of the specification, truncated to
`CLI_PROMPT_LEN - 1` characters. -/
theorem cli_prompt_spec (k : cli_consts) (env : prompt_env) (items : List prompt_item)
    (beyond : Nat → Char) (fuel : Nat)
    (hcb : env.cbuf_new_fails = false)
    (hwf : ∀ it ∈ items, it.wf)
    (hvals : ∀ c ∈ spec_prompt env items, c ≠ '%' ∧ c ≠ NUL) :
    cli_prompt k env (spec_prompt_format items) beyond (fuel + 1 + items.length)
      = some ((spec_prompt env items).take (k.CLI_PROMPT_LEN - 1)) := by
  unfold cli_prompt prompt_fmt
  rw [hcb]
  simp only [Bool.false_eq_true, if_false]
  rw [prompt_fmt_loop_items env _ items (fuel + 1) 0 [] hwf (fun i hi => by
    rw [Nat.zero_add, c_mem_lt _ _ _ hi])]
  rw [prompt_fmt_loop, Nat.zero_add, if_pos (c_mem_end _ _)]
  simp only [List.nil_append]
  have htw : (spec_prompt env items).takeWhile (fun c => c ≠ NUL) = spec_prompt env items := by
    rw [List.takeWhile_eq_self_iff]
    intro c hc
    simpa using (hvals c hc).2
  rw [htw]
  unfold vsnprintf
  rw [format_noargs_plain _ (fun hm => (hvals '%' hm).1 rfl)]
  simp only [Option.map_some']
  rw [if_neg (by omega)]

/-- C29, failing input. `prompt_fmt` builds the prompt in a buffer and then gives the
buffer to vsnprintf as the format, with no argument, so that a `%` that comes from the
value of `USER`, from the host name or from the tty name is read as a conversion. First
part: what holds. For a format made of plain characters, `%H`, `%U`, `%T` and pairs of a
backslash and a character, when what goes into the prompt holds no `%`, `cli_prompt`
returns the prompt of the specification truncated to `CLI_PROMPT_LEN - 1` characters.
Then the runs, with the format `%U> `: for `USER` set to `a%%b` the prompt is `a%b> `,
not `a%%b> `; for `USER` set to `a%sb` vsnprintf reads an argument that was not passed
(no defined result). With the format `%T> ` and a ttyname_r that fails by returning the
error number 25, as ttyname_r(3) does, the test `< 0` does not hold and the prompt holds
what the array `tty` held, not `notty`. Last run, for comparison: `%U@%H> ` gives
`olof@r1> `. -/
theorem cli_prompt_reads_values_as_format :
    (∀ (k : cli_consts) (env : prompt_env) (items : List prompt_item) (beyond : Nat → Char)
      (fuel : Nat), env.cbuf_new_fails = false → (∀ it ∈ items, it.wf) →
      (∀ c ∈ spec_prompt env items, c ≠ '%' ∧ c ≠ NUL) →
      cli_prompt k env (spec_prompt_format items) beyond (fuel + 1 + items.length)
        = some ((spec_prompt env items).take (k.CLI_PROMPT_LEN - 1))) ∧
    cli_prompt exConsts { exPromptEnv with getenv_USER := some "a%%b".data } "%U> ".data
      (fun _ => 'X') 20 = some "a%b> ".data ∧
    cli_prompt exConsts { exPromptEnv with getenv_USER := some "a%sb".data } "%U> ".data
      (fun _ => 'X') 20 = none ∧
    cli_prompt exConsts { exPromptEnv with ttyname_r := (25, "??".data) } "%T> ".data
      (fun _ => 'X') 20 = some "??> ".data ∧
    cli_prompt exConsts exPromptEnv "%U@%H> ".data (fun _ => 'X') 20 = some "olof@r1> ".data :=
  ⟨fun k env items beyond fuel hcb hwf hvals =>
      cli_prompt_spec k env items beyond fuel hcb hwf hvals,
    by decide, by decide, by decide, by decide⟩

end Clixon
